import Mathlib

/-!
proteaaudio: the SDL mixer (`cbits/proAudioSdl.cpp`)

A shallow embedding of `DeviceAudioSdl`: the track pool, the sample store, the
control calls and the render callback `mixOutputFloat`.

Modelling conventions.

* `unsigned int` / `Uint32` values are naturals kept below `2^32` by explicit
  reduction, `uint64_t` values are naturals kept below `2^64`, `int` values are
  integers; a signed overflow, an out-of-range float-to-integer conversion, a
  remainder by zero and a read outside the allocated buffer are undefined in
  C++ and make the embedded function return `none`.
* `float` and `double` values are rationals (finite values only: neither NaN
  nor infinities are represented).  Every floating-point operation is the
  exact operation followed by a rounding function taken from a `FloatModel`,
  so that the theorems hold whatever the rounding behaviour is.
* A pointer to a sample buffer is the address together with the bytes stored
  there: buffers are never written after `sampleFromMemory` stored them, and
  pointer comparison compares the addresses.
-/

namespace ProAudio

/-! ## Machine arithmetic -/

/-- Reduction of an integer to the `unsigned int` range. -/
def wrapU32 (z : Int) : Nat := (z % 2 ^ 32).toNat

/-- Conversion of an `unsigned int` bit pattern to `int` (two's complement). -/
def toS32 (n : Nat) : Int :=
  if n % 2 ^ 32 < 2 ^ 31 then ((n % 2 ^ 32 : Nat) : Int) else ((n % 2 ^ 32 : Nat) : Int) - 2 ^ 32

/-- Result of a signed `int` operation: undefined when it overflows. -/
def chkS32 (z : Int) : Option Int :=
  if -(2 : Int) ^ 31 ≤ z ∧ z < 2 ^ 31 then some z else none

/-- Truncation of a rational toward zero, as C++ float-to-integer conversion does. -/
def truncQ (q : ℚ) : Int := q.num.tdiv (q.den : Int)

/-- Conversion `int(x)` of a floating-point value: undefined when out of range. -/
def f2i (q : ℚ) : Option Int := chkS32 (truncQ q)

/-- Conversion `(unsigned int)(x)` of a floating-point value: undefined when out of range. -/
def f2u (q : ℚ) : Option Nat :=
  if 0 ≤ truncQ q ∧ truncQ q < 2 ^ 32 then some (truncQ q).toNat else none

/-- Interpretation of a 16-bit pattern as `Sint16`. -/
def toS16 (n : Nat) : Int :=
  if n % 2 ^ 16 < 2 ^ 15 then ((n % 2 ^ 16 : Nat) : Int) else ((n % 2 ^ 16 : Nat) : Int) - 2 ^ 16

/-- The constant `SHRT_MAX` of `<climits>`. -/
def SHRT_MAX : Int := 32767

/-- The constant `SHRT_MIN` of `<climits>`. -/
def SHRT_MIN : Int := -32768

/-- Rounding behaviour of `float` (`r32`) and `double` (`r64`) arithmetic. -/
structure FloatModel where
  r32 : ℚ → ℚ
  r64 : ℚ → ℚ

/-- Exact arithmetic: no rounding at all. -/
def FloatModel.exact : FloatModel := ⟨fun q => q, fun q => q⟩

/-! ## Data model -/

/-- A pointer to sample data: the address and the bytes allocated there. -/
structure Buffer where
  addr : Nat
  bytes : List (Fin 256)
deriving DecidableEq, Repr

/-- The null pointer. -/
def Buffer.null : Buffer := ⟨0, []⟩

/-- Read `*((Sint16 *)(&data[p]))` (little endian): undefined outside the allocation. -/
def readS16 (b : Buffer) (p : Int) : Option Int :=
  if 0 ≤ p then
    match b.bytes[p.toNat]?, b.bytes[p.toNat + 1]? with
    | some lo, some hi => some (toS16 (lo.val + 256 * hi.val))
    | _, _ => none
  else none

/-- The class `_AudioTrack`: one playback slot, or one stored sample. -/
structure AudioTrack where
  data : Buffer
  dpos : Nat
  dlen : Nat
  disparity : ℚ
  volL : ℚ
  volR : ℚ
  pitch : ℚ
  isLoop : Bool
  isPlaying : Bool
  isPaused : Bool
  uniqueId : Nat
  channels : Nat
deriving DecidableEq, Repr

/-- The constructor `_AudioTrack(pData, length)`; `uniqueId` is left uninitialised
by the source and is given here. -/
def AudioTrack.mk0 (pData : Buffer) (length : Nat) (uid : Nat) : AudioTrack :=
  { data := pData, dlen := length, dpos := 0, disparity := 0, volL := 1, volR := 1, pitch := 1,
    isLoop := false, isPlaying := false, isPaused := false, uniqueId := uid, channels := 2 }

/-- The state of a `DeviceAudioSdl` instance.  `m_nSound` is the length of `ma_sound`,
`m_freq` is `m_spec.freq`, and `m_volL`, `m_volR` are the global volumes inherited from the
base class `DeviceAudio`. -/
structure DeviceAudioSdl where
  ma_sound : List AudioTrack
  mm_sample : List (Nat × AudioTrack)
  m_uniqueCounter : Nat
  m_volL : ℚ
  m_volR : ℚ
  m_freq : Int
  m_isDesiredFormat : Bool
deriving DecidableEq, Repr

/-- The number of tracks, `m_nSound`. -/
def DeviceAudioSdl.m_nSound (m : DeviceAudioSdl) : Nat := m.ma_sound.length

/-! ## Handle codec -/

/-- Modelled from the spec: the macro `UH_PACK_UNIQUE_HANDLE` of the header
`proAudio.h`, which is not part of the sources at hand.  The handle packs the generation
(unique id) above `bits` payload bits holding the slot index, in 64 bits. -/
def UH_PACK_UNIQUE_HANDLE (bits uniqueId payload : Nat) : Nat :=
  (uniqueId % 2 ^ (64 - bits)) * 2 ^ bits + payload % 2 ^ bits

/-- Modelled from the spec: the macro `UH_UNPACK_PAYLOAD` of the missing header
(`unpackSlot`): the slot index held in the low `bits` bits of the handle. -/
def UH_UNPACK_PAYLOAD (bits uniqueHandle : Nat) : Nat := uniqueHandle % 2 ^ bits

/-- Modelled from the spec: the macro `UH_UNPACK_UNIQUE_ID` of the missing header
(`unpackGeneration`): the generation held above the payload bits. -/
def UH_UNPACK_UNIQUE_ID (bits uniqueHandle : Nat) : Nat := uniqueHandle / 2 ^ bits

/-! ## Sample store (`std::map<uint64_t,_AudioTrack> mm_sample`) -/

/-- The lookup `mm_sample.find(k)`: `none` stands for `mm_sample.end()`. -/
def mapFind (l : List (Nat × AudioTrack)) (k : Nat) : Option AudioTrack :=
  match l with
  | [] => none
  | e :: rest => if e.1 = k then some e.2 else mapFind rest k

/-- The insertion `mm_sample.insert(make_pair(k, v))`: no effect when the key is present. -/
def mapInsert (l : List (Nat × AudioTrack)) (k : Nat) (v : AudioTrack) : List (Nat × AudioTrack) :=
  match mapFind l k with
  | some _ => l
  | none => l ++ [(k, v)]

/-- The removal `mm_sample.erase(iter)` of the entry with key `k`. -/
def mapErase (l : List (Nat × AudioTrack)) (k : Nat) : List (Nat × AudioTrack) :=
  l.filter (fun e => e.1 ≠ k)

/-- Apply `f` to slot `i` of the track array (no effect when `i` is out of range). -/
def updTrack (l : List AudioTrack) (i : Nat) (f : AudioTrack → AudioTrack) : List AudioTrack :=
  match l[i]? with
  | some t => l.set i (f t)
  | none => l

/-- What `sampleFromMemory` reads of the class `AudioSample` (declared in the missing header). -/
structure AudioSample where
  bytesPerSample : Nat
  channels : Nat
  sampleRate : Nat
  data : List (Fin 256)
deriving DecidableEq, Repr

/-- The `SDL_AudioCVT` fields left by `SDL_ConvertAudio`, the external format converter:
the freshly allocated buffer `buf` and the converted length `len_cvt`. -/
structure AudioCVT where
  buf : Buffer
  len_cvt : Int
deriving DecidableEq, Repr

/-- The two bytes (little endian) of a 16-bit value. -/
def bytesOfS16 (z : Int) : List (Fin 256) :=
  [Fin.ofNat (z % 2 ^ 16).toNat, Fin.ofNat ((z % 2 ^ 16).toNat / 256)]

/-- One iteration of the loop of `adjustVolume`. -/
def adjustValue (F : FloatModel) (shortValue : Int) (volume : ℚ) : Int :=
  let value := F.r32 ((shortValue : ℚ) * volume)
  if value > (SHRT_MAX : ℚ) then SHRT_MAX
  else if value < (SHRT_MIN : ℚ) then SHRT_MIN
  else truncQ value

/-- The function `adjustVolume(data, len, volume)` on the first `len` 16-bit values. -/
def adjustVolume (F : FloatModel) (data : List (Fin 256)) (len : Nat) (volume : ℚ) :
    Option (List (Fin 256)) :=
  match len, data with
  | 0, data => some data
  | len + 1, lo :: hi :: rest =>
    match adjustVolume F rest len volume with
    | some r => some (bytesOfS16 (adjustValue F (toS16 (lo.val + 256 * hi.val)) volume) ++ r)
    | none => none
  | _ + 1, _ => none

namespace DeviceAudioSdl

/-- The method `sampleFromMemory(sample, volume)`; `cvt` is what the SDL converter produced. -/
def sampleFromMemory (F : FloatModel) (m : DeviceAudioSdl) (sample : AudioSample) (volume : ℚ)
    (cvt : AudioCVT) : Option (Nat × DeviceAudioSdl) :=
  if sample.bytesPerSample = 1 ∨ sample.bytesPerSample = 2 ∨ sample.bytesPerSample = 4 then
    let dlen := wrapU32 cvt.len_cvt
    if dlen = 0 then some (0, m)
    else
      let data : Option (List (Fin 256)) :=
        if volume ≠ 1 ∧ m.m_isDesiredFormat = true then adjustVolume F cvt.buf.bytes (dlen / 2) volume
        else some cvt.buf.bytes
      match data with
      | none => none
      | some bytes =>
        let track : AudioTrack := { AudioTrack.mk0 ⟨cvt.buf.addr, bytes⟩ dlen 0 with dpos := 0 }
        let counter := (m.m_uniqueCounter + 1) % 2 ^ 64
        some (counter, { m with mm_sample := mapInsert m.mm_sample counter track,
                                m_uniqueCounter := counter })
  else some (0, m)

/-- The method `sampleDestroy(sample)`. -/
def sampleDestroy (m : DeviceAudioSdl) (sample : Nat) : Bool × DeviceAudioSdl :=
  match mapFind m.mm_sample sample with
  | none => (false, m)
  | some s =>
    (true, { m with
      ma_sound := m.ma_sound.map
        (fun t => if t.data.addr = s.data.addr then { t with isPlaying := false } else t),
      mm_sample := mapErase m.mm_sample sample })

/-- The method `soundPlayOn(i, sample, volumeL, volumeR, disparity, pitch)`. -/
def soundPlayOn (bits : Nat) (m : DeviceAudioSdl) (i sample : Nat)
    (volumeL volumeR disparity pitch : ℚ) : Nat × DeviceAudioSdl :=
  if i ≥ m.m_nSound then (0, m)
  else
    match mapFind m.mm_sample sample with
    | none => (0, m)
    | some s =>
      let counter := (m.m_uniqueCounter + 1) % 2 ^ 64
      let uniqueHandle := UH_PACK_UNIQUE_HANDLE bits counter i
      (uniqueHandle, { m with
        m_uniqueCounter := counter,
        ma_sound := updTrack m.ma_sound i (fun t => { t with
          data := s.data, dlen := s.dlen, dpos := 0, volL := volumeL, volR := volumeR,
          disparity := disparity, pitch := abs pitch, isLoop := false, isPlaying := true,
          isPaused := false, uniqueId := UH_UNPACK_UNIQUE_ID bits uniqueHandle }) })

/-- The method `soundPlay(sample, volumeL, volumeR, disparity, pitch)`. -/
def soundPlay (bits : Nat) (m : DeviceAudioSdl) (sample : Nat)
    (volumeL volumeR disparity pitch : ℚ) : Nat × DeviceAudioSdl :=
  let i := m.ma_sound.findIdx (fun t => !t.isPlaying)
  soundPlayOn bits m i sample volumeL volumeR disparity pitch

/-- The common tail of `soundLoop` and `soundLoopOn`: when the handle is not null, set
`isLoop` on the slot `UH_UNPACK_PAYLOAD(uniqueHandle)`. -/
def markLoop (bits : Nat) (r : Nat × DeviceAudioSdl) : Nat × DeviceAudioSdl :=
  if r.1 ≠ 0 then
    let tracks :=
      updTrack r.2.ma_sound (UH_UNPACK_PAYLOAD bits r.1) (fun t => { t with isLoop := true })
    (r.1, { r.2 with ma_sound := tracks })
  else r

/-- The method `soundLoop(sample, volumeL, volumeR, disparity, pitch)`. -/
def soundLoop (bits : Nat) (m : DeviceAudioSdl) (sample : Nat)
    (volumeL volumeR disparity pitch : ℚ) : Nat × DeviceAudioSdl :=
  markLoop bits (soundPlay bits m sample volumeL volumeR disparity pitch)

/-- The method `soundLoopOn(i, sample, volumeL, volumeR, disparity, pitch)`. -/
def soundLoopOn (bits : Nat) (m : DeviceAudioSdl) (i sample : Nat)
    (volumeL volumeR disparity pitch : ℚ) : Nat × DeviceAudioSdl :=
  markLoop bits (soundPlayOn bits m i sample volumeL volumeR disparity pitch)

/-- The validation shared by `soundUpdate` and `soundStop`: the slot `sound` of the
handle when it is in range, playing and of the handle's generation. -/
def validSlot (bits : Nat) (m : DeviceAudioSdl) (uniqueHandle : Nat) : Option Nat :=
  let sound := UH_UNPACK_PAYLOAD bits uniqueHandle % 2 ^ 32
  match m.ma_sound[sound]? with
  | none => none
  | some t =>
    if !t.isPlaying || t.uniqueId ≠ UH_UNPACK_UNIQUE_ID bits uniqueHandle then none else some sound

/-- The method `soundUpdate(uniqueHandle, pause, volumeL, volumeR, disparity, pitch)`. -/
def soundUpdate (bits : Nat) (m : DeviceAudioSdl) (uniqueHandle : Nat) (pause : Bool)
    (volumeL volumeR disparity pitch : ℚ) : Bool × DeviceAudioSdl :=
  match validSlot bits m uniqueHandle with
  | none => (false, m)
  | some sound =>
    (true, { m with ma_sound := updTrack m.ma_sound sound (fun t => { t with
      isPaused := pause, volL := volumeL, volR := volumeR, disparity := disparity,
      pitch := abs pitch }) })

/-- The method `soundStop(uniqueHandle)`. -/
def soundStop (bits : Nat) (m : DeviceAudioSdl) (uniqueHandle : Nat) : Bool × DeviceAudioSdl :=
  match validSlot bits m uniqueHandle with
  | none => (false, m)
  | some sound =>
    let tracks := updTrack m.ma_sound sound (fun t => { t with isPlaying := false })
    (true, { m with ma_sound := tracks })

/-- The method `soundStop()` without argument: stop every track. -/
def soundStopAll (m : DeviceAudioSdl) : DeviceAudioSdl :=
  { m with ma_sound := m.ma_sound.map (fun t => { t with isPlaying := false }) }

/-- The method `soundActive()` without argument: the number of playing tracks. -/
def soundActiveCount (m : DeviceAudioSdl) : Nat :=
  m.ma_sound.foldl (fun ret t => if t.isPlaying then ret + 1 else ret) 0

/-- The method `soundActive(uniqueHandle)`. -/
def soundActive (bits : Nat) (m : DeviceAudioSdl) (uniqueHandle : Nat) : Bool :=
  let sound := UH_UNPACK_PAYLOAD bits uniqueHandle % 2 ^ 32
  match m.ma_sound[sound]? with
  | none => false
  | some t => if t.uniqueId ≠ UH_UNPACK_UNIQUE_ID bits uniqueHandle then false else t.isPlaying

/-! ### The render callback -/

/-- The clamp at the end of a frame of `mixOutputFloat`: the value stored in the output. -/
def clampOut (x : ℚ) : Int :=
  if x > (SHRT_MAX : ℚ) then SHRT_MAX
  else if x < (SHRT_MIN : ℚ) then SHRT_MIN
  else truncQ x

/-- The two reads of the direct branch at byte offset `currPos` and the values they add
to `left` and to `right`. -/
def directReads (F : FloatModel) (m : DeviceAudioSdl) (t : AudioTrack) (currPos : Nat) :
    Option (ℚ × ℚ) :=
  match readS16 t.data currPos with
  | none => none
  | some sL =>
    match readS16 t.data (((currPos + (if t.channels > 1 then 2 else 0)) % 2 ^ 32 : Nat) : Int) with
    | none => none
    | some sR =>
      some (F.r32 (F.r32 ((sL : ℚ) * m.m_volL) * t.volL),
            F.r32 (F.r32 ((sR : ℚ) * m.m_volR) * t.volR))

/-- The direct branch of `mixOutputFloat` ("optimized default mixing") for track `t` at
output index `j`: the values added to `left` and to `right`, `none` for a channel to which
nothing is added (the `continue`). -/
def mixDirect (F : FloatModel) (m : DeviceAudioSdl) (t : AudioTrack) (j : Nat) :
    Option (Option ℚ × Option ℚ) :=
  let currPos := (t.dpos + j) % 2 ^ 32
  if t.isLoop then
    if t.dlen = 0 then none
    else (directReads F m t (currPos % t.dlen)).map (fun c => (some c.1, some c.2))
  else if currPos ≥ t.dlen then some (none, none)
  else (directReads F m t currPos).map (fun c => (some c.1, some c.2))

/-- The channel offset `currPos - 2*int(m_spec.freq*d)` of the interpolated branch. -/
def shiftPos (F : FloatModel) (m : DeviceAudioSdl) (currPos : Int) (d : ℚ) : Option Int :=
  match f2i (F.r32 (F.r32 (m.m_freq : ℚ) * d)) with
  | none => none
  | some k =>
    match chkS32 (2 * k) with
    | none => none
    | some k2 => chkS32 (currPos - k2)

/-- The wrap `(p+10*dlen-2)%(dlen-2)` of the interpolated branch, in `unsigned int`
arithmetic, stored back into an `int`. -/
def loopWrap (t : AudioTrack) (p : Int) : Option Int :=
  if wrapU32 ((t.dlen : Int) - 2) = 0 then none
  else some (toS32 (wrapU32 (p + 10 * (t.dlen : Int) - 2) % wrapU32 ((t.dlen : Int) - 2)))

/-- The left channel of the interpolated branch at offset `currPosL`: both terms of the
interpolation read `data[currPosL]`.  The result is the value added to `left`, if any. -/
def interpLeft (F : FloatModel) (m : DeviceAudioSdl) (t : AudioTrack) (fract : ℚ)
    (currPosL lim : Int) : Option (Option ℚ) :=
  if currPosL < lim ∧ currPosL ≥ 0 then
    match readS16 t.data currPosL, readS16 t.data currPosL with
    | some s0, some s1 =>
      let currWavL := F.r32 (F.r64 (F.r64 (F.r64 (1 - fract) * (s0 : ℚ)) + F.r64 (fract * (s1 : ℚ))))
      some (some (F.r32 (F.r32 (currWavL * m.m_volL) * t.volL)))
    | _, _ => none
  else some none

/-- The right channel of the interpolated branch at offset `currPosR`: the interpolation
reads `data[currPosR]` and `data[currPosR+2]`.  The result is the value added to `right`,
if any. -/
def interpRight (F : FloatModel) (m : DeviceAudioSdl) (t : AudioTrack) (fract : ℚ)
    (currPosR lim : Int) : Option (Option ℚ) :=
  if currPosR < lim ∧ currPosR ≥ 0 then
    match readS16 t.data currPosR, readS16 t.data (currPosR + 2) with
    | some s0, some s1 =>
      let currWavR := F.r32 (F.r64 (F.r64 (F.r64 (1 - fract) * (s0 : ℚ)) + F.r64 (fract * (s1 : ℚ))))
      some (some (F.r32 (F.r32 (currWavR * m.m_volR) * t.volR)))
    | _, _ => none
  else some none

/-- The interpolated branch of `mixOutputFloat` ("linear interpolation and disparity") for
track `t` at output index `j`: the values added to `left` and to `right`, if any. -/
def mixInterp (F : FloatModel) (m : DeviceAudioSdl) (t : AudioTrack) (j : Nat) :
    Option (Option ℚ × Option ℚ) :=
  let fract0 := F.r32 (F.r32 (t.dpos : ℚ) + F.r32 (F.r32 (j : ℚ) * t.pitch))
  (f2i (F.r64 (fract0 * (1 / 2)))).bind fun half =>
  (chkS32 (half * 2)).bind fun currPos =>
  let fract := F.r64 (F.r64 (fract0 - (currPos : ℚ)) * (1 / 2))
  (if t.disparity < 0 then shiftPos F m currPos (-t.disparity) else some currPos).bind
    fun currPosL0 =>
  (if t.disparity > 0 then shiftPos F m currPos t.disparity else some currPos).bind
    fun currPosR0 =>
  let currPosR1 := if t.channels > 1 then toS32 (wrapU32 (currPosR0 + 2)) else currPosR0
  (if t.isLoop then loopWrap t currPosL0 else some currPosL0).bind fun currPosL =>
  (if t.isLoop then loopWrap t currPosR1 else some currPosR1).bind fun currPosR =>
  (chkS32 (toS32 t.dlen - 2)).bind fun lim =>
  (interpLeft F m t fract currPosL lim).bind fun left =>
  (interpRight F m t fract currPosR lim).bind fun right =>
  some (left, right)

/-- The body of the inner loop of `mixOutputFloat` for one track at output index `j`: what
the track adds to `left` and to `right` (`none` for nothing). -/
def trackContribution (F : FloatModel) (m : DeviceAudioSdl) (j : Nat) (t : AudioTrack) :
    Option (Option ℚ × Option ℚ) :=
  if t.isPlaying = true ∧ t.isPaused = false then
    if t.pitch = 1 ∧ t.disparity = 0 then mixDirect F m t j
    else mixInterp F m t j
  else some (none, none)

/-- The statement `acc += x` on a `float` accumulator (nothing when the track adds nothing). -/
def addTo (F : FloatModel) (acc : ℚ) : Option ℚ → ℚ
  | none => acc
  | some x => F.r32 (acc + x)

/-- The inner loop over the tracks, from the running sums `acc = (left, right)`. -/
def mixTracks (F : FloatModel) (m : DeviceAudioSdl) (j : Nat) :
    List AudioTrack → ℚ × ℚ → Option (ℚ × ℚ)
  | [], acc => some acc
  | t :: ts, acc =>
    match trackContribution F m j t with
    | none => none
    | some c => mixTracks F m j ts (addTo F acc.1 c.1, addTo F acc.2 c.2)

/-- One iteration of the outer loop: the values stored in `outputBuffer[j]` and
`outputBuffer[j+1]`. -/
def mixFrame (F : FloatModel) (m : DeviceAudioSdl) (j : Nat) : Option (Int × Int) :=
  match mixTracks F m j m.ma_sound (0, 0) with
  | none => none
  | some (left, right) => some (clampOut left, clampOut right)

/-- The output indices `j = 0, 2, 4, ...` below `nFrames` visited by the outer loop. -/
def frameIndices (nFrames : Nat) : List Nat := (List.range ((nFrames + 1) / 2)).map (fun k => 2 * k)

/-- The outer loop: the values written to `outputBuffer`, in order, from index 0. -/
def mixFrames (F : FloatModel) (m : DeviceAudioSdl) : List Nat → Option (List Int)
  | [] => some []
  | j :: js =>
    match mixFrame F m j, mixFrames F m js with
    | some (l, r), some rest => some (l :: r :: rest)
    | _, _ => none

/-- The margin `2*abs(int(m_spec.freq*-disparity))` of the end-of-sample test. -/
def endMargin (F : FloatModel) (m : DeviceAudioSdl) (t : AudioTrack) : Option Int :=
  match f2i (F.r32 (F.r32 (m.m_freq : ℚ) * (-t.disparity))) with
  | none => none
  | some a =>
    match chkS32 (abs a) with
    | none => none
    | some b => chkS32 (2 * b)

/-- The new `dpos` before wrapping: `dpos += nFrames` or `dpos += (unsigned int)(nFrames*pitch)`. -/
def advancePos (F : FloatModel) (nFrames : Nat) (t : AudioTrack) : Option Nat :=
  if t.pitch = 1 then some ((t.dpos + nFrames) % 2 ^ 32)
  else
    match f2u (F.r32 (F.r32 (nFrames : ℚ) * t.pitch)) with
    | none => none
    | some d => some ((t.dpos + d) % 2 ^ 32)

/-- The body of the second loop of `mixOutputFloat` (cursor advance) for one track. -/
def advanceTrack (F : FloatModel) (m : DeviceAudioSdl) (nFrames : Nat) (t : AudioTrack) :
    Option AudioTrack :=
  if t.isPaused then some t
  else
    match advancePos F nFrames t with
    | none => none
    | some dpos =>
      if t.isLoop then
        if t.dlen = 0 then none else some { t with dpos := dpos % t.dlen }
      else
        match endMargin F m t with
        | none => none
        | some mg =>
          if dpos > (t.dlen + wrapU32 mg) % 2 ^ 32 then some { t with dpos := dpos, isPlaying := false }
          else some { t with dpos := dpos }

/-- The second loop of `mixOutputFloat` over all tracks. -/
def advanceTracks (F : FloatModel) (m : DeviceAudioSdl) (nFrames : Nat) :
    List AudioTrack → Option (List AudioTrack)
  | [] => some []
  | t :: ts =>
    match advanceTrack F m nFrames t, advanceTracks F m nFrames ts with
    | some t1, some ts1 => some (t1 :: ts1)
    | _, _ => none

/-- The method `mixOutputFloat(outputBuffer, nFrames)`: the values written to the output
buffer and the state after the block. -/
def mixOutputFloat (F : FloatModel) (m : DeviceAudioSdl) (nFrames : Nat) :
    Option (List Int × DeviceAudioSdl) :=
  match mixFrames F m (frameIndices nFrames) with
  | none => none
  | some out =>
    match advanceTracks F m nFrames m.ma_sound with
    | none => none
    | some tracks => some (out, { m with ma_sound := tracks })

end DeviceAudioSdl

/-! ## Sequences of calls -/

/-- The parameters `volumeL, volumeR, disparity, pitch` of a play or loop call. -/
structure PlayArgs where
  volumeL : ℚ
  volumeR : ℚ
  disparity : ℚ
  pitch : ℚ
deriving DecidableEq, Repr

/-- One call of the public interface, or one render callback. -/
inductive Call where
  | load (sample : AudioSample) (volume : ℚ) (cvt : AudioCVT)
  | destroy (sample : Nat)
  | play (sample : Nat) (a : PlayArgs)
  | playOn (i sample : Nat) (a : PlayArgs)
  | loop (sample : Nat) (a : PlayArgs)
  | loopOn (i sample : Nat) (a : PlayArgs)
  | update (uniqueHandle : Nat) (pause : Bool) (a : PlayArgs)
  | stop (uniqueHandle : Nat)
  | stopAll
  | render (nFrames : Nat)
deriving DecidableEq, Repr

open DeviceAudioSdl

/-- The state after one call (`none` when the call has undefined behaviour). -/
def step (F : FloatModel) (bits : Nat) (m : DeviceAudioSdl) : Call → Option DeviceAudioSdl
  | .load sample volume cvt => (sampleFromMemory F m sample volume cvt).map (fun r => r.2)
  | .destroy sample => some (sampleDestroy m sample).2
  | .play sample a => some (soundPlay bits m sample a.volumeL a.volumeR a.disparity a.pitch).2
  | .playOn i sample a => some (soundPlayOn bits m i sample a.volumeL a.volumeR a.disparity a.pitch).2
  | .loop sample a => some (soundLoop bits m sample a.volumeL a.volumeR a.disparity a.pitch).2
  | .loopOn i sample a => some (soundLoopOn bits m i sample a.volumeL a.volumeR a.disparity a.pitch).2
  | .update h pause a => some (soundUpdate bits m h pause a.volumeL a.volumeR a.disparity a.pitch).2
  | .stop h => some (soundStop bits m h).2
  | .stopAll => some (soundStopAll m)
  | .render nFrames => (mixOutputFloat F m nFrames).map (fun r => r.2)

/-- The state after a sequence of calls. -/
def run (F : FloatModel) (bits : Nat) (m : DeviceAudioSdl) : List Call → Option DeviceAudioSdl
  | [] => some m
  | c :: cs =>
    match step F bits m c with
    | none => none
    | some m1 => run F bits m1 cs

/-- Consecutive `soundPlay` calls of one sample: the handles returned and the final state. -/
def playAll (bits : Nat) (m : DeviceAudioSdl) (sample : Nat) :
    List PlayArgs → List Nat × DeviceAudioSdl
  | [] => ([], m)
  | a :: as =>
    let r := soundPlay bits m sample a.volumeL a.volumeR a.disparity a.pitch
    let rs := playAll bits r.2 sample as
    (r.1 :: rs.1, rs.2)

/-- Successive render blocks with no call in between: the state after the last one. -/
def renderBlocks (F : FloatModel) (m : DeviceAudioSdl) : List Nat → Option DeviceAudioSdl
  | [] => some m
  | n :: ns =>
    match mixOutputFloat F m n with
    | none => none
    | some r => renderBlocks F r.2 ns

/-- The payload bits of the handle address every slot of the pool (the requirement of the
handle codec), and the pool size is an `unsigned int`. -/
def HandleFits (bits : Nat) (m : DeviceAudioSdl) : Prop :=
  m.m_nSound ≤ 2 ^ bits ∧ m.m_nSound ≤ 2 ^ 32

instance (bits : Nat) (m : DeviceAudioSdl) : Decidable (HandleFits bits m) := by
  unfold HandleFits; infer_instance

/-- The generations (`uniqueId`) stored in the slots, in slot order. -/
def ids (m : DeviceAudioSdl) : List Nat := m.ma_sound.map (fun t => t.uniqueId)

/-- The handle returned by a play, playOn, loop or loopOn call (0 for any other call). -/
def Call.handle (bits : Nat) (m : DeviceAudioSdl) : Call → Nat
  | .play sample a => (soundPlay bits m sample a.volumeL a.volumeR a.disparity a.pitch).1
  | .playOn i sample a => (soundPlayOn bits m i sample a.volumeL a.volumeR a.disparity a.pitch).1
  | .loop sample a => (soundLoop bits m sample a.volumeL a.volumeR a.disparity a.pitch).1
  | .loopOn i sample a => (soundLoopOn bits m i sample a.volumeL a.volumeR a.disparity a.pitch).1
  | _ => 0

/-! ## The mix as a sum of contributions -/

/-- What every track adds at output index `j`, in track order (`none` when the inner loop
has undefined behaviour on one of the tracks). -/
def contributions (F : FloatModel) (m : DeviceAudioSdl) (j : Nat) :
    List AudioTrack → Option (List (Option ℚ × Option ℚ))
  | [] => some []
  | t :: ts =>
    match trackContribution F m j t, contributions F m j ts with
    | some c, some cs => some (c :: cs)
    | _, _ => none

/-- The `float` sum of a list of values, added one after the other to 0. -/
def floatSum (F : FloatModel) (xs : List ℚ) : ℚ := xs.foldl (fun acc x => F.r32 (acc + x)) 0

/-! ## Example states -/

/-- The stored sample of the scenario: 4 bytes, the two 16-bit values `[1000, -1000]`. -/
def exampleSample : AudioTrack :=
  { AudioTrack.mk0 ⟨4096, [0xE8, 0x03, 0x18, 0xFC]⟩ 4 0 with dpos := 0 }

/-- A mixer with a pool of 4 idle slots and `exampleSample` stored under id 1. -/
def exampleMixer : DeviceAudioSdl :=
  { ma_sound := List.replicate 4 (AudioTrack.mk0 Buffer.null 0 0),
    mm_sample := [(1, exampleSample)], m_uniqueCounter := 1,
    m_volL := 1, m_volR := 1, m_freq := 44100, m_isDesiredFormat := true }

/-- A playing track at full volume on a buffer holding the maximum amplitude 32767 twice. -/
def loudTrack : AudioTrack :=
  { AudioTrack.mk0 ⟨8192, [0xFF, 0x7F, 0xFF, 0x7F]⟩ 4 1 with isPlaying := true }

/-- A mixer whose two slots both play `loudTrack`, global volumes 1. -/
def loudMixer : DeviceAudioSdl :=
  { ma_sound := [loudTrack, loudTrack], mm_sample := [], m_uniqueCounter := 2,
    m_volL := 1, m_volR := 1, m_freq := 44100, m_isDesiredFormat := true }

/-- A stored sample of length 4 (the values `[1000, -1000]`) in an allocation of 8 bytes,
as the converter leaves it for a stereo source. -/
def paddedSample : AudioTrack :=
  { AudioTrack.mk0 ⟨12288, [0xE8, 0x03, 0x18, 0xFC, 0, 0, 0, 0]⟩ 4 0 with dpos := 0 }

/-- A mixer with a pool of 2 idle slots and `paddedSample` stored under id 1. -/
def paddedMixer : DeviceAudioSdl :=
  { ma_sound := List.replicate 2 (AudioTrack.mk0 Buffer.null 0 0),
    mm_sample := [(1, paddedSample)], m_uniqueCounter := 1,
    m_volL := 1, m_volR := 1, m_freq := 44100, m_isDesiredFormat := true }

/-- The slot written by `soundLoop` or `soundPlay` of `paddedSample` at native speed. -/
def paddedTrack (isLoop : Bool) : AudioTrack :=
  { paddedSample with isLoop := isLoop, isPlaying := true, uniqueId := 2 }

/-- A playing track on a buffer of 12 bytes holding the 16-bit values `1, 2, 3, 4, 5, 6`,
at position 0, pitch 1, disparity 0, full volume. -/
def rampTrack (isLoop : Bool) : AudioTrack :=
  { AudioTrack.mk0 ⟨16384, [1, 0, 2, 0, 3, 0, 4, 0, 5, 0, 6, 0]⟩ 12 3 with
    isLoop := isLoop, isPlaying := true }

/-- Play parameters: full volume, no disparity, native speed. -/
def exampleArgs : PlayArgs := ⟨1, 1, 0, 1⟩

/-! ## Construction and the sample store along calls -/

/-- The constructor `DeviceAudioSdl(nTracks, frequency, chunkSize)` when the audio device
opens: `nTracks` default-constructed tracks whose uninitialised `uniqueId` are `uids`, an
empty sample store and the counter 0.  `freq` is the frequency obtained from SDL, and
`volL`, `volR` are the global volumes set by the base class. -/
def DeviceAudioSdl.construct (uids : List Nat) (freq : Int) (isDesiredFormat : Bool)
    (volL volR : ℚ) : DeviceAudioSdl :=
  { ma_sound := uids.map (AudioTrack.mk0 Buffer.null 0), mm_sample := [], m_uniqueCounter := 0,
    m_volL := volL, m_volR := volR, m_freq := freq, m_isDesiredFormat := isDesiredFormat }

/-- The ids of the store are ids handed out so far: every key of `mm_sample` is at most
`m_uniqueCounter`.  It holds after construction, where the store is empty. -/
def StoreBelow (m : DeviceAudioSdl) : Prop := ∀ e ∈ m.mm_sample, e.1 ≤ m.m_uniqueCounter

instance (m : DeviceAudioSdl) : Decidable (StoreBelow m) := by
  unfold StoreBelow; infer_instance

/-- The id returned by a `sampleFromMemory` call in state `m` (0 for any other call, and
when the call has undefined behaviour). -/
def Call.sampleId (F : FloatModel) (m : DeviceAudioSdl) : Call → Nat
  | .load sample volume cvt =>
    match sampleFromMemory F m sample volume cvt with
    | some r => r.1
    | none => 0
  | _ => 0

/-- The ids returned by the `sampleFromMemory` calls of a sequence of calls, in call order
(0 for the other calls), up to the first call with undefined behaviour. -/
def sampleIds (F : FloatModel) (bits : Nat) (m : DeviceAudioSdl) : List Call → List Nat
  | [] => []
  | c :: cs =>
    match step F bits m c with
    | none => []
    | some m1 => c.sampleId F m :: sampleIds F bits m1 cs

/-- A mono 16-bit source of two values at the output rate. -/
def monoSource : AudioSample := ⟨2, 1, 44100, [0xE8, 0x03, 0x18, 0xFC]⟩

/-- Loading `monoSource`: the converter leaves the 4 bytes in a buffer of 4 bytes. -/
def tightLoad : Call := .load monoSource 1 ⟨⟨4096, [0xE8, 0x03, 0x18, 0xFC]⟩, 4⟩

/-- A freshly constructed mixer with 2 tracks at 44100 Hz in the desired format. -/
def freshMixer : DeviceAudioSdl := DeviceAudioSdl.construct [0, 0] 44100 true 1 1

/-- The slot written by `soundPlay` at native speed for the sample loaded by `tightLoad`:
the 4 bytes of the sample in a buffer of 4 bytes. -/
def tightTrack : AudioTrack :=
  { AudioTrack.mk0 ⟨4096, [0xE8, 0x03, 0x18, 0xFC]⟩ 4 2 with isPlaying := true }

/-- The state of `freshMixer` after `tightLoad` and a `soundPlay` of the loaded sample. -/
def tightMixer : DeviceAudioSdl :=
  { ma_sound := [tightTrack, AudioTrack.mk0 Buffer.null 0 0],
    mm_sample := [(1, exampleSample)], m_uniqueCounter := 2,
    m_volL := 1, m_volR := 1, m_freq := 44100, m_isDesiredFormat := true }

/-- The two-point linear interpolation of the specification, with weight `f` between the
sample `s0` at the channel offset and the next sample `s1` of the channel. -/
def specInterpolate (f s0 s1 : ℚ) : ℚ := (1 - f) * s0 + f * s1

/-- The track `rampTrack false` played at half speed. -/
def halfTrack : AudioTrack := { rampTrack false with pitch := 1 / 2 }

/-- Loading one stereo frame: the converter leaves one 16-bit mono value, a converted
length of 2 bytes, in the buffer of 4 bytes. -/
def shortLoad : Call :=
  .load ⟨2, 2, 44100, [0xE8, 0x03, 0xE8, 0x03]⟩ 1 ⟨⟨20480, [0xE8, 0x03, 0xE8, 0x03]⟩, 2⟩

/-- The slot written by `soundLoop` at double speed for the sample loaded by `shortLoad`. -/
def shortTrack : AudioTrack :=
  { AudioTrack.mk0 ⟨20480, [0xE8, 0x03, 0xE8, 0x03]⟩ 2 2 with
    pitch := 2, isLoop := true, isPlaying := true }

/-- The state of `freshMixer` after `shortLoad` and a `soundLoop` at double speed. -/
def shortMixer : DeviceAudioSdl :=
  { ma_sound := [shortTrack, AudioTrack.mk0 Buffer.null 0 0],
    mm_sample := [(1, AudioTrack.mk0 ⟨20480, [0xE8, 0x03, 0xE8, 0x03]⟩ 2 0)],
    m_uniqueCounter := 2, m_volL := 1, m_volR := 1, m_freq := 44100, m_isDesiredFormat := true }

/-- The state `m` with every paused slot marked as not playing: a state to compare a
render block with, not a method of the source. -/
def stopPaused (m : DeviceAudioSdl) : DeviceAudioSdl :=
  { m with ma_sound := m.ma_sound.map (fun t => if t.isPaused then { t with isPlaying := false } else t) }

/-- A mixer whose first slot plays `paddedSample` and is paused at position 2, and whose
second slot loops it, unpaused. -/
def pausedMixer : DeviceAudioSdl :=
  { paddedMixer with
    ma_sound := [{ paddedTrack false with isPaused := true, dpos := 2 }, paddedTrack true] }

/-- The bound on the positions in state `m`: every playing slot that is not looping is at
most at its length plus the margin `2*abs(int(m_spec.freq*-disparity))` that the
end-of-sample test computes from the slot's own disparity, in `unsigned int` arithmetic.
It holds after construction, where no slot is playing. -/
def PositionBound (F : FloatModel) (m : DeviceAudioSdl) : Prop :=
  ∀ (i : Nat) (t : AudioTrack), m.ma_sound[i]? = some t → t.isPlaying = true →
    t.isLoop = false → ∀ mg, endMargin F m t = some mg →
      t.dpos ≤ (t.dlen + wrapU32 mg) % 2 ^ 32

/-- The proviso on a `soundUpdate` call in state `m` (true for every other call): when the
call is accepted, it leaves the disparity of the slot as it is, or the slot is looping, or
the position of the slot is within the margin of the new disparity. -/
def updateKeepsBound (F : FloatModel) (bits : Nat) (m : DeviceAudioSdl) : Call → Bool
  | .update uniqueHandle _ a =>
    match validSlot bits m uniqueHandle with
    | none => true
    | some sound =>
      match m.ma_sound[sound]? with
      | none => true
      | some t =>
        decide (a.disparity = t.disparity) || t.isLoop ||
          match endMargin F m { t with disparity := a.disparity } with
          | none => true
          | some mg => decide (t.dpos ≤ (t.dlen + wrapU32 mg) % 2 ^ 32)
  | _ => true

/-- The proviso `updateKeepsBound` for every call of a sequence, each in the state in
which it is made. -/
def updatesKeepBound (F : FloatModel) (bits : Nat) (m : DeviceAudioSdl) : List Call → Bool
  | [] => true
  | c :: cs =>
    updateKeepsBound F bits m c &&
      match step F bits m c with
      | none => true
      | some m1 => updatesKeepBound F bits m1 cs

/-- The second slot of `freshMixer` after `paddedLoad`, a play at disparity 0 and a play at
disparity 1/1024, two blocks of 2 output values and an update that keeps the disparity. -/
def delayedTrack : AudioTrack :=
  { paddedSample with
    dpos := 4, disparity := 1 / 1024, volL := 1 / 2, volR := 1 / 2, isPlaying := true,
    uniqueId := 3 }

/-- Loading two stereo frames: the converter leaves the two 16-bit mono values
`[1000, -1000]`, a converted length of 4 bytes, in the buffer of 8 bytes. -/
def paddedLoad : Call :=
  .load ⟨2, 2, 44100, [0xE8, 0x03, 0xE8, 0x03, 0x18, 0xFC, 0x18, 0xFC]⟩ 1
    ⟨⟨12288, [0xE8, 0x03, 0x18, 0xFC, 0, 0, 0, 0]⟩, 4⟩

/-! ## Basic facts -/

theorem unpack_payload_pack (bits g i : Nat) (hi : i < 2 ^ bits) :
    UH_UNPACK_PAYLOAD bits (UH_PACK_UNIQUE_HANDLE bits g i) = i := by
  unfold UH_UNPACK_PAYLOAD UH_PACK_UNIQUE_HANDLE
  rw [Nat.mod_eq_of_lt hi, Nat.mul_comm, Nat.mul_add_mod, Nat.mod_eq_of_lt hi]

theorem unpack_id_pack (bits g i : Nat) :
    UH_UNPACK_UNIQUE_ID bits (UH_PACK_UNIQUE_HANDLE bits g i) = g % 2 ^ (64 - bits) := by
  unfold UH_UNPACK_UNIQUE_ID UH_PACK_UNIQUE_HANDLE
  have hpos : 0 < 2 ^ bits := Nat.two_pow_pos bits
  rw [Nat.mul_comm, Nat.mul_add_div hpos, Nat.div_eq_of_lt (Nat.mod_lt _ hpos), Nat.add_zero]

theorem updTrack_length (l : List AudioTrack) (i : Nat) (f : AudioTrack → AudioTrack) :
    (updTrack l i f).length = l.length := by
  unfold updTrack
  cases l[i]? <;> simp

theorem updTrack_getElem? (l : List AudioTrack) (i j : Nat) (f : AudioTrack → AudioTrack) :
    (updTrack l i f)[j]? = if i = j then (l[j]?).map f else l[j]? := by
  unfold updTrack
  by_cases hij : i = j
  · subst hij
    cases h : l[i]? with
    | none => simp [h]
    | some t =>
      have hlt : i < l.length := by
        by_contra hc
        rw [List.getElem?_eq_none (Nat.le_of_not_lt hc)] at h
        cases h
      simp [List.getElem?_set, hlt]
  · cases h : l[i]? with
    | none => simp [hij]
    | some t => simp [hij, List.getElem?_set]

theorem soundPlayOn_of_ne_zero {bits : Nat} {m : DeviceAudioSdl} {i sample : Nat}
    {vL vR d p : ℚ} (h : (soundPlayOn bits m i sample vL vR d p).1 ≠ 0) :
    i < m.m_nSound ∧ ∃ s, mapFind m.mm_sample sample = some s ∧
      soundPlayOn bits m i sample vL vR d p =
        (UH_PACK_UNIQUE_HANDLE bits ((m.m_uniqueCounter + 1) % 2 ^ 64) i,
         { m with
            m_uniqueCounter := (m.m_uniqueCounter + 1) % 2 ^ 64,
            ma_sound := updTrack m.ma_sound i (fun t => { t with
              data := s.data, dlen := s.dlen, dpos := 0, volL := vL, volR := vR,
              disparity := d, pitch := abs p, isLoop := false, isPlaying := true,
              isPaused := false,
              uniqueId := UH_UNPACK_UNIQUE_ID bits
                (UH_PACK_UNIQUE_HANDLE bits ((m.m_uniqueCounter + 1) % 2 ^ 64) i) }) }) := by
  unfold soundPlayOn at h ⊢
  by_cases hi : i ≥ m.m_nSound
  · simp [hi] at h
  · cases hs : mapFind m.mm_sample sample with
    | none => simp [hi, hs] at h
    | some s => exact ⟨Nat.lt_of_not_ge hi, s, rfl, by simp [hi]⟩

/-- After a successful `soundPlayOn` the slot of the returned handle is playing and carries
the generation of the handle. -/
theorem soundPlayOn_slot {bits : Nat} {m : DeviceAudioSdl} {i sample : Nat} {vL vR d p : ℚ}
    (hfit : HandleFits bits m) (h : (soundPlayOn bits m i sample vL vR d p).1 ≠ 0) :
    UH_UNPACK_PAYLOAD bits (soundPlayOn bits m i sample vL vR d p).1 % 2 ^ 32 = i ∧
    i < m.m_nSound ∧
    ∃ t, (soundPlayOn bits m i sample vL vR d p).2.ma_sound[i]? = some t ∧
      t.isPlaying = true ∧ t.isLoop = false ∧
      t.uniqueId = UH_UNPACK_UNIQUE_ID bits (soundPlayOn bits m i sample vL vR d p).1 := by
  obtain ⟨hi, s, -, heq⟩ := soundPlayOn_of_ne_zero h
  have hib : i < 2 ^ bits := Nat.lt_of_lt_of_le hi hfit.1
  have hi32 : i < 2 ^ 32 := Nat.lt_of_lt_of_le hi hfit.2
  rw [heq]
  refine ⟨?_, hi, ?_⟩
  · simp only [unpack_payload_pack bits _ i hib]
    exact Nat.mod_eq_of_lt hi32
  · have hget : m.ma_sound[i]? = some (m.ma_sound[i]) := List.getElem?_eq_getElem hi
    simp only [updTrack_getElem?, if_true, hget, Option.map_some']
    exact ⟨_, rfl, rfl, rfl, rfl⟩

/-- C1: whenever `soundPlay` returns a non-null handle `h`, `soundActive(h)` is true
immediately afterwards, the matching `soundStop(h)` succeeds, and after it `soundActive(h)`
is false.  The pool size is assumed to fit the payload bits of the handle. -/
theorem play_then_active_then_stopped (bits : Nat) (m : DeviceAudioSdl) (sample : Nat)
    (volumeL volumeR disparity pitch : ℚ) (hfit : HandleFits bits m)
    (h : (soundPlay bits m sample volumeL volumeR disparity pitch).1 ≠ 0) :
    soundActive bits (soundPlay bits m sample volumeL volumeR disparity pitch).2
        (soundPlay bits m sample volumeL volumeR disparity pitch).1 = true ∧
    (soundStop bits (soundPlay bits m sample volumeL volumeR disparity pitch).2
        (soundPlay bits m sample volumeL volumeR disparity pitch).1).1 = true ∧
    soundActive bits
        (soundStop bits (soundPlay bits m sample volumeL volumeR disparity pitch).2
          (soundPlay bits m sample volumeL volumeR disparity pitch).1).2
        (soundPlay bits m sample volumeL volumeR disparity pitch).1 = false := by
  unfold soundPlay at h ⊢
  obtain ⟨hpay, hi, t, hget, hplay, -, huid⟩ := soundPlayOn_slot hfit h
  generalize soundPlayOn bits m (List.findIdx (fun t => !t.isPlaying) m.ma_sound) sample
    volumeL volumeR disparity pitch = r at *
  generalize List.findIdx (fun t => !t.isPlaying) m.ma_sound = i at *
  have hvalid : validSlot bits r.2 r.1 = some i := by
    unfold validSlot
    simp only [hpay, hget, hplay, huid]
    simp
  refine ⟨?_, ?_, ?_⟩
  · unfold soundActive
    simp only [hpay, hget, hplay, huid]
    simp
  · unfold soundStop
    simp only [hvalid]
  · unfold soundStop soundActive
    simp only [hvalid, hpay, updTrack_getElem?, hget]
    simp

theorem play_then_active_then_stopped_witness :
    HandleFits 10 exampleMixer ∧ (soundPlay 10 exampleMixer 1 1 1 0 1).1 ≠ 0 ∧
    soundActive 10 (soundPlay 10 exampleMixer 1 1 1 0 1).2
        (soundPlay 10 exampleMixer 1 1 1 0 1).1 = true ∧
    (soundStop 10 (soundPlay 10 exampleMixer 1 1 1 0 1).2
        (soundPlay 10 exampleMixer 1 1 1 0 1).1).1 = true ∧
    soundActive 10
        (soundStop 10 (soundPlay 10 exampleMixer 1 1 1 0 1).2
          (soundPlay 10 exampleMixer 1 1 1 0 1).1).2
        (soundPlay 10 exampleMixer 1 1 1 0 1).1 = false :=
  ⟨by decide, by decide,
    play_then_active_then_stopped 10 exampleMixer 1 1 1 0 1 (by decide) (by decide)⟩

/-! ### Generations and the counter along calls -/

theorem updTrack_ids (l : List AudioTrack) (i : Nat) (f : AudioTrack → AudioTrack)
    (hf : ∀ t, (f t).uniqueId = t.uniqueId) :
    (updTrack l i f).map (fun t => t.uniqueId) = l.map (fun t => t.uniqueId) := by
  apply List.ext_getElem?
  intro j
  simp only [List.getElem?_map, updTrack_getElem?]
  by_cases hij : i = j
  · simp only [hij, if_true]
    cases l[j]? with
    | none => rfl
    | some t => simp [hf]
  · simp only [hij, if_false]

theorem map_ids (l : List AudioTrack) (f : AudioTrack → AudioTrack)
    (hf : ∀ t, (f t).uniqueId = t.uniqueId) :
    (l.map f).map (fun t => t.uniqueId) = l.map (fun t => t.uniqueId) := by
  rw [List.map_map]
  apply List.map_congr_left
  intro t _
  exact hf t

theorem advanceTrack_uniqueId {F : FloatModel} {m : DeviceAudioSdl} {n : Nat}
    {t t1 : AudioTrack} (h : advanceTrack F m n t = some t1) : t1.uniqueId = t.uniqueId := by
  unfold advanceTrack at h
  split at h
  · cases h; rfl
  · split at h
    · cases h
    · split at h
      · split at h
        · cases h
        · cases h; rfl
      · split at h
        · cases h
        · split at h <;> (cases h; rfl)

theorem advanceTracks_ids {F : FloatModel} {m : DeviceAudioSdl} {n : Nat} :
    ∀ {l l1 : List AudioTrack}, advanceTracks F m n l = some l1 →
      l1.map (fun t => t.uniqueId) = l.map (fun t => t.uniqueId)
  | [], l1, h => by
    simp only [advanceTracks] at h
    cases h; rfl
  | t :: ts, l1, h => by
    simp only [advanceTracks] at h
    cases ht : advanceTrack F m n t with
    | none => simp [ht] at h
    | some t1 =>
      cases hts : advanceTracks F m n ts with
      | none => simp [ht, hts] at h
      | some ts1 =>
        simp only [ht, hts] at h
        cases h
        simp only [List.map_cons, advanceTrack_uniqueId ht, advanceTracks_ids hts]

theorem mixOutputFloat_state {F : FloatModel} {m : DeviceAudioSdl} {n : Nat}
    {r : List Int × DeviceAudioSdl} (h : mixOutputFloat F m n = some r) :
    ∃ tracks, advanceTracks F m n m.ma_sound = some tracks ∧
      r.2 = { m with ma_sound := tracks } ∧ mixFrames F m (frameIndices n) = some r.1 := by
  unfold mixOutputFloat at h
  cases hf : mixFrames F m (frameIndices n) with
  | none => simp [hf] at h
  | some out =>
    cases ha : advanceTracks F m n m.ma_sound with
    | none => simp [hf, ha] at h
    | some tracks =>
      simp only [hf, ha] at h
      cases h
      exact ⟨tracks, rfl, rfl, rfl⟩

theorem soundUpdate_state (bits : Nat) (m : DeviceAudioSdl) (h : Nat) (pause : Bool)
    (vL vR d p : ℚ) :
    (soundUpdate bits m h pause vL vR d p).2.m_uniqueCounter = m.m_uniqueCounter ∧
    ids (soundUpdate bits m h pause vL vR d p).2 = ids m := by
  unfold soundUpdate
  cases validSlot bits m h with
  | none => exact ⟨rfl, rfl⟩
  | some k => exact ⟨rfl, updTrack_ids _ _ _ (fun _ => rfl)⟩

theorem soundStop_state (bits : Nat) (m : DeviceAudioSdl) (h : Nat) :
    (soundStop bits m h).2.m_uniqueCounter = m.m_uniqueCounter ∧
    ids (soundStop bits m h).2 = ids m := by
  unfold soundStop
  cases validSlot bits m h with
  | none => exact ⟨rfl, rfl⟩
  | some k => exact ⟨rfl, updTrack_ids _ _ _ (fun _ => rfl)⟩

theorem sampleDestroy_state (m : DeviceAudioSdl) (sample : Nat) :
    (sampleDestroy m sample).2.m_uniqueCounter = m.m_uniqueCounter ∧
    ids (sampleDestroy m sample).2 = ids m := by
  unfold sampleDestroy
  cases mapFind m.mm_sample sample with
  | none => exact ⟨rfl, rfl⟩
  | some s =>
    refine ⟨rfl, map_ids _ _ (fun t => ?_)⟩
    by_cases ht : t.data.addr = s.data.addr <;> simp [ht]

theorem sampleFromMemory_state {F : FloatModel} {m : DeviceAudioSdl} {sample : AudioSample}
    {volume : ℚ} {cvt : AudioCVT} {r : Nat × DeviceAudioSdl}
    (h : sampleFromMemory F m sample volume cvt = some r) :
    r.2.ma_sound = m.ma_sound ∧
    ((r.1 = 0 ∧ r.2 = m) ∨
     (r.1 = (m.m_uniqueCounter + 1) % 2 ^ 64 ∧
      r.2.m_uniqueCounter = (m.m_uniqueCounter + 1) % 2 ^ 64)) := by
  unfold sampleFromMemory at h
  split at h
  · simp only at h
    split at h
    · cases h; exact ⟨rfl, Or.inl ⟨rfl, rfl⟩⟩
    · split at h
      · cases h
      · cases h; exact ⟨rfl, Or.inr ⟨rfl, rfl⟩⟩
  · cases h; exact ⟨rfl, Or.inl ⟨rfl, rfl⟩⟩

theorem markLoop_state (bits : Nat) (r : Nat × DeviceAudioSdl) :
    (markLoop bits r).1 = r.1 ∧ (markLoop bits r).2.m_uniqueCounter = r.2.m_uniqueCounter ∧
    ids (markLoop bits r).2 = ids r.2 := by
  unfold markLoop
  by_cases h : r.1 ≠ 0
  · rw [if_pos h]
    exact ⟨rfl, rfl, updTrack_ids _ _ _ (fun _ => rfl)⟩
  · rw [if_neg h]
    exact ⟨rfl, rfl, rfl⟩

theorem updTrack_ids_set (l : List AudioTrack) (i u : Nat) (f : AudioTrack → AudioTrack)
    (hf : ∀ t, (f t).uniqueId = u) :
    (updTrack l i f).map (fun t => t.uniqueId) = (l.map (fun t => t.uniqueId)).set i u := by
  apply List.ext_getElem?
  intro j
  simp only [List.getElem?_map, updTrack_getElem?, List.getElem?_set, List.length_map]
  by_cases hij : i = j
  · subst hij
    simp only [if_true]
    by_cases hlt : i < l.length
    · simp [hlt, List.getElem?_eq_getElem hlt, hf]
    · simp [hlt, List.getElem?_eq_none (Nat.le_of_not_lt hlt)]
  · simp only [hij, if_false]

theorem soundPlayOn_state (bits : Nat) (m : DeviceAudioSdl) (i sample : Nat) (vL vR d p : ℚ) :
    soundPlayOn bits m i sample vL vR d p = (0, m) ∨
    (i < m.m_nSound ∧
     (soundPlayOn bits m i sample vL vR d p).1 =
        UH_PACK_UNIQUE_HANDLE bits ((m.m_uniqueCounter + 1) % 2 ^ 64) i ∧
     (soundPlayOn bits m i sample vL vR d p).2.m_uniqueCounter =
        (m.m_uniqueCounter + 1) % 2 ^ 64 ∧
     ids (soundPlayOn bits m i sample vL vR d p).2 = (ids m).set i
        (UH_UNPACK_UNIQUE_ID bits
          (UH_PACK_UNIQUE_HANDLE bits ((m.m_uniqueCounter + 1) % 2 ^ 64) i))) := by
  unfold soundPlayOn
  by_cases hi : i ≥ m.m_nSound
  · left; simp [hi]
  · cases hs : mapFind m.mm_sample sample with
    | none => left; simp [hi]
    | some s =>
      right
      rw [if_neg hi]
      exact ⟨Nat.lt_of_not_ge hi, rfl, rfl, updTrack_ids_set _ _ _ _ (fun _ => rfl)⟩

/-- The effect of every call on the counter and on the generations of the slots: the
counter is kept or incremented; the generations are kept, or one slot takes the generation
packed from the incremented counter. -/
theorem step_effect {F : FloatModel} {bits : Nat} {m m1 : DeviceAudioSdl} {c : Call}
    (h : step F bits m c = some m1) :
    (m1.m_uniqueCounter = m.m_uniqueCounter ∨
      m1.m_uniqueCounter = (m.m_uniqueCounter + 1) % 2 ^ 64) ∧
    ((ids m1 = ids m ∧ c.handle bits m = 0) ∨
      ∃ i, i < m.m_nSound ∧ m1.m_uniqueCounter = (m.m_uniqueCounter + 1) % 2 ^ 64 ∧
        c.handle bits m = UH_PACK_UNIQUE_HANDLE bits ((m.m_uniqueCounter + 1) % 2 ^ 64) i ∧
        ids m1 = (ids m).set i (UH_UNPACK_UNIQUE_ID bits
          (UH_PACK_UNIQUE_HANDLE bits ((m.m_uniqueCounter + 1) % 2 ^ 64) i))) := by
  cases c with
  | load sample volume cvt =>
    simp only [step, Option.map_eq_some'] at h
    obtain ⟨r, hr, rfl⟩ := h
    obtain ⟨htr, hc⟩ := sampleFromMemory_state hr
    refine ⟨?_, Or.inl ⟨by unfold ids; rw [htr], rfl⟩⟩
    rcases hc with ⟨-, h2⟩ | ⟨-, h2⟩
    · left; rw [h2]
    · right; exact h2
  | destroy sample =>
    simp only [step, Option.some.injEq] at h
    subst h
    exact ⟨Or.inl (sampleDestroy_state m sample).1, Or.inl ⟨(sampleDestroy_state m sample).2, rfl⟩⟩
  | play sample a =>
    simp only [step, Option.some.injEq] at h
    subst h
    simp only [Call.handle, soundPlay]
    rcases soundPlayOn_state bits m (m.ma_sound.findIdx (fun t => !t.isPlaying)) sample
      a.volumeL a.volumeR a.disparity a.pitch with h0 | ⟨hi, hh, hc, hids⟩
    · rw [h0]; exact ⟨Or.inl rfl, Or.inl ⟨rfl, rfl⟩⟩
    · exact ⟨Or.inr hc, Or.inr ⟨_, hi, hc, hh, hids⟩⟩
  | playOn i sample a =>
    simp only [step, Option.some.injEq] at h
    subst h
    simp only [Call.handle]
    rcases soundPlayOn_state bits m i sample a.volumeL a.volumeR a.disparity a.pitch
      with h0 | ⟨hi, hh, hc, hids⟩
    · rw [h0]; exact ⟨Or.inl rfl, Or.inl ⟨rfl, rfl⟩⟩
    · exact ⟨Or.inr hc, Or.inr ⟨_, hi, hc, hh, hids⟩⟩
  | loop sample a =>
    simp only [step, Option.some.injEq] at h
    subst h
    simp only [Call.handle, soundLoop]
    obtain ⟨hm1, hm2, hm3⟩ := markLoop_state bits
      (soundPlay bits m sample a.volumeL a.volumeR a.disparity a.pitch)
    rw [hm1, hm2, hm3]
    unfold soundPlay
    rcases soundPlayOn_state bits m (m.ma_sound.findIdx (fun t => !t.isPlaying)) sample
      a.volumeL a.volumeR a.disparity a.pitch with h0 | ⟨hi, hh, hc, hids⟩
    · rw [h0]; exact ⟨Or.inl rfl, Or.inl ⟨rfl, rfl⟩⟩
    · exact ⟨Or.inr hc, Or.inr ⟨_, hi, hc, hh, hids⟩⟩
  | loopOn i sample a =>
    simp only [step, Option.some.injEq] at h
    subst h
    simp only [Call.handle, soundLoopOn]
    obtain ⟨hm1, hm2, hm3⟩ := markLoop_state bits
      (soundPlayOn bits m i sample a.volumeL a.volumeR a.disparity a.pitch)
    rw [hm1, hm2, hm3]
    rcases soundPlayOn_state bits m i sample a.volumeL a.volumeR a.disparity a.pitch
      with h0 | ⟨hi, hh, hc, hids⟩
    · rw [h0]; exact ⟨Or.inl rfl, Or.inl ⟨rfl, rfl⟩⟩
    · exact ⟨Or.inr hc, Or.inr ⟨_, hi, hc, hh, hids⟩⟩
  | update hd pause a =>
    simp only [step, Option.some.injEq] at h
    subst h
    exact ⟨Or.inl (soundUpdate_state ..).1, Or.inl ⟨(soundUpdate_state ..).2, rfl⟩⟩
  | stop hd =>
    simp only [step, Option.some.injEq] at h
    subst h
    exact ⟨Or.inl (soundStop_state ..).1, Or.inl ⟨(soundStop_state ..).2, rfl⟩⟩
  | stopAll =>
    simp only [step, Option.some.injEq] at h
    subst h
    exact ⟨Or.inl rfl, Or.inl ⟨map_ids _ _ (fun _ => rfl), rfl⟩⟩
  | render n =>
    simp only [step, Option.map_eq_some'] at h
    obtain ⟨r, hr, rfl⟩ := h
    obtain ⟨tracks, ha, hst, -⟩ := mixOutputFloat_state hr
    rw [hst]
    exact ⟨Or.inl rfl, Or.inl ⟨advanceTracks_ids ha, rfl⟩⟩

theorem genRange_le (bits : Nat) : 2 ^ (64 - bits) ≤ 2 ^ 64 :=
  Nat.pow_le_pow_right (by decide) (Nat.sub_le 64 bits)

theorem unpack_id_pack_succ (bits c i : Nat) (hc : c + 1 < 2 ^ (64 - bits)) :
    (c + 1) % 2 ^ 64 = c + 1 ∧
    UH_UNPACK_UNIQUE_ID bits (UH_PACK_UNIQUE_HANDLE bits ((c + 1) % 2 ^ 64) i) = c + 1 := by
  have h64 : (c + 1) % 2 ^ 64 = c + 1 :=
    Nat.mod_eq_of_lt (Nat.lt_of_lt_of_le hc (genRange_le bits))
  rw [h64, unpack_id_pack, Nat.mod_eq_of_lt hc]
  exact ⟨rfl, rfl⟩

theorem ids_length (m : DeviceAudioSdl) : (ids m).length = m.m_nSound := by
  unfold ids DeviceAudioSdl.m_nSound
  rw [List.length_map]

theorem step_counter {F : FloatModel} {bits : Nat} {m m1 : DeviceAudioSdl} {c : Call}
    (h : step F bits m c = some m1) (hnw : m.m_uniqueCounter + 1 < 2 ^ 64) :
    m.m_uniqueCounter ≤ m1.m_uniqueCounter ∧ m1.m_uniqueCounter ≤ m.m_uniqueCounter + 1 ∧
    m1.m_nSound = m.m_nSound := by
  obtain ⟨hc, hi⟩ := step_effect h
  rw [Nat.mod_eq_of_lt hnw] at hc
  refine ⟨by omega, by omega, ?_⟩
  rw [← ids_length, ← ids_length]
  rcases hi with ⟨hi, -⟩ | ⟨i, -, -, -, hi⟩
  · rw [hi]
  · rw [hi, List.length_set]

theorem run_counter {F : FloatModel} {bits : Nat} :
    ∀ {cs : List Call} {m m1 : DeviceAudioSdl}, run F bits m cs = some m1 →
      m.m_uniqueCounter + cs.length < 2 ^ 64 →
      m.m_uniqueCounter ≤ m1.m_uniqueCounter ∧
      m1.m_uniqueCounter ≤ m.m_uniqueCounter + cs.length ∧ m1.m_nSound = m.m_nSound
  | [], m, m1, h, _ => by
    simp only [run, Option.some.injEq] at h
    subst h
    exact ⟨Nat.le_refl _, Nat.le_refl _, rfl⟩
  | c :: cs, m, m1, h, hnw => by
    simp only [run] at h
    cases hs : step F bits m c with
    | none => simp [hs] at h
    | some m2 =>
      simp only [hs] at h
      simp only [List.length_cons] at hnw ⊢
      obtain ⟨h1, h2, h3⟩ := step_counter hs (by omega)
      obtain ⟨h4, h5, h6⟩ := run_counter h (by omega)
      exact ⟨by omega, by omega, by rw [h6, h3]⟩

/-- A slot whose generation is above `g` keeps a generation above `g` along every call, as
long as the counter, which is at least `g`, does not leave the generation range. -/
theorem step_fresh {F : FloatModel} {bits : Nat} {m m1 : DeviceAudioSdl} {c : Call} {g i : Nat}
    (h : step F bits m c = some m1) (hnw : m.m_uniqueCounter + 1 < 2 ^ (64 - bits))
    (hg : g ≤ m.m_uniqueCounter) (hfresh : ∀ u, (ids m)[i]? = some u → g < u) :
    ∀ u, (ids m1)[i]? = some u → g < u := by
  intro u hu
  rcases (step_effect h).2 with ⟨hi, -⟩ | ⟨j, -, -, -, hi⟩
  · rw [hi] at hu
    exact hfresh u hu
  · rw [hi, (unpack_id_pack_succ bits _ j hnw).2, List.getElem?_set] at hu
    by_cases hji : j = i
    · rw [if_pos hji] at hu
      split at hu
      · cases hu; omega
      · cases hu
    · rw [if_neg hji] at hu
      exact hfresh u hu

theorem run_fresh {F : FloatModel} {bits : Nat} {g i : Nat} :
    ∀ {cs : List Call} {m m1 : DeviceAudioSdl}, run F bits m cs = some m1 →
      m.m_uniqueCounter + cs.length < 2 ^ (64 - bits) →
      g ≤ m.m_uniqueCounter → (∀ u, (ids m)[i]? = some u → g < u) →
      ∀ u, (ids m1)[i]? = some u → g < u
  | [], m, m1, h, _, _, hf => by
    simp only [run, Option.some.injEq] at h
    subst h
    exact hf
  | c :: cs, m, m1, h, hnw, hg, hf => by
    simp only [run] at h
    cases hs : step F bits m c with
    | none => simp [hs] at h
    | some m2 =>
      simp only [hs] at h
      simp only [List.length_cons] at hnw
      have h64 := genRange_le bits
      obtain ⟨h1, h2, -⟩ := step_counter hs (by omega)
      exact run_fresh h (by omega) (by omega) (step_fresh hs (by omega) hg hf)

/-- A handle whose generation differs from the one stored in its slot is rejected by
`soundUpdate`, `soundStop` and `soundActive`, without any effect. -/
theorem rejected_of_mismatch (bits : Nat) (m : DeviceAudioSdl) (h : Nat)
    (hm : ∀ u, (ids m)[UH_UNPACK_PAYLOAD bits h % 2 ^ 32]? = some u →
      u ≠ UH_UNPACK_UNIQUE_ID bits h)
    (pause : Bool) (vL vR d p : ℚ) :
    soundUpdate bits m h pause vL vR d p = (false, m) ∧ soundStop bits m h = (false, m) ∧
    soundActive bits m h = false := by
  have hv : validSlot bits m h = none := by
    unfold validSlot
    simp only
    cases ht : m.ma_sound[UH_UNPACK_PAYLOAD bits h % 2 ^ 32]? with
    | none => rfl
    | some t =>
      have := hm t.uniqueId (by unfold ids; rw [List.getElem?_map, ht]; rfl)
      simp [this]
  refine ⟨by unfold soundUpdate; rw [hv], by unfold soundStop; rw [hv], ?_⟩
  unfold soundActive
  simp only
  cases ht : m.ma_sound[UH_UNPACK_PAYLOAD bits h % 2 ^ 32]? with
  | none => rfl
  | some t =>
    have := hm t.uniqueId (by unfold ids; rw [List.getElem?_map, ht]; rfl)
    simp [this]

/-- C2: let `c1` be a play, playOn, loop or loopOn call that returned the handle
`h1` (non-null), and let a later such call `c2` return a non-null handle on the same slot.
Then after `c2` and after any further calls, `soundUpdate(h1, ...)`, `soundStop(h1)` and
`soundActive(h1)` all return false and change nothing, provided the counter stays inside
the generation range (no wraparound) and the pool fits the payload bits. -/
theorem stale_handle_rejected (F : FloatModel) (bits : Nat) (m m1 m2 m3 mF : DeviceAudioSdl)
    (c1 c2 : Call) (cs1 cs2 : List Call) (pause : Bool) (a : PlayArgs)
    (hfit : HandleFits bits m)
    (hnw : m.m_uniqueCounter + (cs1.length + cs2.length + 2) < 2 ^ (64 - bits))
    (h1 : step F bits m c1 = some m1) (hh1 : c1.handle bits m ≠ 0)
    (hr1 : run F bits m1 cs1 = some m2)
    (h2 : step F bits m2 c2 = some m3) (hh2 : c2.handle bits m2 ≠ 0)
    (hslot : UH_UNPACK_PAYLOAD bits (c2.handle bits m2) =
      UH_UNPACK_PAYLOAD bits (c1.handle bits m))
    (hr2 : run F bits m3 cs2 = some mF) :
    soundUpdate bits mF (c1.handle bits m) pause a.volumeL a.volumeR a.disparity a.pitch
      = (false, mF) ∧
    soundStop bits mF (c1.handle bits m) = (false, mF) ∧
    soundActive bits mF (c1.handle bits m) = false := by
  have h64 := genRange_le bits
  -- the first occupancy
  obtain ⟨-, he1⟩ := step_effect h1
  rcases he1 with ⟨-, h0⟩ | ⟨i1, hi1, hc1, hd1, -⟩
  · exact absurd h0 hh1
  obtain ⟨hmod1, hid1⟩ := unpack_id_pack_succ bits m.m_uniqueCounter i1 (by omega)
  rw [hmod1] at hc1
  have hpay1 : UH_UNPACK_PAYLOAD bits (c1.handle bits m) = i1 := by
    rw [hd1]; exact unpack_payload_pack bits _ i1 (Nat.lt_of_lt_of_le hi1 hfit.1)
  have hgen1 : UH_UNPACK_UNIQUE_ID bits (c1.handle bits m) = m.m_uniqueCounter + 1 := by
    rw [hd1]; exact hid1
  have hN1 := (step_counter h1 (by omega)).2.2
  -- the calls in between
  obtain ⟨hk1, hk2, hN2⟩ := run_counter hr1 (by omega)
  -- the second occupancy of the slot
  obtain ⟨-, he2⟩ := step_effect h2
  rcases he2 with ⟨-, h0⟩ | ⟨i2, hi2, hc2, hd2, hids2⟩
  · exact absurd h0 hh2
  obtain ⟨hmod2, hid2⟩ := unpack_id_pack_succ bits m2.m_uniqueCounter i2 (by omega)
  rw [hmod2] at hc2
  rw [hid2] at hids2
  have hi2N : i2 < m.m_nSound := by rw [← hN1, ← hN2]; exact hi2
  have hpay2 : UH_UNPACK_PAYLOAD bits (c2.handle bits m2) = i2 := by
    rw [hd2]; exact unpack_payload_pack bits _ i2 (Nat.lt_of_lt_of_le hi2N hfit.1)
  have hi : i2 = i1 := by rw [← hpay2, ← hpay1]; exact hslot
  subst hi
  have hfresh3 : ∀ u, (ids m3)[i2]? = some u → m.m_uniqueCounter + 1 < u := by
    intro u hu
    rw [hids2, List.getElem?_set] at hu
    simp only [if_true] at hu
    split at hu
    · cases hu; omega
    · cases hu
  -- every later call
  have hfreshF := run_fresh hr2 (by omega) (by omega) hfresh3
  apply rejected_of_mismatch
  intro u hu
  rw [hpay1, Nat.mod_eq_of_lt (Nat.lt_of_lt_of_le hi1 hfit.2)] at hu
  rw [hgen1]
  exact Nat.ne_of_gt (hfreshF u hu)

theorem stale_handle_rejected_witness :
    soundUpdate 10
      (soundStopAll (soundPlay 10 (soundStop 10 (soundPlay 10 exampleMixer 1 1 1 0 1).2 2048).2
        1 1 1 0 1).2) 2048 true 1 1 0 1 =
      (false, soundStopAll (soundPlay 10 (soundStop 10 (soundPlay 10 exampleMixer 1 1 1 0 1).2
        2048).2 1 1 1 0 1).2) ∧
    soundStop 10
      (soundStopAll (soundPlay 10 (soundStop 10 (soundPlay 10 exampleMixer 1 1 1 0 1).2 2048).2
        1 1 1 0 1).2) 2048 =
      (false, soundStopAll (soundPlay 10 (soundStop 10 (soundPlay 10 exampleMixer 1 1 1 0 1).2
        2048).2 1 1 1 0 1).2) ∧
    soundActive 10
      (soundStopAll (soundPlay 10 (soundStop 10 (soundPlay 10 exampleMixer 1 1 1 0 1).2 2048).2
        1 1 1 0 1).2) 2048 = false :=
  stale_handle_rejected FloatModel.exact 10 exampleMixer
    (soundPlay 10 exampleMixer 1 1 1 0 1).2
    (soundStop 10 (soundPlay 10 exampleMixer 1 1 1 0 1).2 2048).2
    (soundPlay 10 (soundStop 10 (soundPlay 10 exampleMixer 1 1 1 0 1).2 2048).2 1 1 1 0 1).2
    (soundStopAll (soundPlay 10 (soundStop 10 (soundPlay 10 exampleMixer 1 1 1 0 1).2 2048).2
      1 1 1 0 1).2)
    (.play 1 exampleArgs) (.play 1 exampleArgs) [.stop 2048] [.stopAll] true exampleArgs
    (by decide) (by decide) rfl (by decide) rfl rfl (by decide) (by decide) rfl

/-! ### Pool exhaustion -/

theorem soundPlayOn_eq {bits : Nat} {m : DeviceAudioSdl} {i sample : Nat} {s : AudioTrack}
    (vL vR d p : ℚ) (hi : i < m.m_nSound) (hs : mapFind m.mm_sample sample = some s) :
    soundPlayOn bits m i sample vL vR d p =
      (UH_PACK_UNIQUE_HANDLE bits ((m.m_uniqueCounter + 1) % 2 ^ 64) i,
       { m with
          m_uniqueCounter := (m.m_uniqueCounter + 1) % 2 ^ 64,
          ma_sound := updTrack m.ma_sound i (fun t => { t with
            data := s.data, dlen := s.dlen, dpos := 0, volL := vL, volR := vR,
            disparity := d, pitch := abs p, isLoop := false, isPlaying := true,
            isPaused := false,
            uniqueId := UH_UNPACK_UNIQUE_ID bits
              (UH_PACK_UNIQUE_HANDLE bits ((m.m_uniqueCounter + 1) % 2 ^ 64) i) }) }) := by
  unfold soundPlayOn
  rw [if_neg (Nat.not_le_of_lt hi), hs]

/-- The scan of `soundPlay` stops at slot `j` when the slots below `j` are playing and
slot `j` is not. -/
theorem soundPlay_eq_playOn (bits : Nat) {m : DeviceAudioSdl} (sample : Nat) {j : Nat}
    {t : AudioTrack} (vL vR d p : ℚ) (hj : m.ma_sound[j]? = some t) (hidle : t.isPlaying = false)
    (hbelow : ∀ k u, k < j → m.ma_sound[k]? = some u → u.isPlaying = true) :
    soundPlay bits m sample vL vR d p = soundPlayOn bits m j sample vL vR d p := by
  unfold soundPlay
  have hlt : j < m.ma_sound.length := by
    by_contra hc
    rw [List.getElem?_eq_none (Nat.le_of_not_lt hc)] at hj
    cases hj
  have hidx : m.ma_sound.findIdx (fun t => !t.isPlaying) = j := by
    rw [List.findIdx_eq hlt]
    rw [List.getElem?_eq_getElem hlt] at hj
    cases hj
    refine ⟨by simp [hidle], fun k hk => ?_⟩
    have := hbelow k _ hk (List.getElem?_eq_getElem (Nat.lt_trans hk hlt))
    simp [this]
  simp only [hidx]

/-- When every slot is playing, `soundPlay` returns the null handle and changes nothing. -/
theorem soundPlay_full {bits : Nat} {m : DeviceAudioSdl} (sample : Nat) (vL vR d p : ℚ)
    (hall : ∀ t ∈ m.ma_sound, t.isPlaying = true) :
    soundPlay bits m sample vL vR d p = (0, m) := by
  unfold soundPlay
  have hidx : m.ma_sound.findIdx (fun t => !t.isPlaying) = m.ma_sound.length := by
    rw [List.findIdx_eq_length]
    intro t ht
    simp [hall t ht]
  simp only [hidx]
  unfold soundPlayOn
  have hge : m.ma_sound.length ≥ m.m_nSound := Nat.le_refl _
  rw [if_pos hge]

theorem pack_ne_zero (bits g i : Nat) (hg0 : 0 < g) (hg : g < 2 ^ (64 - bits)) :
    UH_PACK_UNIQUE_HANDLE bits g i ≠ 0 := by
  unfold UH_PACK_UNIQUE_HANDLE
  rw [Nat.mod_eq_of_lt hg]
  have h1 : 0 < 2 ^ bits := Nat.two_pow_pos bits
  have h2 : 0 < g * 2 ^ bits := Nat.mul_pos hg0 h1
  omega

/-- The effect of a `soundPlayOn` call on an existing slot with a stored sample. -/
theorem soundPlayOn_props (bits : Nat) {m : DeviceAudioSdl} {i : Nat} (sample : Nat)
    {s : AudioTrack} (vL vR d p : ℚ) (hi : i < m.m_nSound) (hs : mapFind m.mm_sample sample = some s) :
    (soundPlayOn bits m i sample vL vR d p).1 =
      UH_PACK_UNIQUE_HANDLE bits ((m.m_uniqueCounter + 1) % 2 ^ 64) i ∧
    (soundPlayOn bits m i sample vL vR d p).2.m_uniqueCounter =
      (m.m_uniqueCounter + 1) % 2 ^ 64 ∧
    (soundPlayOn bits m i sample vL vR d p).2.mm_sample = m.mm_sample ∧
    (soundPlayOn bits m i sample vL vR d p).2.m_nSound = m.m_nSound ∧
    (∀ k, k ≠ i → (soundPlayOn bits m i sample vL vR d p).2.ma_sound[k]? = m.ma_sound[k]?) ∧
    ∃ t, (soundPlayOn bits m i sample vL vR d p).2.ma_sound[i]? = some t ∧
      t.isPlaying = true ∧ t.isLoop = false ∧ t.isPaused = false ∧ t.dpos = 0 ∧
      t.data = s.data ∧ t.dlen = s.dlen ∧
      t.uniqueId = UH_UNPACK_UNIQUE_ID bits (soundPlayOn bits m i sample vL vR d p).1 := by
  rw [soundPlayOn_eq vL vR d p hi hs]
  refine ⟨rfl, rfl, rfl, updTrack_length _ _ _, ?_, ?_⟩
  · intro k hk
    simp only [updTrack_getElem?]
    rw [if_neg (fun h => hk h.symm)]
  · simp only [updTrack_getElem?, if_true, List.getElem?_eq_getElem hi, Option.map_some']
    exact ⟨_, rfl, rfl, rfl, rfl, rfl, rfl, rfl, rfl⟩

theorem playAll_spec (bits sample : Nat) (s : AudioTrack) :
    ∀ (as : List PlayArgs) (m : DeviceAudioSdl) (j : Nat),
      mapFind m.mm_sample sample = some s →
      j + as.length = m.m_nSound →
      m.m_uniqueCounter + as.length < 2 ^ (64 - bits) →
      (∀ k t, m.ma_sound[k]? = some t → (t.isPlaying = true ↔ k < j)) →
      (playAll bits m sample as).1 = (List.range as.length).map
        (fun k => UH_PACK_UNIQUE_HANDLE bits (m.m_uniqueCounter + 1 + k) (j + k)) ∧
      (playAll bits m sample as).2.m_uniqueCounter = m.m_uniqueCounter + as.length ∧
      (playAll bits m sample as).2.mm_sample = m.mm_sample ∧
      (playAll bits m sample as).2.m_nSound = m.m_nSound ∧
      (∀ k, k < j → (playAll bits m sample as).2.ma_sound[k]? = m.ma_sound[k]?) ∧
      (∀ k t, j ≤ k → (playAll bits m sample as).2.ma_sound[k]? = some t →
        t.isPlaying = true ∧ t.uniqueId = m.m_uniqueCounter + 1 + (k - j))
  | [], m, j, _, hlen, _, _ => by
    simp only [List.length_nil, Nat.add_zero] at hlen
    refine ⟨rfl, rfl, rfl, rfl, fun _ _ => rfl, ?_⟩
    intro k t hk ht
    have hm : (playAll bits m sample []).2 = m := rfl
    rw [hm, List.getElem?_eq_none (by unfold DeviceAudioSdl.m_nSound at hlen; omega)] at ht
    cases ht
  | a :: as, m, j, hs, hlen, hnw, hinv => by
    simp only [List.length_cons] at hlen hnw
    have h64 := genRange_le bits
    have hjN : j < m.m_nSound := by omega
    have hget : m.ma_sound[j]? = some (m.ma_sound[j]) := List.getElem?_eq_getElem hjN
    have hidle : (m.ma_sound[j]).isPlaying = false := by
      have := hinv j _ hget
      simpa using this
    have hplay := soundPlay_eq_playOn bits sample
      a.volumeL a.volumeR a.disparity a.pitch hget hidle
      (fun k u hk hu => (hinv k u hu).2 hk)
    obtain ⟨p1, p2, p3, p4, p5, t1, p6, p7, -, -, -, -, -, p8⟩ :=
      soundPlayOn_props bits sample a.volumeL a.volumeR a.disparity a.pitch hjN hs
    obtain ⟨hmod, hid⟩ := unpack_id_pack_succ bits m.m_uniqueCounter j (by omega)
    rw [← hplay] at p1 p2 p3 p4 p5 p6 p8
    rw [hmod] at p1 p2
    rw [hmod] at hid
    rw [p1, hid] at p8
    have hinv1 : ∀ k t, (soundPlay bits m sample a.volumeL a.volumeR a.disparity
        a.pitch).2.ma_sound[k]? = some t → (t.isPlaying = true ↔ k < j + 1) := by
      intro k t ht
      by_cases hk : k = j
      · subst hk
        rw [p6] at ht
        cases ht
        simp [p7]
      · rw [p5 k hk] at ht
        rw [hinv k t ht]
        omega
    obtain ⟨q1, q2, q3, q4, q5, q6⟩ := playAll_spec bits sample s as
      (soundPlay bits m sample a.volumeL a.volumeR a.disparity a.pitch).2 (j + 1)
      (by rw [p3]; exact hs) (by rw [p4]; omega) (by rw [p2]; omega) hinv1
    simp only [playAll, List.length_cons]
    refine ⟨?_, ?_, ?_, ?_, ?_, ?_⟩
    · rw [q1, p1, p2, List.range_succ_eq_map, List.map_cons, List.map_map]
      simp only [Nat.add_zero, List.cons.injEq, true_and]
      apply List.map_congr_left
      intro k _
      simp only [Function.comp, Nat.succ_eq_add_one]
      congr 1 <;> omega
    · rw [q2, p2]; omega
    · rw [q3, p3]
    · rw [q4, p4]
    · intro k hk
      rw [q5 k (by omega), p5 k (by omega)]
    · intro k t hk ht
      by_cases hkj : k = j
      · subst hkj
        rw [q5 k (by omega), p6] at ht
        cases ht
        exact ⟨p7, by rw [p8]; omega⟩
      · obtain ⟨r1, r2⟩ := q6 k t (by omega) ht
        exact ⟨r1, by rw [r2, p2]; omega⟩

theorem validSlot_of {bits : Nat} {m : DeviceAudioSdl} {h k : Nat} {t : AudioTrack}
    (hk : UH_UNPACK_PAYLOAD bits h % 2 ^ 32 = k) (ht : m.ma_sound[k]? = some t)
    (hp : t.isPlaying = true) (hu : t.uniqueId = UH_UNPACK_UNIQUE_ID bits h) :
    validSlot bits m h = some k := by
  unfold validSlot
  simp only [hk, ht, hp, hu]
  simp

theorem soundStop_of_valid {bits : Nat} {m : DeviceAudioSdl} {h k : Nat}
    (hv : validSlot bits m h = some k) :
    (soundStop bits m h).1 = true ∧ (soundStop bits m h).2.mm_sample = m.mm_sample ∧
    (soundStop bits m h).2.m_uniqueCounter = m.m_uniqueCounter ∧
    (soundStop bits m h).2.ma_sound =
      updTrack m.ma_sound k (fun t => { t with isPlaying := false }) := by
  unfold soundStop
  rw [hv]
  exact ⟨rfl, rfl, rfl, rfl⟩

/-- C3: starting with all `N` slots idle and a stored sample, `N` consecutive
`soundPlay` calls return non-null handles on the slots `0, ..., N-1`; the next `soundPlay`
returns the null handle and leaves the state unchanged; and after `soundStop` on any one of
the `N` handles a further `soundPlay` returns a non-null handle.  The pool is assumed to fit
the payload bits and the counter to stay inside the generation range. -/
theorem pool_exhaustion (bits : Nat) (m : DeviceAudioSdl) (sample : Nat) (s : AudioTrack)
    (as : List PlayArgs) (a b : PlayArgs)
    (hfit : HandleFits bits m)
    (hs : mapFind m.mm_sample sample = some s)
    (hidle : ∀ t ∈ m.ma_sound, t.isPlaying = false)
    (hlen : as.length = m.m_nSound)
    (hnw : m.m_uniqueCounter + m.m_nSound + 1 < 2 ^ (64 - bits)) :
    (playAll bits m sample as).1.length = m.m_nSound ∧
    (∀ k, k < m.m_nSound → ∃ h, (playAll bits m sample as).1[k]? = some h ∧ h ≠ 0 ∧
      UH_UNPACK_PAYLOAD bits h = k) ∧
    soundPlay bits (playAll bits m sample as).2 sample a.volumeL a.volumeR a.disparity a.pitch
      = (0, (playAll bits m sample as).2) ∧
    ∀ h ∈ (playAll bits m sample as).1,
      (soundStop bits (playAll bits m sample as).2 h).1 = true ∧
      (soundPlay bits (soundStop bits (playAll bits m sample as).2 h).2 sample
        b.volumeL b.volumeR b.disparity b.pitch).1 ≠ 0 := by
  have h64 := genRange_le bits
  obtain ⟨q1, q2, q3, q4, -, q6⟩ := playAll_spec bits sample s as m 0 hs (by omega) (by omega)
    (fun k t ht => by simp [hidle t (List.getElem?_mem ht)])
  have hall : ∀ t ∈ (playAll bits m sample as).2.ma_sound, t.isPlaying = true := by
    intro t ht
    obtain ⟨k, hk⟩ := List.getElem?_of_mem ht
    exact (q6 k t (Nat.zero_le k) hk).1
  have hhandle : ∀ k, k < m.m_nSound → (playAll bits m sample as).1[k]? =
      some (UH_PACK_UNIQUE_HANDLE bits (m.m_uniqueCounter + 1 + k) k) := by
    intro k hk
    rw [q1, List.getElem?_map, List.getElem?_range (by omega)]
    simp
  refine ⟨by rw [q1]; simp [hlen], ?_, soundPlay_full _ _ _ _ _ hall, ?_⟩
  · intro k hk
    exact ⟨_, hhandle k hk, pack_ne_zero bits _ k (by omega) (by omega),
      unpack_payload_pack bits _ k (Nat.lt_of_lt_of_le hk hfit.1)⟩
  · intro h hh
    rw [q1, List.mem_map] at hh
    obtain ⟨k, hk, rfl⟩ := hh
    rw [List.mem_range, hlen] at hk
    simp only [Nat.zero_add]
    -- slot `k` of the full pool carries the generation of the handle
    have hkN : k < (playAll bits m sample as).2.ma_sound.length := by
      have := q4; unfold DeviceAudioSdl.m_nSound at this; rw [this]; exact hk
    have hget := List.getElem?_eq_getElem hkN
    obtain ⟨hp, hu⟩ := q6 k _ (Nat.zero_le k) hget
    have hpay : UH_UNPACK_PAYLOAD bits
        (UH_PACK_UNIQUE_HANDLE bits (m.m_uniqueCounter + 1 + k) k) % 2 ^ 32 = k := by
      rw [unpack_payload_pack bits _ k (Nat.lt_of_lt_of_le hk hfit.1)]
      exact Nat.mod_eq_of_lt (Nat.lt_of_lt_of_le hk hfit.2)
    have hgen : UH_UNPACK_UNIQUE_ID bits
        (UH_PACK_UNIQUE_HANDLE bits (m.m_uniqueCounter + 1 + k) k) = m.m_uniqueCounter + 1 + k := by
      rw [unpack_id_pack]; exact Nat.mod_eq_of_lt (by omega)
    have hvalid := validSlot_of hpay hget hp (by rw [hu, hgen]; omega)
    obtain ⟨s1, s2, s3, s4⟩ := soundStop_of_valid hvalid
    refine ⟨s1, ?_⟩
    -- the freed slot is the first idle one
    have hslot : (soundStop bits (playAll bits m sample as).2
        (UH_PACK_UNIQUE_HANDLE bits (m.m_uniqueCounter + 1 + k) k)).2.ma_sound[k]? =
        some { ((playAll bits m sample as).2.ma_sound[k]) with isPlaying := false } := by
      rw [s4, updTrack_getElem?, if_pos rfl, hget]; rfl
    have hplay := soundPlay_eq_playOn bits sample
      b.volumeL b.volumeR b.disparity b.pitch hslot rfl
      (fun k' u hk' hu' => by
        rw [s4, updTrack_getElem?, if_neg (by omega)] at hu'
        exact hall u (List.getElem?_mem hu'))
    rw [hplay]
    have hprops := soundPlayOn_props bits
      (m := (soundStop bits (playAll bits m sample as).2
        (UH_PACK_UNIQUE_HANDLE bits (m.m_uniqueCounter + 1 + k) k)).2)
      (i := k) sample (s := s)
      b.volumeL b.volumeR b.disparity b.pitch
      (by unfold DeviceAudioSdl.m_nSound; rw [s4, updTrack_length]; exact hkN)
      (by rw [s2, q3]; exact hs)
    rw [hprops.1, s3, q2, hlen, Nat.mod_eq_of_lt (by omega)]
    exact pack_ne_zero bits _ k (by omega) (by omega)

theorem pool_exhaustion_witness :
    (playAll 10 exampleMixer 1 (List.replicate 4 exampleArgs)).1 = [2048, 3073, 4098, 5123] ∧
    soundPlay 10 (playAll 10 exampleMixer 1 (List.replicate 4 exampleArgs)).2 1 1 1 0 1 =
      (0, (playAll 10 exampleMixer 1 (List.replicate 4 exampleArgs)).2) ∧
    ∀ h ∈ (playAll 10 exampleMixer 1 (List.replicate 4 exampleArgs)).1,
      (soundStop 10 (playAll 10 exampleMixer 1 (List.replicate 4 exampleArgs)).2 h).1 = true ∧
      (soundPlay 10 (soundStop 10 (playAll 10 exampleMixer 1
        (List.replicate 4 exampleArgs)).2 h).2 1 1 1 0 1).1 ≠ 0 :=
  ⟨by decide,
   (pool_exhaustion 10 exampleMixer 1 exampleSample (List.replicate 4 exampleArgs)
      exampleArgs exampleArgs (by decide) (by decide) (by decide) (by decide) (by decide)).2.2⟩

/-! ### Validation in `soundUpdate` -/

theorem validSlot_eq_some_iff (bits : Nat) (m : DeviceAudioSdl) (h k : Nat) :
    validSlot bits m h = some k ↔
      k = UH_UNPACK_PAYLOAD bits h % 2 ^ 32 ∧
      ∃ t, m.ma_sound[k]? = some t ∧ t.uniqueId = UH_UNPACK_UNIQUE_ID bits h ∧
        t.isPlaying = true := by
  unfold validSlot
  simp only
  cases ht : m.ma_sound[UH_UNPACK_PAYLOAD bits h % 2 ^ 32]? with
  | none =>
    constructor
    · intro hc; cases hc
    · rintro ⟨rfl, t, ht', -, -⟩
      rw [ht] at ht'
      cases ht'
  | some t =>
    by_cases hp : t.isPlaying = true
    · by_cases hu : t.uniqueId = UH_UNPACK_UNIQUE_ID bits h
      · simp only [hp, hu, Bool.not_true, ne_eq, not_true_eq_false, decide_False, Bool.or_self,
          Bool.false_eq_true, if_false, Option.some.injEq]
        constructor
        · rintro rfl
          exact ⟨rfl, t, ht, hu, hp⟩
        · rintro ⟨rfl, -⟩
          rfl
      · simp only [hp, hu, Bool.not_true, ne_eq, not_false_eq_true, decide_True, Bool.or_true,
          if_true]
        constructor
        · intro hc; cases hc
        · rintro ⟨rfl, t', ht', hu', -⟩
          rw [ht] at ht'
          cases ht'
          exact absurd hu' hu
    · simp only [Bool.not_eq_true] at hp
      simp only [hp, Bool.not_false, Bool.true_or, if_true]
      constructor
      · intro hc; cases hc
      · rintro ⟨rfl, t', ht', -, hp'⟩
        rw [ht] at ht'
        cases ht'
        rw [hp] at hp'
        cases hp'

/-- C4: `soundUpdate` returns true exactly when the handle is valid, that is when its
slot index is below `m_nSound`, the slot carries the generation of the handle and the slot is
playing; and whenever it returns false the whole state is unchanged. -/
theorem soundUpdate_true_iff_valid (bits : Nat) (m : DeviceAudioSdl) (uniqueHandle : Nat)
    (pause : Bool) (volumeL volumeR disparity pitch : ℚ) :
    ((soundUpdate bits m uniqueHandle pause volumeL volumeR disparity pitch).1 = true ↔
      UH_UNPACK_PAYLOAD bits uniqueHandle % 2 ^ 32 < m.m_nSound ∧
      ∃ t, m.ma_sound[UH_UNPACK_PAYLOAD bits uniqueHandle % 2 ^ 32]? = some t ∧
        t.uniqueId = UH_UNPACK_UNIQUE_ID bits uniqueHandle ∧ t.isPlaying = true) ∧
    ((soundUpdate bits m uniqueHandle pause volumeL volumeR disparity pitch).1 = false →
      (soundUpdate bits m uniqueHandle pause volumeL volumeR disparity pitch).2 = m) := by
  unfold soundUpdate
  cases hv : validSlot bits m uniqueHandle with
  | none =>
    refine ⟨⟨fun hc => (by cases hc), ?_⟩, fun _ => rfl⟩
    rintro ⟨-, t, ht, hu, hp⟩
    have := (validSlot_eq_some_iff bits m uniqueHandle _).2 ⟨rfl, t, ht, hu, hp⟩
    rw [hv] at this
    cases this
  | some k =>
    obtain ⟨rfl, t, ht, hu, hp⟩ := (validSlot_eq_some_iff bits m uniqueHandle k).1 hv
    refine ⟨⟨fun _ => ⟨?_, t, ht, hu, hp⟩, fun _ => rfl⟩, fun hc => (by cases hc)⟩
    by_contra hc
    rw [List.getElem?_eq_none (Nat.le_of_not_lt hc)] at ht
    cases ht

/-! ### `sampleDestroy` -/

theorem mapFind_mapErase (l : List (Nat × AudioTrack)) (k : Nat) :
    mapFind (mapErase l k) k = none := by
  induction l with
  | nil => rfl
  | cons e rest ih =>
    unfold mapErase at ih ⊢
    by_cases he : e.1 = k
    · simp only [List.filter, he, ne_eq, not_true_eq_false, decide_False]
      exact ih
    · simp only [List.filter, he, ne_eq, not_false_eq_true, decide_True, mapFind, if_false]
      exact ih

theorem soundPlayOn_unknown (bits : Nat) (m : DeviceAudioSdl) (i sample : Nat) (vL vR d p : ℚ)
    (hs : mapFind m.mm_sample sample = none) :
    soundPlayOn bits m i sample vL vR d p = (0, m) := by
  unfold soundPlayOn
  rw [hs]
  split <;> rfl

/-- C5: `sampleDestroy` returns false and changes nothing when the id is not in the
store.  Otherwise it returns true; every slot whose buffer is the one of the sample is
not playing afterwards and is otherwise unchanged, every other slot is unchanged; and the id
is unknown afterwards: a second `sampleDestroy` returns false, `soundPlayOn` and `soundPlay`
with that id return the null handle, all three without effect. -/
theorem sampleDestroy_spec (bits : Nat) (m : DeviceAudioSdl) (sample : Nat) :
    (mapFind m.mm_sample sample = none → sampleDestroy m sample = (false, m)) ∧
    (∀ s, mapFind m.mm_sample sample = some s →
      (sampleDestroy m sample).1 = true ∧
      (sampleDestroy m sample).2.m_nSound = m.m_nSound ∧
      (∀ (k : Nat) (t : AudioTrack), m.ma_sound[k]? = some t →
        (t.data.addr = s.data.addr →
          (sampleDestroy m sample).2.ma_sound[k]? = some { t with isPlaying := false }) ∧
        (t.data.addr ≠ s.data.addr → (sampleDestroy m sample).2.ma_sound[k]? = some t)) ∧
      mapFind (sampleDestroy m sample).2.mm_sample sample = none ∧
      sampleDestroy (sampleDestroy m sample).2 sample = (false, (sampleDestroy m sample).2) ∧
      (∀ i vL vR d p, soundPlayOn bits (sampleDestroy m sample).2 i sample vL vR d p =
        (0, (sampleDestroy m sample).2)) ∧
      (∀ vL vR d p, soundPlay bits (sampleDestroy m sample).2 sample vL vR d p =
        (0, (sampleDestroy m sample).2))) := by
  constructor
  · intro hs
    unfold sampleDestroy
    rw [hs]
  · intro s hs
    have hgone : mapFind (sampleDestroy m sample).2.mm_sample sample = none := by
      unfold sampleDestroy
      rw [hs]
      exact mapFind_mapErase _ _
    refine ⟨?_, ?_, ?_, hgone, ?_, ?_, ?_⟩
    · unfold sampleDestroy; rw [hs]
    · unfold sampleDestroy DeviceAudioSdl.m_nSound; rw [hs]; simp
    · intro k t ht
      unfold sampleDestroy
      rw [hs]
      simp only [List.getElem?_map, ht, Option.map_some']
      constructor
      · intro h; rw [if_pos h]
      · intro h; rw [if_neg h]
    · generalize (sampleDestroy m sample).2 = m1 at hgone ⊢
      unfold sampleDestroy
      rw [hgone]
    · intro i vL vR d p
      exact soundPlayOn_unknown bits _ i sample vL vR d p hgone
    · intro vL vR d p
      unfold soundPlay
      exact soundPlayOn_unknown bits _ _ sample vL vR d p hgone

theorem sampleDestroy_spec_witness :
    (sampleDestroy (soundPlay 10 exampleMixer 1 1 1 0 1).2 1).1 = true ∧
    (∀ t ∈ (sampleDestroy (soundPlay 10 exampleMixer 1 1 1 0 1).2 1).2.ma_sound,
      t.isPlaying = false) ∧
    sampleDestroy (sampleDestroy (soundPlay 10 exampleMixer 1 1 1 0 1).2 1).2 1 =
      (false, (sampleDestroy (soundPlay 10 exampleMixer 1 1 1 0 1).2 1).2) :=
  ⟨((sampleDestroy_spec 10 (soundPlay 10 exampleMixer 1 1 1 0 1).2 1).2 exampleSample
      (by decide)).1,
   by decide,
   ((sampleDestroy_spec 10 (soundPlay 10 exampleMixer 1 1 1 0 1).2 1).2 exampleSample
      (by decide)).2.2.2.2.1⟩

/-! ### Unsupported bit depth -/

/-- C6: `sampleFromMemory` of a sample whose bytes per sample is not 1, 2 or 4 returns
the null id 0 and leaves the whole state (sample store and counter included) unchanged, so
that any following `sampleFromMemory` behaves as if the failed one had not happened. -/
theorem sampleFromMemory_unsupported (F : FloatModel) (m : DeviceAudioSdl) (sample : AudioSample)
    (volume : ℚ) (cvt : AudioCVT)
    (hbad : sample.bytesPerSample ≠ 1 ∧ sample.bytesPerSample ≠ 2 ∧ sample.bytesPerSample ≠ 4) :
    sampleFromMemory F m sample volume cvt = some (0, m) ∧
    ∀ (sample2 : AudioSample) (volume2 : ℚ) (cvt2 : AudioCVT),
      (sampleFromMemory F m sample volume cvt).bind
        (fun r => sampleFromMemory F r.2 sample2 volume2 cvt2) =
      sampleFromMemory F m sample2 volume2 cvt2 := by
  have h0 : sampleFromMemory F m sample volume cvt = some (0, m) := by
    unfold sampleFromMemory
    rw [if_neg (by
      rintro (h | h | h)
      · exact hbad.1 h
      · exact hbad.2.1 h
      · exact hbad.2.2 h)]
  refine ⟨h0, fun sample2 volume2 cvt2 => ?_⟩
  rw [h0]
  rfl

theorem sampleFromMemory_unsupported_witness :
    sampleFromMemory FloatModel.exact exampleMixer ⟨3, 1, 44100, [1, 2, 3]⟩ 1
      ⟨⟨8192, [1, 2, 3]⟩, 3⟩ = some (0, exampleMixer) :=
  (sampleFromMemory_unsupported FloatModel.exact exampleMixer ⟨3, 1, 44100, [1, 2, 3]⟩ 1
    ⟨⟨8192, [1, 2, 3]⟩, 3⟩ (by decide)).1

/-! ### The output of a block -/

theorem truncQ_of_nonneg {q : ℚ} (hq : 0 ≤ q) : truncQ q = ⌊q⌋ := by
  unfold truncQ
  rw [Int.tdiv_eq_ediv (Rat.num_nonneg.2 hq) (Int.ofNat_nonneg _), Rat.floor_def]

theorem truncQ_neg (q : ℚ) : truncQ (-q) = -truncQ q := by
  unfold truncQ
  rw [Rat.neg_num, Rat.neg_den, Int.neg_tdiv]

theorem truncQ_intCast (z : Int) : truncQ (z : ℚ) = z := by
  unfold truncQ
  rw [Rat.intCast_num, Rat.intCast_den]
  exact Int.tdiv_one z

theorem truncQ_range {q : ℚ} (hlo : (SHRT_MIN : ℚ) ≤ q) (hhi : q ≤ (SHRT_MAX : ℚ)) :
    SHRT_MIN ≤ truncQ q ∧ truncQ q ≤ SHRT_MAX := by
  unfold SHRT_MIN at hlo ⊢
  unfold SHRT_MAX at hhi ⊢
  by_cases hq : 0 ≤ q
  · rw [truncQ_of_nonneg hq]
    have h1 : (0 : Int) ≤ ⌊q⌋ := Int.floor_nonneg.2 hq
    have h2 : ⌊q⌋ ≤ 32767 := by
      have : ((⌊q⌋ : Int) : ℚ) ≤ ((32767 : Int) : ℚ) := le_trans (Int.floor_le q) hhi
      exact_mod_cast this
    omega
  · have hq' : 0 ≤ -q := by linarith
    have hneg : truncQ q = -⌊-q⌋ := by
      rw [← truncQ_of_nonneg hq', truncQ_neg, neg_neg]
    rw [hneg]
    have h1 : (0 : Int) ≤ ⌊-q⌋ := Int.floor_nonneg.2 hq'
    have h2 : ⌊-q⌋ ≤ 32768 := by
      have h3 : -q ≤ ((32768 : Int) : ℚ) := by push_cast at hlo ⊢; linarith
      have : ((⌊-q⌋ : Int) : ℚ) ≤ ((32768 : Int) : ℚ) := le_trans (Int.floor_le (-q)) h3
      exact_mod_cast this
    omega

theorem clampOut_range (x : ℚ) : SHRT_MIN ≤ clampOut x ∧ clampOut x ≤ SHRT_MAX := by
  unfold clampOut
  split
  · exact ⟨by decide, Int.le_refl _⟩
  · split
    · exact ⟨Int.le_refl _, by decide⟩
    · rename_i h1 h2
      exact truncQ_range (not_lt.1 h2) (not_lt.1 h1)

theorem mixTracks_eq_fold (F : FloatModel) (m : DeviceAudioSdl) (j : Nat) :
    ∀ (ts : List AudioTrack) (acc : ℚ × ℚ),
      mixTracks F m j ts acc = (contributions F m j ts).map (fun cs =>
        ((cs.filterMap (fun c => c.1)).foldl (fun a x => F.r32 (a + x)) acc.1,
         (cs.filterMap (fun c => c.2)).foldl (fun a x => F.r32 (a + x)) acc.2))
  | [], acc => rfl
  | t :: ts, acc => by
    simp only [mixTracks, contributions]
    cases hc : trackContribution F m j t with
    | none => rfl
    | some c =>
      simp only [mixTracks_eq_fold F m j ts]
      cases hcs : contributions F m j ts with
      | none => rfl
      | some cs =>
        obtain ⟨cl, cr⟩ := c
        cases cl <;> cases cr <;> rfl

theorem mixFrame_eq_sum (F : FloatModel) (m : DeviceAudioSdl) (j : Nat) :
    mixFrame F m j = (contributions F m j m.ma_sound).map (fun cs =>
      (clampOut (floatSum F (cs.filterMap (fun c => c.1))),
       clampOut (floatSum F (cs.filterMap (fun c => c.2))))) := by
  unfold mixFrame
  rw [mixTracks_eq_fold]
  cases contributions F m j m.ma_sound with
  | none => rfl
  | some cs => rfl

theorem mixFrames_spec (F : FloatModel) (m : DeviceAudioSdl) :
    ∀ (js : List Nat) (out : List Int), mixFrames F m js = some out →
      out.length = 2 * js.length ∧
      ∀ k j, js[k]? = some j → ∃ l r, mixFrame F m j = some (l, r) ∧
        out[2 * k]? = some l ∧ out[2 * k + 1]? = some r
  | [], out, h => by
    simp only [mixFrames, Option.some.injEq] at h
    subst h
    exact ⟨rfl, fun k j hk => by simp at hk⟩
  | j0 :: js, out, h => by
    simp only [mixFrames] at h
    cases hf : mixFrame F m j0 with
    | none => simp [hf] at h
    | some lr =>
      cases hr : mixFrames F m js with
      | none => simp [hf, hr] at h
      | some rest =>
        obtain ⟨l, r⟩ := lr
        simp only [hf, hr, Option.some.injEq] at h
        subst h
        obtain ⟨ih1, ih2⟩ := mixFrames_spec F m js rest hr
        refine ⟨by simp only [List.length_cons, ih1]; omega, ?_⟩
        intro k j hk
        cases k with
        | zero =>
          simp only [List.getElem?_cons_zero, Option.some.injEq] at hk
          subst hk
          exact ⟨l, r, hf, by simp, by simp⟩
        | succ k =>
          simp only [List.getElem?_cons_succ] at hk
          obtain ⟨l', r', h1, h2, h3⟩ := ih2 k j hk
          refine ⟨l', r', h1, ?_, ?_⟩
          · have : 2 * (k + 1) = (2 * k + 1) + 1 := by omega
            rw [this, List.getElem?_cons_succ, List.getElem?_cons_succ]
            exact h2
          · have : 2 * (k + 1) + 1 = (2 * k + 1 + 1) + 1 := by omega
            rw [this, List.getElem?_cons_succ, List.getElem?_cons_succ]
            exact h3

/-- C7: every value written by a block of `mixOutputFloat` lies in the signed 16-bit
range, and the two values written for the output index `j = 2k` are the clamp (applied
once, with truncation inside the range) of the float sum of what the tracks add to the
left and to the right channel at `j`; a sum above 32767 gives exactly 32767 and a sum
below -32768 gives exactly -32768. -/
theorem mix_output_clamped (F : FloatModel) (m : DeviceAudioSdl) (nFrames : Nat)
    (out : List Int) (h : (mixOutputFloat F m nFrames).map (fun r => r.1) = some out) :
    out.length = 2 * ((nFrames + 1) / 2) ∧
    (∀ x ∈ out, SHRT_MIN ≤ x ∧ x ≤ SHRT_MAX) ∧
    (∀ k, k < (nFrames + 1) / 2 → ∃ cs, contributions F m (2 * k) m.ma_sound = some cs ∧
      out[2 * k]? = some (clampOut (floatSum F (cs.filterMap (fun c => c.1)))) ∧
      out[2 * k + 1]? = some (clampOut (floatSum F (cs.filterMap (fun c => c.2))))) ∧
    (∀ x : ℚ, ((SHRT_MAX : ℚ) < x → clampOut x = SHRT_MAX) ∧
      (x < (SHRT_MIN : ℚ) → clampOut x = SHRT_MIN) ∧
      ((SHRT_MIN : ℚ) ≤ x → x ≤ (SHRT_MAX : ℚ) → clampOut x = truncQ x)) ∧
    (F.r32 32767 = 32767 → F.r32 65534 = 65534 →
      clampOut (floatSum F [32767, 32767]) = SHRT_MAX) := by
  simp only [Option.map_eq_some'] at h
  obtain ⟨r, hr, rfl⟩ := h
  obtain ⟨-, -, -, hframes⟩ := mixOutputFloat_state hr
  obtain ⟨hlen, hvals⟩ := mixFrames_spec F m _ _ hframes
  have hidx : ∀ k, k < (nFrames + 1) / 2 → (frameIndices nFrames)[k]? = some (2 * k) := by
    intro k hk
    unfold frameIndices
    rw [List.getElem?_map, List.getElem?_range hk]
    rfl
  have hchar : ∀ k, k < (nFrames + 1) / 2 →
      ∃ cs, contributions F m (2 * k) m.ma_sound = some cs ∧
        r.1[2 * k]? = some (clampOut (floatSum F (cs.filterMap (fun c => c.1)))) ∧
        r.1[2 * k + 1]? = some (clampOut (floatSum F (cs.filterMap (fun c => c.2)))) := by
    intro k hk
    obtain ⟨l, r', hf, h1, h2⟩ := hvals k (2 * k) (hidx k hk)
    rw [mixFrame_eq_sum, Option.map_eq_some'] at hf
    obtain ⟨cs, hcs, heq⟩ := hf
    simp only [Prod.mk.injEq] at heq
    exact ⟨cs, hcs, by rw [h1, heq.1], by rw [h2, heq.2]⟩
  have hlen' : r.1.length = 2 * ((nFrames + 1) / 2) := by
    rw [hlen]; unfold frameIndices; simp
  refine ⟨hlen', ?_, hchar, ?_, ?_⟩
  · intro x hx
    obtain ⟨i, hi⟩ := List.getElem?_of_mem hx
    have hilt : i < r.1.length := by
      by_contra hc
      rw [List.getElem?_eq_none (Nat.le_of_not_lt hc)] at hi
      cases hi
    obtain ⟨cs, -, h1, h2⟩ := hchar (i / 2) (by omega)
    rcases Nat.mod_two_eq_zero_or_one i with hpar | hpar
    · have : 2 * (i / 2) = i := by omega
      rw [this, hi, Option.some.injEq] at h1
      rw [h1]; exact clampOut_range _
    · have : 2 * (i / 2) + 1 = i := by omega
      rw [this, hi, Option.some.injEq] at h2
      rw [h2]; exact clampOut_range _
  · intro x
    refine ⟨fun hx => ?_, fun hx => ?_, fun h1 h2 => ?_⟩
    · unfold clampOut; rw [if_pos hx]
    · unfold clampOut
      have : ¬ x > (SHRT_MAX : ℚ) := by
        have : (SHRT_MIN : ℚ) < (SHRT_MAX : ℚ) := by unfold SHRT_MIN SHRT_MAX; norm_num
        intro hc; linarith
      rw [if_neg this, if_pos hx]
    · unfold clampOut
      rw [if_neg (not_lt.2 h2), if_neg (not_lt.2 h1)]
  · intro h1 h2
    have hsum : floatSum F [32767, 32767] = 65534 := by
      unfold floatSum
      simp only [List.foldl_cons, List.foldl_nil, zero_add, h1]
      norm_num [h2]
    rw [hsum]
    unfold clampOut SHRT_MAX
    rw [if_pos (by norm_num)]

theorem mix_output_clamped_witness :
    (mixOutputFloat FloatModel.exact loudMixer 2).map (fun r => r.1) = some [32767, 32767] ∧
    contributions FloatModel.exact loudMixer 0 loudMixer.ma_sound =
      some [(some 32767, some 32767), (some 32767, some 32767)] ∧
    ([32767, 32767] : List Int).length = 2 * ((2 + 1) / 2) :=
  ⟨by decide!, by decide!,
   (mix_output_clamped FloatModel.exact loudMixer 2 [32767, 32767] (by decide!)).1⟩

/-! ### The cursor advance -/

/-- The second loop of `mixOutputFloat` writes only `dpos` and `isPlaying`; it never sets
`isPlaying`, leaves it alone on a looping track, and leaves a paused track untouched. -/
theorem advanceTrack_frame {F : FloatModel} {m : DeviceAudioSdl} {n : Nat}
    {t t1 : AudioTrack} (h : advanceTrack F m n t = some t1) :
    t1 = { t with dpos := t1.dpos, isPlaying := t1.isPlaying } ∧
    (t1.isPlaying = true → t.isPlaying = true) ∧
    (t.isLoop = true → t1.isPlaying = t.isPlaying) ∧
    (t.isPaused = true → t1 = t) := by
  unfold advanceTrack at h
  split at h
  · cases h
    exact ⟨rfl, fun hp => hp, fun _ => rfl, fun _ => rfl⟩
  · rename_i hpa
    split at h
    · cases h
    · split at h
      · rename_i hl
        split at h
        · cases h
        · cases h
          exact ⟨rfl, fun hp => hp, fun _ => rfl, fun hc => absurd hc hpa⟩
      · rename_i hl
        split at h
        · cases h
        · split at h
          · cases h
            exact ⟨rfl, fun hp => (by simp at hp), fun hc => absurd hc hl,
              fun hc => absurd hc hpa⟩
          · cases h
            exact ⟨rfl, fun hp => hp, fun _ => rfl, fun hc => absurd hc hpa⟩

theorem advanceTracks_getElem? {F : FloatModel} {m : DeviceAudioSdl} {n : Nat} :
    ∀ {l l1 : List AudioTrack}, advanceTracks F m n l = some l1 →
      l1.length = l.length ∧
      ∀ (i : Nat) (t : AudioTrack), l[i]? = some t →
        ∃ t1, l1[i]? = some t1 ∧ advanceTrack F m n t = some t1
  | [], l1, h => by
    simp only [advanceTracks, Option.some.injEq] at h
    subst h
    exact ⟨rfl, fun i t ht => (by simp at ht)⟩
  | t0 :: ts, l1, h => by
    simp only [advanceTracks] at h
    cases ht : advanceTrack F m n t0 with
    | none => simp [ht] at h
    | some t1 =>
      cases hts : advanceTracks F m n ts with
      | none => simp [ht, hts] at h
      | some ts1 =>
        simp only [ht, hts, Option.some.injEq] at h
        subst h
        obtain ⟨ih1, ih2⟩ := advanceTracks_getElem? hts
        refine ⟨by simp only [List.length_cons, ih1], ?_⟩
        intro i t hi
        cases i with
        | zero =>
          simp only [List.getElem?_cons_zero, Option.some.injEq] at hi
          subst hi
          exact ⟨t1, by simp, ht⟩
        | succ i =>
          simp only [List.getElem?_cons_succ] at hi ⊢
          exact ih2 i t hi

/-- The state of a slot after a block is `advanceTrack` of its state before the block. -/
theorem mixOutputFloat_slot {F : FloatModel} {m : DeviceAudioSdl} {n : Nat}
    {r : List Int × DeviceAudioSdl} (h : mixOutputFloat F m n = some r)
    {i : Nat} {t : AudioTrack} (ht : m.ma_sound[i]? = some t) :
    ∃ t1, r.2.ma_sound[i]? = some t1 ∧ advanceTrack F m n t = some t1 := by
  obtain ⟨tracks, ha, hst, -⟩ := mixOutputFloat_state h
  rw [hst]
  exact (advanceTracks_getElem? ha).2 i t ht

theorem renderBlocks_loop {F : FloatModel} {i : Nat} :
    ∀ (ns : List Nat) (m m1 : DeviceAudioSdl) (t : AudioTrack),
      renderBlocks F m ns = some m1 → m.ma_sound[i]? = some t →
      t.isPlaying = true → t.isLoop = true →
      ∃ t1, m1.ma_sound[i]? = some t1 ∧ t1.isPlaying = true ∧ t1.isLoop = true
  | [], m, m1, t, h, ht, hp, hl => by
    simp only [renderBlocks, Option.some.injEq] at h
    subst h
    exact ⟨t, ht, hp, hl⟩
  | n :: ns, m, m1, t, h, ht, hp, hl => by
    simp only [renderBlocks] at h
    cases hr : mixOutputFloat F m n with
    | none => simp [hr] at h
    | some r =>
      simp only [hr] at h
      obtain ⟨t1, ht1, ha⟩ := mixOutputFloat_slot hr ht
      obtain ⟨f1, -, f3, -⟩ := advanceTrack_frame ha
      have hl1 : t1.isLoop = true := by rw [f1]; exact hl
      exact renderBlocks_loop ns r.2 m1 t1 h ht1 (by rw [f3 hl]; exact hp) hl1

theorem updTrack_keeps_playing (l : List AudioTrack) (j : Nat) (f : AudioTrack → AudioTrack)
    (hf : ∀ t, t.isPlaying = true → (f t).isPlaying = true) {k : Nat} {t : AudioTrack}
    (ht : l[k]? = some t) (hp : t.isPlaying = true) :
    ∃ t1, (updTrack l j f)[k]? = some t1 ∧ t1.isPlaying = true := by
  rw [updTrack_getElem?]
  by_cases hjk : j = k
  · rw [if_pos hjk, ht]
    exact ⟨f t, rfl, hf t hp⟩
  · rw [if_neg hjk]
    exact ⟨t, ht, hp⟩

theorem soundPlayOn_keeps_playing (bits : Nat) (m : DeviceAudioSdl) (i sample : Nat)
    (vL vR d p : ℚ) {k : Nat} {t : AudioTrack}
    (ht : m.ma_sound[k]? = some t) (hp : t.isPlaying = true) :
    ∃ t1, (soundPlayOn bits m i sample vL vR d p).2.ma_sound[k]? = some t1 ∧
      t1.isPlaying = true := by
  unfold soundPlayOn
  split
  · exact ⟨t, ht, hp⟩
  · split
    · exact ⟨t, ht, hp⟩
    · exact updTrack_keeps_playing _ _ _ (fun _ _ => rfl) ht hp

theorem markLoop_keeps_playing (bits : Nat) (r : Nat × DeviceAudioSdl) {k : Nat}
    {t : AudioTrack} (ht : r.2.ma_sound[k]? = some t) (hp : t.isPlaying = true) :
    ∃ t1, (markLoop bits r).2.ma_sound[k]? = some t1 ∧ t1.isPlaying = true := by
  have hsound : (markLoop bits r).2.ma_sound = if r.1 ≠ 0 then
      updTrack r.2.ma_sound (UH_UNPACK_PAYLOAD bits r.1) (fun t => { t with isLoop := true })
      else r.2.ma_sound := by
    unfold markLoop
    split <;> rfl
  rw [hsound]
  split
  · refine updTrack_keeps_playing _ _ _ ?_ ht hp
    intro u hu
    exact hu
  · exact ⟨t, ht, hp⟩

/-- C8: a slot that is playing with `isLoop` set is still playing (and looping) after
one render block and after any number of successive render blocks, whatever its pitch,
disparity and pause state.  Among all calls, only `soundStop()` on all tracks, `soundStop`
with a handle valid for the slot, and `sampleDestroy` of a sample with the slot's buffer can
leave the slot not playing (a play or loop call on the slot leaves it playing). -/
theorem looping_never_stops (F : FloatModel) (bits : Nat) (m : DeviceAudioSdl) (i : Nat)
    (t : AudioTrack) (ht : m.ma_sound[i]? = some t) (hp : t.isPlaying = true)
    (hl : t.isLoop = true) :
    (∀ nFrames r, mixOutputFloat F m nFrames = some r →
      ∃ t1, r.2.ma_sound[i]? = some t1 ∧ t1.isPlaying = true ∧ t1.isLoop = true) ∧
    (∀ ns m1, renderBlocks F m ns = some m1 →
      ∃ t1, m1.ma_sound[i]? = some t1 ∧ t1.isPlaying = true ∧ t1.isLoop = true) ∧
    (∀ c m1, step F bits m c = some m1 →
      (∃ t1, m1.ma_sound[i]? = some t1 ∧ t1.isPlaying = true) ∨
      c = Call.stopAll ∨
      (∃ h, c = Call.stop h ∧ validSlot bits m h = some i) ∨
      (∃ id s, c = Call.destroy id ∧ mapFind m.mm_sample id = some s ∧
        s.data.addr = t.data.addr)) := by
  have hblock : ∀ nFrames r, mixOutputFloat F m nFrames = some r →
      ∃ t1, r.2.ma_sound[i]? = some t1 ∧ t1.isPlaying = true ∧ t1.isLoop = true := by
    intro n r hr
    have : renderBlocks F m [n] = some r.2 := by simp [renderBlocks, hr]
    exact renderBlocks_loop [n] m r.2 t this ht hp hl
  refine ⟨hblock, fun ns m1 h => renderBlocks_loop ns m m1 t h ht hp hl, ?_⟩
  intro c m1 h
  cases c with
  | load sample volume cvt =>
    simp only [step, Option.map_eq_some'] at h
    obtain ⟨r, hr, rfl⟩ := h
    left
    rw [(sampleFromMemory_state hr).1]
    exact ⟨t, ht, hp⟩
  | destroy id =>
    simp only [step, Option.some.injEq] at h
    subst h
    cases hs : mapFind m.mm_sample id with
    | none =>
      left
      unfold sampleDestroy
      rw [hs]
      exact ⟨t, ht, hp⟩
    | some s =>
      by_cases ha : s.data.addr = t.data.addr
      · right; right; right
        exact ⟨id, s, rfl, hs, ha⟩
      · left
        unfold sampleDestroy
        rw [hs]
        simp only [List.getElem?_map, ht, Option.map_some']
        rw [if_neg (fun hc => ha hc.symm)]
        exact ⟨t, rfl, hp⟩
  | play sample a =>
    simp only [step, Option.some.injEq] at h
    subst h
    left
    exact soundPlayOn_keeps_playing bits m _ sample _ _ _ _ ht hp
  | playOn i' sample a =>
    simp only [step, Option.some.injEq] at h
    subst h
    left
    exact soundPlayOn_keeps_playing bits m i' sample _ _ _ _ ht hp
  | loop sample a =>
    simp only [step, Option.some.injEq] at h
    subst h
    left
    obtain ⟨t1, h1, h2⟩ := soundPlayOn_keeps_playing bits m
      (m.ma_sound.findIdx (fun t => !t.isPlaying)) sample a.volumeL a.volumeR a.disparity
      a.pitch ht hp
    exact markLoop_keeps_playing bits _ h1 h2
  | loopOn i' sample a =>
    simp only [step, Option.some.injEq] at h
    subst h
    left
    obtain ⟨t1, h1, h2⟩ := soundPlayOn_keeps_playing bits m i' sample a.volumeL a.volumeR
      a.disparity a.pitch ht hp
    exact markLoop_keeps_playing bits _ h1 h2
  | update hd pause a =>
    simp only [step, Option.some.injEq] at h
    subst h
    left
    unfold soundUpdate
    cases hv : validSlot bits m hd with
    | none => exact ⟨t, ht, hp⟩
    | some k =>
      refine updTrack_keeps_playing _ _ _ ?_ ht hp
      intro u hu
      exact hu
  | stop hd =>
    simp only [step, Option.some.injEq] at h
    subst h
    cases hv : validSlot bits m hd with
    | none =>
      left
      unfold soundStop
      rw [hv]
      exact ⟨t, ht, hp⟩
    | some k =>
      by_cases hk : k = i
      · right; right; left
        exact ⟨hd, rfl, hk ▸ hv⟩
      · left
        rw [(soundStop_of_valid hv).2.2.2, updTrack_getElem?, if_neg hk]
        exact ⟨t, ht, hp⟩
  | stopAll =>
    right; left; rfl
  | render n =>
    simp only [step, Option.map_eq_some'] at h
    obtain ⟨r, hr, rfl⟩ := h
    left
    obtain ⟨t1, h1, h2, -⟩ := hblock n r hr
    exact ⟨t1, h1, h2⟩

theorem looping_never_stops_witness :
    (soundLoop 10 paddedMixer 1 1 1 0 1).2.ma_sound[0]? = some (paddedTrack true) ∧
    ∃ t1, ((mixOutputFloat FloatModel.exact (soundLoop 10 paddedMixer 1 1 1 0 1).2 6).get
        (by decide!)).2.ma_sound[0]? = some t1 ∧ t1.isPlaying = true ∧ t1.isLoop = true :=
  ⟨by decide,
   (looping_never_stops FloatModel.exact 10 (soundLoop 10 paddedMixer 1 1 1 0 1).2 0
      (paddedTrack true) (by decide) rfl rfl).1 6 _ (Option.some_get _).symm⟩

/-! ### End of a non-looping playback -/

theorem chkS32_eq_some {z w : Int} (h : chkS32 z = some w) :
    w = z ∧ -(2 : Int) ^ 31 ≤ z ∧ z < 2 ^ 31 := by
  unfold chkS32 at h
  split at h
  · rename_i hc
    cases h
    exact ⟨rfl, hc.1, hc.2⟩
  · cases h

theorem endMargin_eq_some {F : FloatModel} {m : DeviceAudioSdl} {t : AudioTrack} {mg : Int}
    (h : endMargin F m t = some mg) :
    mg = 2 * |truncQ (F.r32 (F.r32 (m.m_freq : ℚ) * (-t.disparity)))| ∧ 0 ≤ mg ∧
    mg < 2 ^ 31 := by
  unfold endMargin f2i at h
  cases h1 : chkS32 (truncQ (F.r32 (F.r32 (m.m_freq : ℚ) * (-t.disparity)))) with
  | none => rw [h1] at h; cases h
  | some a =>
    simp only [h1] at h
    cases h2 : chkS32 |a| with
    | none => rw [h2] at h; cases h
    | some b =>
      simp only [h2] at h
      obtain ⟨e1, -, -⟩ := chkS32_eq_some h1
      obtain ⟨e2, -, -⟩ := chkS32_eq_some h2
      obtain ⟨e3, -, e5⟩ := chkS32_eq_some h
      subst e1 e2 e3
      exact ⟨rfl, by positivity, e5⟩

theorem wrapU32_of_nonneg {z : Int} (h0 : 0 ≤ z) (h1 : z < 2 ^ 32) : (wrapU32 z : Int) = z := by
  unfold wrapU32
  rw [Int.emod_eq_of_lt h0 h1, Int.toNat_of_nonneg h0]

theorem endMargin_congr (F : FloatModel) {m m1 : DeviceAudioSdl} {t t1 : AudioTrack}
    (hm : m1.m_freq = m.m_freq) (ht : t1.disparity = t.disparity) :
    endMargin F m1 t1 = endMargin F m t := by
  unfold endMargin
  rw [hm, ht]

/-- The cursor advance of a track that is neither paused nor looping, at native speed. -/
theorem advanceTrack_plain {F : FloatModel} {m : DeviceAudioSdl} {t : AudioTrack} {mg : Int}
    (n : Nat) (hpa : t.isPaused = false) (hl : t.isLoop = false) (hpi : t.pitch = 1)
    (hmg : endMargin F m t = some mg) :
    advanceTrack F m n t = some { t with
      dpos := (t.dpos + n) % 2 ^ 32,
      isPlaying := t.isPlaying &&
        decide ((t.dpos + n) % 2 ^ 32 ≤ (t.dlen + wrapU32 mg) % 2 ^ 32) } := by
  unfold advanceTrack advancePos
  simp only [hpa, hl, hpi, hmg, if_true, Bool.false_eq_true, if_false]
  by_cases hc : (t.dpos + n) % 2 ^ 32 > (t.dlen + wrapU32 mg) % 2 ^ 32
  · rw [if_pos hc]
    have : decide ((t.dpos + n) % 2 ^ 32 ≤ (t.dlen + wrapU32 mg) % 2 ^ 32) = false :=
      decide_eq_false (Nat.not_le_of_gt hc)
    rw [this, Bool.and_false]
  · rw [if_neg hc]
    have : decide ((t.dpos + n) % 2 ^ 32 ≤ (t.dlen + wrapU32 mg) % 2 ^ 32) = true :=
      decide_eq_true (Nat.le_of_not_gt hc)
    rw [this, Bool.and_true]

theorem renderBlocks_plain {F : FloatModel} {i : Nat} {mg : Int} :
    ∀ (ns : List Nat) (m m1 : DeviceAudioSdl) (t : AudioTrack),
      renderBlocks F m ns = some m1 → m.ma_sound[i]? = some t →
      t.isPaused = false → t.isLoop = false → t.pitch = 1 →
      endMargin F m t = some mg → t.dlen + wrapU32 mg < 2 ^ 32 →
      t.dpos + ns.sum < 2 ^ 32 →
      m1.m_freq = m.m_freq ∧
      m1.ma_sound[i]? = some { t with
        dpos := t.dpos + ns.sum,
        isPlaying := t.isPlaying &&
          decide (ns = [] ∨ t.dpos + ns.sum ≤ t.dlen + wrapU32 mg) }
  | [], m, m1, t, h, ht, _, _, _, _, _, _ => by
    simp only [renderBlocks, Option.some.injEq] at h
    subst h
    simp only [List.sum_nil, Nat.add_zero, true_or, decide_True, Bool.and_true]
    exact ⟨trivial, ht⟩
  | n :: ns, m, m1, t, h, ht, hpa, hl, hpi, hmg, hthr, hpos => by
    simp only [renderBlocks] at h
    simp only [List.sum_cons] at hpos
    cases hr : mixOutputFloat F m n with
    | none => simp [hr] at h
    | some r =>
      simp only [hr] at h
      obtain ⟨t1, ht1, ha⟩ := mixOutputFloat_slot hr ht
      rw [advanceTrack_plain n hpa hl hpi hmg, Option.some.injEq] at ha
      obtain ⟨tracks, -, hst, -⟩ := mixOutputFloat_state hr
      have hfreq : r.2.m_freq = m.m_freq := by rw [hst]
      have hdisp : t1.disparity = t.disparity := by rw [← ha]
      have hmg1 : endMargin F r.2 t1 = some mg := by
        rw [endMargin_congr F hfreq hdisp, hmg]
      have hd1 : t1.dpos = t.dpos + n := by
        rw [← ha]; exact Nat.mod_eq_of_lt (by omega)
      obtain ⟨ih1, ih2⟩ := renderBlocks_plain ns r.2 m1 t1 h ht1 (by rw [← ha]; exact hpa)
        (by rw [← ha]; exact hl) (by rw [← ha]; exact hpi) hmg1
        (by rw [← ha]; exact hthr) (by rw [hd1]; omega)
      refine ⟨by rw [ih1, hfreq], ?_⟩
      rw [ih2]
      congr 1
      have hthr' : (t.dlen + wrapU32 mg) % 2 ^ 32 = t.dlen + wrapU32 mg :=
        Nat.mod_eq_of_lt hthr
      have hpos' : (t.dpos + n) % 2 ^ 32 = t.dpos + n := Nat.mod_eq_of_lt (by omega)
      subst ha
      simp only [hthr', hpos', List.sum_cons, AudioTrack.mk.injEq, true_and, and_true]
      refine ⟨by omega, ?_⟩
      by_cases hp : t.isPlaying = true
      · simp only [hp, Bool.true_and, reduceCtorEq, false_or]
        rw [Bool.eq_iff_iff]
        simp only [Bool.and_eq_true, decide_eq_true_eq]
        constructor
        · rintro ⟨h1, h2 | h2⟩
          · subst h2
            simp only [List.sum_nil, Nat.add_zero]
            exact h1
          · omega
        · intro h1
          exact ⟨by omega, Or.inr (by omega)⟩
      · simp only [Bool.not_eq_true] at hp
        simp [hp]

theorem sum_take_le (ns : List Nat) : ∀ k, (ns.take k).sum ≤ ns.sum := by
  induction ns with
  | nil => intro k; simp
  | cons n ns ih =>
    intro k
    cases k with
    | zero => simp
    | succ k =>
      simp only [List.take_succ_cons, List.sum_cons]
      exact Nat.add_le_add_left (ih k) n

theorem renderBlocks_take {F : FloatModel} :
    ∀ (ns : List Nat) (m m1 : DeviceAudioSdl), renderBlocks F m ns = some m1 →
      ∀ k, ∃ mk, renderBlocks F m (ns.take k) = some mk
  | [], m, m1, _, k => ⟨m, by simp [renderBlocks]⟩
  | n :: ns, m, m1, h, k => by
    cases k with
    | zero => exact ⟨m, by simp [renderBlocks]⟩
    | succ k =>
      simp only [renderBlocks] at h
      cases hr : mixOutputFloat F m n with
      | none => simp [hr] at h
      | some r =>
        simp only [hr] at h
        obtain ⟨mk, hmk⟩ := renderBlocks_take ns r.2 m1 h k
        exact ⟨mk, by simp only [List.take_succ_cons, renderBlocks, hr]; exact hmk⟩

theorem renderBlocks_stays_stopped {F : FloatModel} {i : Nat} :
    ∀ (ns : List Nat) (m m1 : DeviceAudioSdl) (t : AudioTrack),
      renderBlocks F m ns = some m1 → m.ma_sound[i]? = some t → t.isPlaying = false →
      ∃ t1, m1.ma_sound[i]? = some t1 ∧ t1.isPlaying = false
  | [], m, m1, t, h, ht, hp => by
    simp only [renderBlocks, Option.some.injEq] at h
    subst h
    exact ⟨t, ht, hp⟩
  | n :: ns, m, m1, t, h, ht, hp => by
    simp only [renderBlocks] at h
    cases hr : mixOutputFloat F m n with
    | none => simp [hr] at h
    | some r =>
      simp only [hr] at h
      obtain ⟨t1, ht1, ha⟩ := mixOutputFloat_slot hr ht
      have hp1 : t1.isPlaying = false := by
        cases hb : t1.isPlaying with
        | false => rfl
        | true =>
          rw [(advanceTrack_frame ha).2.1 hb] at hp
          cases hp
      exact renderBlocks_stays_stopped ns r.2 m1 t1 h ht1 hp1

/-- C9: take a slot that is playing, not looping, not paused, at pitch 1, with length
`dlen` and end margin `mg = 2*|trunc(freq * -disparity)|`, and render successive blocks
`ns` with no call in between (no 32-bit overflow of `dlen + mg` or of the cursor).  After
the `k`-th block the cursor is `dpos` plus the frames rendered so far, and the slot is
playing exactly when that cursor is at most `dlen + mg`; so the first block that moves the
cursor past `dlen + mg` marks it not playing, and whenever it is not playing the cursor is
past `dlen`.  A slot that is not playing is never set playing by render blocks. -/
theorem nonloop_stops_once (F : FloatModel) (m m1 : DeviceAudioSdl) (i : Nat) (t : AudioTrack)
    (ns : List Nat) (mg : Int)
    (ht : m.ma_sound[i]? = some t) (hp : t.isPlaying = true) (hl : t.isLoop = false)
    (hpa : t.isPaused = false) (hpi : t.pitch = 1)
    (hmg : endMargin F m t = some mg)
    (hthr : t.dlen + wrapU32 mg < 2 ^ 32)
    (hpos : t.dpos + ns.sum < 2 ^ 32)
    (h : renderBlocks F m ns = some m1) :
    mg = 2 * |truncQ (F.r32 (F.r32 (m.m_freq : ℚ) * (-t.disparity)))| ∧
    (∀ k, 0 < k → k ≤ ns.length →
      ∃ mk tk, renderBlocks F m (ns.take k) = some mk ∧ mk.ma_sound[i]? = some tk ∧
        tk.dpos = t.dpos + (ns.take k).sum ∧
        (tk.isPlaying = true ↔ t.dpos + (ns.take k).sum ≤ t.dlen + wrapU32 mg) ∧
        (tk.isPlaying = false → t.dlen < tk.dpos) ∧
        tk.isLoop = false ∧ tk.isPaused = false) ∧
    (∀ (m' m1' : DeviceAudioSdl) (ns' : List Nat) (i' : Nat) (t' : AudioTrack),
      renderBlocks F m' ns' = some m1' → m'.ma_sound[i']? = some t' → t'.isPlaying = false →
      ∃ t1', m1'.ma_sound[i']? = some t1' ∧ t1'.isPlaying = false) := by
  refine ⟨(endMargin_eq_some hmg).1, ?_, ?_⟩
  · intro k hk0 hk
    obtain ⟨mk, hmk⟩ := renderBlocks_take ns m m1 h k
    have hsum := sum_take_le ns k
    obtain ⟨-, hslot⟩ := renderBlocks_plain (ns.take k) m mk t hmk ht hpa hl hpi hmg hthr
      (by omega)
    have hne : ns.take k ≠ [] := by
      intro hc
      have := congrArg List.length hc
      simp only [List.length_take, List.length_nil] at this
      omega
    refine ⟨mk, _, hmk, hslot, rfl, ?_, ?_, hl, hpa⟩
    · simp only [hp, Bool.true_and, hne, false_or, decide_eq_true_eq]
    · simp only [hp, Bool.true_and, hne, false_or, decide_eq_false_iff_not]
      intro hc
      omega
  · intro m' m1' ns' i' t' h' ht' hp'
    exact renderBlocks_stays_stopped ns' m' m1' t' h' ht' hp'

theorem nonloop_stops_once_witness :
    (soundPlay 10 paddedMixer 1 1 1 0 1).2.ma_sound[0]? = some (paddedTrack false) ∧
    endMargin FloatModel.exact (soundPlay 10 paddedMixer 1 1 1 0 1).2 (paddedTrack false)
      = some 0 ∧
    (∃ mk tk, renderBlocks FloatModel.exact (soundPlay 10 paddedMixer 1 1 1 0 1).2
        (List.take 2 [2, 2, 2]) = some mk ∧ mk.ma_sound[0]? = some tk ∧
      tk.dpos = (paddedTrack false).dpos + (List.take 2 [2, 2, 2]).sum ∧
      (tk.isPlaying = true ↔ (paddedTrack false).dpos + (List.take 2 [2, 2, 2]).sum ≤
        (paddedTrack false).dlen + wrapU32 0) ∧
      (tk.isPlaying = false → (paddedTrack false).dlen < tk.dpos) ∧
      tk.isLoop = false ∧ tk.isPaused = false) ∧
    (∃ mk tk, renderBlocks FloatModel.exact (soundPlay 10 paddedMixer 1 1 1 0 1).2
        (List.take 3 [2, 2, 2]) = some mk ∧ mk.ma_sound[0]? = some tk ∧
      tk.dpos = (paddedTrack false).dpos + (List.take 3 [2, 2, 2]).sum ∧
      (tk.isPlaying = true ↔ (paddedTrack false).dpos + (List.take 3 [2, 2, 2]).sum ≤
        (paddedTrack false).dlen + wrapU32 0) ∧
      (tk.isPlaying = false → (paddedTrack false).dlen < tk.dpos) ∧
      tk.isLoop = false ∧ tk.isPaused = false) :=
  ⟨by decide, by decide!,
   (nonloop_stops_once FloatModel.exact (soundPlay 10 paddedMixer 1 1 1 0 1).2
      ((renderBlocks FloatModel.exact (soundPlay 10 paddedMixer 1 1 1 0 1).2 [2, 2, 2]).get
        (by decide!)) 0 (paddedTrack false) [2, 2, 2] 0 (by decide) rfl rfl rfl rfl
      (by decide!) (by decide) (by decide) (Option.some_get _).symm).2.1 2 (by decide)
        (by decide),
   (nonloop_stops_once FloatModel.exact (soundPlay 10 paddedMixer 1 1 1 0 1).2
      ((renderBlocks FloatModel.exact (soundPlay 10 paddedMixer 1 1 1 0 1).2 [2, 2, 2]).get
        (by decide!)) 0 (paddedTrack false) [2, 2, 2] 0 (by decide) rfl rfl rfl rfl
      (by decide!) (by decide) (by decide) (Option.some_get _).symm).2.1 3 (by decide)
        (by decide)⟩

/-! ### Direct and interpolated branch -/

theorem toS16_range (n : Nat) : -32768 ≤ toS16 n ∧ toS16 n ≤ 32767 := by
  unfold toS16
  have h : n % 2 ^ 16 < 2 ^ 16 := Nat.mod_lt _ (by decide)
  split <;> omega

theorem readS16_some {b : Buffer} {p : Int} (hp : 0 ≤ p) (h : p.toNat + 1 < b.bytes.length) :
    ∃ s, readS16 b p = some s ∧ -32768 ≤ s ∧ s ≤ 32767 := by
  unfold readS16
  rw [if_pos hp, List.getElem?_eq_getElem (by omega), List.getElem?_eq_getElem h]
  exact ⟨_, rfl, toS16_range _⟩

theorem chkS32_of_range {z : Int} (h1 : -(2 : Int) ^ 31 ≤ z) (h2 : z < 2 ^ 31) :
    chkS32 z = some z := by
  unfold chkS32
  rw [if_pos ⟨h1, h2⟩]

theorem toS32_wrapU32 {z : Int} (h0 : 0 ≤ z) (h1 : z < 2 ^ 31) : toS32 (wrapU32 z) = z := by
  have hw : (wrapU32 z : Int) = z := wrapU32_of_nonneg h0 (by omega)
  unfold toS32
  have hlt : wrapU32 z < 2 ^ 31 := by omega
  have hmod : wrapU32 z % 2 ^ 32 = wrapU32 z := Nat.mod_eq_of_lt (by omega)
  rw [hmod, if_pos hlt, hw]

theorem toS32_of_lt {n : Nat} (h : n < 2 ^ 31) : toS32 n = n := by
  unfold toS32
  have hmod : n % 2 ^ 32 = n := Nat.mod_eq_of_lt (by omega)
  rw [hmod, if_pos h]

/-- With a zero interpolation weight the interpolated value is the first sample read. -/
theorem interp_zero (F : FloatModel) (s0 s1 : Int)
    (hs : -32768 ≤ s0 ∧ s0 ≤ 32767)
    (hF32 : ∀ z : Int, |z| ≤ 2 ^ 24 → F.r32 (z : ℚ) = z)
    (hF64 : ∀ z : Int, |z| ≤ 2 ^ 24 → F.r64 (z : ℚ) = z) :
    F.r32 (F.r64 (F.r64 (F.r64 (1 - 0) * (s0 : ℚ)) + F.r64 (0 * (s1 : ℚ)))) = (s0 : ℚ) := by
  have h1 : F.r64 (1 - 0) = 1 := by
    have := hF64 1 (by norm_num)
    simpa using this
  have h0 : F.r64 0 = 0 := by
    have := hF64 0 (by norm_num)
    simpa using this
  have hs0 : |s0| ≤ 2 ^ 24 := by
    rw [abs_le]; constructor <;> omega
  rw [h1, one_mul, zero_mul, h0, hF64 s0 hs0, add_zero, hF64 s0 hs0, hF32 s0 hs0]

/-- C10 fails as stated.  At pitch 1 and disparity 0, position 0, full volume: on the
4-byte sample `[1000, -1000]`, not looping, the direct branch adds 1000 to the left and
-1000 to the right, the interpolated branch adds 1000 to the left and nothing to the right;
on the looping 12-byte sample `1, ..., 6` the direct branch adds 1 and 2, the interpolated
branch adds 5 and 1. -/
theorem interp_direct_disagree :
    ((paddedTrack false).pitch = 1 ∧ (paddedTrack false).disparity = 0 ∧
      mixDirect FloatModel.exact paddedMixer (paddedTrack false) 0
        = some (some 1000, some (-1000)) ∧
      mixInterp FloatModel.exact paddedMixer (paddedTrack false) 0
        = some (some 1000, none)) ∧
    ((rampTrack true).pitch = 1 ∧ (rampTrack true).disparity = 0 ∧
      mixDirect FloatModel.exact paddedMixer (rampTrack true) 0 = some (some 1, some 2) ∧
      mixInterp FloatModel.exact paddedMixer (rampTrack true) 0 = some (some 5, some 1)) :=
  ⟨⟨rfl, rfl, by decide!, by decide!⟩, ⟨rfl, rfl, by decide!, by decide!⟩⟩

/-- C10 (amended): for a track that is not looping, with pitch 1 and disparity 0, at an
even byte position `p = dpos + j` such that the three 16-bit samples at `p`, `p + 2` and
`p + 4` lie inside the buffer (`p + 6 ≤ dlen`, the buffer allocated for at least `dlen`
bytes) and `p` is in the range where float arithmetic is exact on integers (`p ≤ 2^24`),
the interpolated branch adds exactly the values that the direct branch adds, on both
channels. -/
theorem interp_agrees_inside (F : FloatModel) (m : DeviceAudioSdl) (t : AudioTrack) (j : Nat)
    (hpi : t.pitch = 1) (hd : t.disparity = 0) (hl : t.isLoop = false)
    (heven : (t.dpos + j) % 2 = 0) (hin : t.dpos + j + 6 ≤ t.dlen)
    (halloc : t.dlen ≤ t.data.bytes.length) (hlen : t.dlen < 2 ^ 31)
    (hrange : t.dpos + j ≤ 2 ^ 24)
    (hF32 : ∀ z : Int, |z| ≤ 2 ^ 24 → F.r32 (z : ℚ) = z)
    (hF64 : ∀ z : Int, |z| ≤ 2 ^ 24 → F.r64 (z : ℚ) = z) :
    mixInterp F m t j = mixDirect F m t j := by
  have hN32 : ∀ n : Nat, n ≤ 2 ^ 24 → F.r32 (n : ℚ) = n := by
    intro n hn
    have := hF32 (n : Int) (by rw [abs_of_nonneg (by omega)]; exact_mod_cast hn)
    simpa using this
  have hfract0 : F.r32 (F.r32 (t.dpos : ℚ) + F.r32 (F.r32 (j : ℚ) * t.pitch))
      = ((t.dpos + j : Nat) : ℚ) := by
    rw [hpi, mul_one, hN32 j (by omega), hN32 j (by omega), hN32 t.dpos (by omega)]
    rw [← Nat.cast_add]
    exact hN32 _ hrange
  obtain ⟨q, hq⟩ : ∃ q, t.dpos + j = 2 * q := ⟨(t.dpos + j) / 2, by omega⟩
  have hhalf : F.r64 (((t.dpos + j : Nat) : ℚ) * (1 / 2)) = ((q : Int) : ℚ) := by
    have : ((t.dpos + j : Nat) : ℚ) * (1 / 2) = ((q : Int) : ℚ) := by
      rw [hq]; push_cast; ring
    rw [this]
    exact hF64 q (by rw [abs_of_nonneg (by omega)]; omega)
  have hc1 : chkS32 (q : Int) = some (q : Int) := chkS32_of_range (by omega) (by omega)
  have hc2 : chkS32 ((q : Int) * 2) = some ((t.dpos + j : Nat) : Int) := by
    have hp2 : (q : Int) * 2 = ((t.dpos + j : Nat) : Int) := by omega
    rw [hp2]
    exact chkS32_of_range (by omega) (by omega)
  have hfract : F.r64 (F.r64 (((t.dpos + j : Nat) : ℚ) - (((t.dpos + j : Nat) : Int) : ℚ))
      * (1 / 2)) = 0 := by
    have h0 : F.r64 0 = 0 := by
      have := hF64 0 (by norm_num)
      simpa using this
    rw [Int.cast_natCast, sub_self, h0, zero_mul, h0]
  have hlim : chkS32 (toS32 t.dlen - 2) = some ((t.dlen : Int) - 2) := by
    rw [toS32_of_lt hlen]
    exact chkS32_of_range (by omega) (by omega)
  -- the offset of the right channel
  obtain ⟨c, hc, hc01⟩ : ∃ c : Nat, (if t.channels > 1 then 2 else 0) = c ∧ c ≤ 2 := by
    by_cases h : t.channels > 1
    · exact ⟨2, by rw [if_pos h], Nat.le_refl _⟩
    · exact ⟨0, by rw [if_neg h], by omega⟩
  have hposR : (if t.channels > 1 then toS32 (wrapU32 (((t.dpos + j : Nat) : Int) + 2))
      else ((t.dpos + j : Nat) : Int)) = ((t.dpos + j + c : Nat) : Int) := by
    by_cases h : t.channels > 1
    · rw [if_pos h] at hc ⊢
      rw [toS32_wrapU32 (by omega) (by omega), ← hc]
      push_cast; ring
    · rw [if_neg h] at hc ⊢
      rw [← hc]; rfl
  -- the samples read
  obtain ⟨sL, hsL, hsLr⟩ := readS16_some (b := t.data) (p := ((t.dpos + j : Nat) : Int))
    (by omega) (by omega)
  obtain ⟨sR, hsR, hsRr⟩ := readS16_some (b := t.data) (p := ((t.dpos + j + c : Nat) : Int))
    (by omega) (by omega)
  obtain ⟨sR2, hsR2, -⟩ := readS16_some (b := t.data)
    (p := ((t.dpos + j + c : Nat) : Int) + 2) (by omega) (by omega)
  have hleft : interpLeft F m t 0 ((t.dpos + j : Nat) : Int) ((t.dlen : Int) - 2) =
      some (some (F.r32 (F.r32 ((sL : ℚ) * m.m_volL) * t.volL))) := by
    unfold interpLeft
    rw [if_pos ⟨by omega, by omega⟩, hsL]
    simp only [interp_zero F sL sL hsLr hF32 hF64]
  have hright : interpRight F m t 0 ((t.dpos + j + c : Nat) : Int) ((t.dlen : Int) - 2) =
      some (some (F.r32 (F.r32 ((sR : ℚ) * m.m_volR) * t.volR))) := by
    unfold interpRight
    rw [if_pos ⟨by omega, by omega⟩, hsR, hsR2]
    simp only [interp_zero F sR sR2 hsRr hF32 hF64]
  have hdirect : directReads F m t (t.dpos + j) =
      some (F.r32 (F.r32 ((sL : ℚ) * m.m_volL) * t.volL),
            F.r32 (F.r32 ((sR : ℚ) * m.m_volR) * t.volR)) := by
    unfold directReads
    rw [hsL, hc, Nat.mod_eq_of_lt (by omega), hsR]
  have hmod : (t.dpos + j) % 2 ^ 32 = t.dpos + j := Nat.mod_eq_of_lt (by omega)
  unfold mixInterp mixDirect
  simp only [hfract0, hhalf, f2i, truncQ_intCast]
  rw [hc1, Option.some_bind, hc2, Option.some_bind]
  simp only [hd, lt_self_iff_false, if_false, gt_iff_lt, hl, Bool.false_eq_true]
  rw [Option.some_bind, Option.some_bind, Option.some_bind, hposR, Option.some_bind, hlim,
    Option.some_bind, hfract, hleft, Option.some_bind, hright, Option.some_bind, hmod,
    if_neg (by omega), hdirect]
  rfl

theorem interp_agrees_inside_witness :
    mixInterp FloatModel.exact paddedMixer (rampTrack false) 6 =
      mixDirect FloatModel.exact paddedMixer (rampTrack false) 6 ∧
    mixDirect FloatModel.exact paddedMixer (rampTrack false) 6 = some (some 4, some 5) :=
  ⟨interp_agrees_inside FloatModel.exact paddedMixer (rampTrack false) 6 rfl rfl rfl
      (by decide) (by decide) (by decide) (by decide) (by decide) (fun _ _ => rfl)
      (fun _ _ => rfl),
   by decide!⟩

/-! ### `soundPlayOn` -/

/-- C12: `soundPlayOn` returns the null handle and leaves the whole state unchanged when
the slot index is not below `m_nSound` or the sample id is not in the store.  Otherwise the
handle packs the incremented counter and the slot index (it is not null while the counter
stays inside the generation range); the addressed slot afterwards has the buffer and the
length of the sample, position 0, `isPlaying` set, `isPaused` and `isLoop` cleared, the given
volumes and disparity, pitch `|pitch|` and the generation packed in the returned handle; all
other slots, the pool size and the store are unchanged. -/
theorem soundPlayOn_spec (bits : Nat) (m : DeviceAudioSdl) (i sample : Nat)
    (volumeL volumeR disparity pitch : ℚ) :
    ((m.m_nSound ≤ i ∨ mapFind m.mm_sample sample = none) →
      soundPlayOn bits m i sample volumeL volumeR disparity pitch = (0, m)) ∧
    (∀ s, i < m.m_nSound → mapFind m.mm_sample sample = some s →
      (soundPlayOn bits m i sample volumeL volumeR disparity pitch).1 =
        UH_PACK_UNIQUE_HANDLE bits ((m.m_uniqueCounter + 1) % 2 ^ 64) i ∧
      (m.m_uniqueCounter + 1 < 2 ^ (64 - bits) →
        (soundPlayOn bits m i sample volumeL volumeR disparity pitch).1 ≠ 0) ∧
      (∃ t0, m.ma_sound[i]? = some t0 ∧
        (soundPlayOn bits m i sample volumeL volumeR disparity pitch).2.ma_sound[i]? =
          some { t0 with
            data := s.data, dlen := s.dlen, dpos := 0, isPlaying := true, isPaused := false,
            isLoop := false, volL := volumeL, volR := volumeR, disparity := disparity,
            pitch := |pitch|,
            uniqueId := UH_UNPACK_UNIQUE_ID bits
              (soundPlayOn bits m i sample volumeL volumeR disparity pitch).1 }) ∧
      (∀ k, k ≠ i →
        (soundPlayOn bits m i sample volumeL volumeR disparity pitch).2.ma_sound[k]? =
          m.ma_sound[k]?) ∧
      (soundPlayOn bits m i sample volumeL volumeR disparity pitch).2.m_nSound = m.m_nSound ∧
      (soundPlayOn bits m i sample volumeL volumeR disparity pitch).2.mm_sample =
        m.mm_sample) := by
  constructor
  · rintro (h | h)
    · unfold soundPlayOn
      rw [if_pos h]
    · exact soundPlayOn_unknown bits m i sample _ _ _ _ h
  · intro s hi hs
    rw [soundPlayOn_eq volumeL volumeR disparity pitch hi hs]
    refine ⟨rfl, ?_, ?_, ?_, updTrack_length _ _ _, rfl⟩
    · intro hnw
      rw [Nat.mod_eq_of_lt (Nat.lt_of_lt_of_le hnw (genRange_le bits))]
      exact pack_ne_zero bits _ i (Nat.succ_pos _) hnw
    · refine ⟨m.ma_sound[i], List.getElem?_eq_getElem hi, ?_⟩
      simp only [updTrack_getElem?, if_true, List.getElem?_eq_getElem hi, Option.map_some']
    · intro k hk
      simp only [updTrack_getElem?]
      rw [if_neg (fun h => hk h.symm)]

theorem soundPlayOn_spec_witness :
    (soundPlayOn 10 exampleMixer 2 1 (1 / 2) (1 / 4) 0 (-2)).1 = 2050 ∧
    (soundPlayOn 10 exampleMixer 2 1 (1 / 2) (1 / 4) 0 (-2)).1 ≠ 0 ∧
    soundPlayOn 10 exampleMixer 4 1 (1 / 2) (1 / 4) 0 (-2) = (0, exampleMixer) :=
  ⟨by decide,
   ((soundPlayOn_spec 10 exampleMixer 2 1 (1 / 2) (1 / 4) 0 (-2)).2 exampleSample
      (by decide) (by decide)).2.1 (by decide),
   (soundPlayOn_spec 10 exampleMixer 4 1 (1 / 2) (1 / 4) 0 (-2)).1 (Or.inl (by decide))⟩

/-! ### `soundStop` -/

/-- C13: `soundStop(uniqueHandle)` returns true exactly when the handle is valid (slot
index below `m_nSound`, generation of the slot equal to the one of the handle, slot playing);
it then clears `isPlaying` of that slot and changes nothing else; when it returns false the
state is unchanged; and a second `soundStop` with the same handle returns false and leaves
the state unchanged. -/
theorem soundStop_spec (bits : Nat) (m : DeviceAudioSdl) (uniqueHandle : Nat) :
    ((soundStop bits m uniqueHandle).1 = true ↔
      UH_UNPACK_PAYLOAD bits uniqueHandle % 2 ^ 32 < m.m_nSound ∧
      ∃ t, m.ma_sound[UH_UNPACK_PAYLOAD bits uniqueHandle % 2 ^ 32]? = some t ∧
        t.uniqueId = UH_UNPACK_UNIQUE_ID bits uniqueHandle ∧ t.isPlaying = true) ∧
    ((soundStop bits m uniqueHandle).1 = true →
      (soundStop bits m uniqueHandle).2 = { m with
        ma_sound := updTrack m.ma_sound (UH_UNPACK_PAYLOAD bits uniqueHandle % 2 ^ 32)
          (fun t => { t with isPlaying := false }) }) ∧
    ((soundStop bits m uniqueHandle).1 = false → (soundStop bits m uniqueHandle).2 = m) ∧
    soundStop bits (soundStop bits m uniqueHandle).2 uniqueHandle =
      (false, (soundStop bits m uniqueHandle).2) := by
  cases hv : validSlot bits m uniqueHandle with
  | none =>
    have hstop : soundStop bits m uniqueHandle = (false, m) := by
      unfold soundStop; rw [hv]
    rw [hstop]
    refine ⟨⟨fun hc => (by cases hc), ?_⟩, fun hc => (by cases hc), fun _ => rfl, hstop⟩
    rintro ⟨-, t, ht, hu, hp⟩
    have := (validSlot_eq_some_iff bits m uniqueHandle _).2 ⟨rfl, t, ht, hu, hp⟩
    rw [hv] at this
    cases this
  | some k =>
    obtain ⟨rfl, t, ht, hu, hp⟩ := (validSlot_eq_some_iff bits m uniqueHandle k).1 hv
    have hlt : UH_UNPACK_PAYLOAD bits uniqueHandle % 2 ^ 32 < m.ma_sound.length := by
      by_contra hc
      rw [List.getElem?_eq_none (Nat.le_of_not_lt hc)] at ht
      cases ht
    have hstop : soundStop bits m uniqueHandle = (true, { m with
        ma_sound := updTrack m.ma_sound (UH_UNPACK_PAYLOAD bits uniqueHandle % 2 ^ 32)
          (fun t => { t with isPlaying := false }) }) := by
      unfold soundStop; rw [hv]
    rw [hstop]
    refine ⟨⟨fun _ => ⟨hlt, t, ht, hu, hp⟩, fun _ => rfl⟩, fun _ => rfl,
      fun hc => (by cases hc), ?_⟩
    have hv2 : validSlot bits { m with
        ma_sound := updTrack m.ma_sound (UH_UNPACK_PAYLOAD bits uniqueHandle % 2 ^ 32)
          (fun t => { t with isPlaying := false }) } uniqueHandle = none := by
      unfold validSlot
      simp only [updTrack_getElem?, if_true, ht, Option.map_some']
      simp
    unfold soundStop
    rw [hv2]

/-! ### Slot selection of `soundPlay` -/

/-- C15: with a stored sample and a pool that fits the payload bits, if slot `i` is not
playing and every slot below `i` is playing, then `soundPlay` is `soundPlayOn` on slot `i`,
the slot index packed in the returned handle is `i`, and every other slot (in particular
every slot below `i`) is left untouched; if every slot is playing, `soundPlay` returns the
null handle and leaves the state unchanged. -/
theorem soundPlay_lowest_free (bits : Nat) (m : DeviceAudioSdl) (sample : Nat) (s : AudioTrack)
    (volumeL volumeR disparity pitch : ℚ) (hfit : HandleFits bits m)
    (hs : mapFind m.mm_sample sample = some s) :
    (∀ (i : Nat) (t : AudioTrack), m.ma_sound[i]? = some t → t.isPlaying = false →
      (∀ (k : Nat) (u : AudioTrack), k < i → m.ma_sound[k]? = some u → u.isPlaying = true) →
      soundPlay bits m sample volumeL volumeR disparity pitch =
        soundPlayOn bits m i sample volumeL volumeR disparity pitch ∧
      UH_UNPACK_PAYLOAD bits (soundPlay bits m sample volumeL volumeR disparity pitch).1 = i ∧
      (∃ u, (soundPlay bits m sample volumeL volumeR disparity pitch).2.ma_sound[i]? = some u ∧
        u.isPlaying = true ∧ u.data = s.data) ∧
      ∀ k, k ≠ i →
        (soundPlay bits m sample volumeL volumeR disparity pitch).2.ma_sound[k]? =
          m.ma_sound[k]?) ∧
    ((∀ t ∈ m.ma_sound, t.isPlaying = true) →
      soundPlay bits m sample volumeL volumeR disparity pitch = (0, m)) := by
  constructor
  · intro i t ht hidle hbelow
    have hplay := soundPlay_eq_playOn bits sample volumeL volumeR disparity pitch ht hidle hbelow
    have hi : i < m.m_nSound := by
      by_contra hc
      rw [List.getElem?_eq_none (Nat.le_of_not_lt hc)] at ht
      cases ht
    obtain ⟨p1, -, -, -, p5, u, p6, p7, -, -, -, p8, -, -⟩ :=
      soundPlayOn_props bits sample volumeL volumeR disparity pitch hi hs
    rw [hplay]
    refine ⟨rfl, ?_, ⟨u, p6, p7, p8⟩, p5⟩
    rw [p1]
    exact unpack_payload_pack bits _ i (Nat.lt_of_lt_of_le hi hfit.1)
  · intro hall
    exact soundPlay_full sample _ _ _ _ hall

theorem soundPlay_lowest_free_witness :
    UH_UNPACK_PAYLOAD 10 (soundPlay 10 (soundPlay 10 exampleMixer 1 1 1 0 1).2 1 1 1 0 1).1
      = 1 :=
  ((soundPlay_lowest_free 10 (soundPlay 10 exampleMixer 1 1 1 0 1).2 1 exampleSample 1 1 0 1
    (by decide) (by decide)).1 1 (AudioTrack.mk0 Buffer.null 0 0) (by decide) rfl
    (fun k u hk hu => by
      obtain rfl : k = 0 := by omega
      have h0 : ((soundPlay 10 exampleMixer 1 1 1 0 1).2.ma_sound[0]?).map
          (fun t => t.isPlaying) = some true := by decide
      rw [hu] at h0
      simpa using h0)).2.1

/-! ### `soundActive()` -/

theorem foldl_count (l : List AudioTrack) :
    ∀ a : Nat, l.foldl (fun ret t => if t.isPlaying then ret + 1 else ret) a =
      a + l.countP (fun t => t.isPlaying) := by
  induction l with
  | nil => intro a; simp
  | cons t ts ih =>
    intro a
    simp only [List.foldl_cons, List.countP_cons, ih]
    cases t.isPlaying
    · simp
    · simp only [if_true, Nat.add_assoc, Nat.add_comm 1]

/-- C16: `soundActive()` is the number of slots with `isPlaying` set; it is at most
`m_nSound`, and it is 0 after `soundStop()` on all tracks. -/
theorem soundActiveCount_spec (m : DeviceAudioSdl) :
    soundActiveCount m = m.ma_sound.countP (fun t => t.isPlaying) ∧
    soundActiveCount m = (m.ma_sound.filter (fun t => t.isPlaying)).length ∧
    soundActiveCount m ≤ m.m_nSound ∧
    soundActiveCount (soundStopAll m) = 0 := by
  have h : ∀ m : DeviceAudioSdl,
      soundActiveCount m = m.ma_sound.countP (fun t => t.isPlaying) := by
    intro m
    unfold soundActiveCount
    rw [foldl_count, Nat.zero_add]
  refine ⟨h m, ?_, ?_, ?_⟩
  · rw [h, List.countP_eq_length_filter]
  · rw [h]
    exact List.countP_le_length _
  · rw [h]
    unfold soundStopAll
    simp only [List.countP_map]
    rw [List.countP_eq_zero]
    intro t _
    simp

/-! ### Sample ids -/

theorem mapFind_eq_none_iff (l : List (Nat × AudioTrack)) (k : Nat) :
    mapFind l k = none ↔ ∀ e ∈ l, e.1 ≠ k := by
  induction l with
  | nil => simp [mapFind]
  | cons e rest ih =>
    unfold mapFind
    by_cases he : e.1 = k
    · simp [he]
    · simp [he, ih]

theorem mapInsert_mem {l : List (Nat × AudioTrack)} {k : Nat} {v : AudioTrack}
    {e : Nat × AudioTrack} (h : e ∈ mapInsert l k v) : e ∈ l ∨ e = (k, v) := by
  unfold mapInsert at h
  split at h
  · exact Or.inl h
  · rw [List.mem_append, List.mem_singleton] at h
    exact h

theorem mapErase_mem {l : List (Nat × AudioTrack)} {k : Nat} {e : Nat × AudioTrack}
    (h : e ∈ mapErase l k) : e ∈ l ∧ e.1 ≠ k := by
  unfold mapErase at h
  rw [List.mem_filter] at h
  exact ⟨h.1, by simpa using h.2⟩

theorem mapFind_mapInsert (l : List (Nat × AudioTrack)) (k : Nat) (v : AudioTrack) :
    mapFind (mapInsert l k v) k ≠ none := by
  unfold mapInsert
  cases h : mapFind l k with
  | some s => simp [h]
  | none =>
    simp only
    rw [Ne, mapFind_eq_none_iff]
    intro hall
    exact hall (k, v) (by simp) rfl

theorem soundPlayOn_store (bits : Nat) (m : DeviceAudioSdl) (i sample : Nat) (vL vR d p : ℚ) :
    (soundPlayOn bits m i sample vL vR d p).2.mm_sample = m.mm_sample ∧
    (soundPlayOn bits m i sample vL vR d p).2.m_freq = m.m_freq := by
  unfold soundPlayOn
  split
  · exact ⟨rfl, rfl⟩
  · cases mapFind m.mm_sample sample with
    | none => exact ⟨rfl, rfl⟩
    | some s => exact ⟨rfl, rfl⟩

theorem markLoop_store (bits : Nat) (r : Nat × DeviceAudioSdl) :
    (markLoop bits r).2.mm_sample = r.2.mm_sample ∧ (markLoop bits r).2.m_freq = r.2.m_freq := by
  unfold markLoop
  split
  · exact ⟨rfl, rfl⟩
  · exact ⟨rfl, rfl⟩

/-- What a call does to the sample store: nothing, one removal, or one insertion of a
sample of non-zero length under the next value of the counter. -/
theorem step_store {F : FloatModel} {bits : Nat} {m m1 : DeviceAudioSdl} {c : Call}
    (h : step F bits m c = some m1) :
    m1.m_freq = m.m_freq ∧
    ((m1.mm_sample = m.mm_sample ∧ c.sampleId F m = 0) ∨
     (∃ k, m1.mm_sample = mapErase m.mm_sample k ∧ m1.m_uniqueCounter = m.m_uniqueCounter ∧
        c.sampleId F m = 0) ∨
     (∃ tr, tr.dlen ≠ 0 ∧
        m1.mm_sample = mapInsert m.mm_sample ((m.m_uniqueCounter + 1) % 2 ^ 64) tr ∧
        m1.m_uniqueCounter = (m.m_uniqueCounter + 1) % 2 ^ 64 ∧
        c.sampleId F m = (m.m_uniqueCounter + 1) % 2 ^ 64)) := by
  cases c with
  | load sample volume cvt =>
    simp only [step, Option.map_eq_some'] at h
    obtain ⟨r, hr, rfl⟩ := h
    simp only [Call.sampleId, hr]
    unfold sampleFromMemory at hr
    split at hr
    · simp only at hr
      split at hr
      · cases hr; exact ⟨rfl, Or.inl ⟨rfl, rfl⟩⟩
      · rename_i hd
        split at hr
        · cases hr
        · cases hr
          exact ⟨rfl, Or.inr (Or.inr ⟨_, hd, rfl, rfl, rfl⟩)⟩
    · cases hr; exact ⟨rfl, Or.inl ⟨rfl, rfl⟩⟩
  | destroy sample =>
    simp only [step, Option.some.injEq] at h
    subst h
    unfold sampleDestroy
    cases mapFind m.mm_sample sample with
    | none => exact ⟨rfl, Or.inl ⟨rfl, rfl⟩⟩
    | some s => exact ⟨rfl, Or.inr (Or.inl ⟨sample, rfl, rfl, rfl⟩)⟩
  | play sample a =>
    simp only [step, Option.some.injEq] at h
    subst h
    unfold soundPlay
    exact ⟨(soundPlayOn_store _ _ _ _ _ _ _ _).2, Or.inl ⟨(soundPlayOn_store _ _ _ _ _ _ _ _).1, rfl⟩⟩
  | playOn i sample a =>
    simp only [step, Option.some.injEq] at h
    subst h
    exact ⟨(soundPlayOn_store _ _ _ _ _ _ _ _).2, Or.inl ⟨(soundPlayOn_store _ _ _ _ _ _ _ _).1, rfl⟩⟩
  | loop sample a =>
    simp only [step, Option.some.injEq] at h
    subst h
    unfold soundLoop soundPlay
    refine ⟨?_, Or.inl ⟨?_, rfl⟩⟩
    · rw [(markLoop_store _ _).2]; exact (soundPlayOn_store _ _ _ _ _ _ _ _).2
    · rw [(markLoop_store _ _).1]; exact (soundPlayOn_store _ _ _ _ _ _ _ _).1
  | loopOn i sample a =>
    simp only [step, Option.some.injEq] at h
    subst h
    unfold soundLoopOn
    refine ⟨?_, Or.inl ⟨?_, rfl⟩⟩
    · rw [(markLoop_store _ _).2]; exact (soundPlayOn_store _ _ _ _ _ _ _ _).2
    · rw [(markLoop_store _ _).1]; exact (soundPlayOn_store _ _ _ _ _ _ _ _).1
  | update uniqueHandle pause a =>
    simp only [step, Option.some.injEq] at h
    subst h
    unfold soundUpdate
    cases validSlot bits m uniqueHandle with
    | none => exact ⟨rfl, Or.inl ⟨rfl, rfl⟩⟩
    | some s => exact ⟨rfl, Or.inl ⟨rfl, rfl⟩⟩
  | stop uniqueHandle =>
    simp only [step, Option.some.injEq] at h
    subst h
    unfold soundStop
    cases validSlot bits m uniqueHandle with
    | none => exact ⟨rfl, Or.inl ⟨rfl, rfl⟩⟩
    | some s => exact ⟨rfl, Or.inl ⟨rfl, rfl⟩⟩
  | stopAll =>
    simp only [step, Option.some.injEq] at h
    subst h
    exact ⟨rfl, Or.inl ⟨rfl, rfl⟩⟩
  | render nFrames =>
    simp only [step, Option.map_eq_some'] at h
    obtain ⟨r, hr, rfl⟩ := h
    obtain ⟨tracks, -, hr2, -⟩ := mixOutputFloat_state hr
    rw [hr2]
    exact ⟨rfl, Or.inl ⟨rfl, rfl⟩⟩

theorem run_append (F : FloatModel) (bits : Nat) :
    ∀ (a b : List Call) (m : DeviceAudioSdl),
      run F bits m (a ++ b) = (run F bits m a).bind (fun m1 => run F bits m1 b)
  | [], b, m => rfl
  | c :: a, b, m => by
    simp only [List.cons_append, run]
    cases step F bits m c with
    | none => rfl
    | some m1 => exact run_append F bits a b m1

theorem storeBelow_step {F : FloatModel} {bits : Nat} {m m1 : DeviceAudioSdl} {c : Call}
    (h : step F bits m c = some m1) (hnw : m.m_uniqueCounter + 1 < 2 ^ 64)
    (hinv : StoreBelow m) : StoreBelow m1 := by
  have hc := (step_counter h hnw).1
  intro e he
  rcases (step_store h).2 with ⟨hs, -⟩ | ⟨k, hs, -, -⟩ | ⟨tr, -, hs, hcnt, -⟩
  · rw [hs] at he
    exact Nat.le_trans (hinv e he) hc
  · rw [hs] at he
    exact Nat.le_trans (hinv e (mapErase_mem he).1) hc
  · rw [hs] at he
    rcases mapInsert_mem he with he | he
    · exact Nat.le_trans (hinv e he) hc
    · rw [he, hcnt]

theorem storeBelow_run {F : FloatModel} {bits : Nat} :
    ∀ {cs : List Call} {m m1 : DeviceAudioSdl}, run F bits m cs = some m1 →
      m.m_uniqueCounter + cs.length < 2 ^ 64 → StoreBelow m → StoreBelow m1
  | [], m, m1, h, _, hinv => by
    simp only [run, Option.some.injEq] at h
    subst h
    exact hinv
  | c :: cs, m, m1, h, hnw, hinv => by
    simp only [run] at h
    simp only [List.length_cons] at hnw
    cases hs : step F bits m c with
    | none => simp [hs] at h
    | some m2 =>
      simp only [hs] at h
      have hc := step_counter hs (by omega)
      exact storeBelow_run h (by omega) (storeBelow_step hs (by omega) hinv)

theorem absent_step {F : FloatModel} {bits : Nat} {m m1 : DeviceAudioSdl} {c : Call} {d : Nat}
    (h : step F bits m c = some m1) (hnw : m.m_uniqueCounter + 1 < 2 ^ 64)
    (hd : d ≤ m.m_uniqueCounter) (habs : mapFind m.mm_sample d = none) :
    mapFind m1.mm_sample d = none := by
  rw [mapFind_eq_none_iff] at habs ⊢
  intro e he
  rcases (step_store h).2 with ⟨hs, -⟩ | ⟨k, hs, -, -⟩ | ⟨tr, -, hs, -, -⟩
  · rw [hs] at he
    exact habs e he
  · rw [hs] at he
    exact habs e (mapErase_mem he).1
  · rw [hs] at he
    rcases mapInsert_mem he with he | he
    · exact habs e he
    · rw [he, Nat.mod_eq_of_lt hnw]
      simp only
      omega

theorem absent_run {F : FloatModel} {bits : Nat} {d : Nat} :
    ∀ {cs : List Call} {m m1 : DeviceAudioSdl}, run F bits m cs = some m1 →
      m.m_uniqueCounter + cs.length < 2 ^ 64 → d ≤ m.m_uniqueCounter →
      mapFind m.mm_sample d = none → mapFind m1.mm_sample d = none
  | [], m, m1, h, _, _, habs => by
    simp only [run, Option.some.injEq] at h
    subst h
    exact habs
  | c :: cs, m, m1, h, hnw, hd, habs => by
    simp only [run] at h
    simp only [List.length_cons] at hnw
    cases hs : step F bits m c with
    | none => simp [hs] at h
    | some m2 =>
      simp only [hs] at h
      have hc := step_counter hs (by omega)
      exact absent_run h (by omega) (by omega) (absent_step hs (by omega) hd habs)

theorem sampleIds_increase {F : FloatModel} {bits : Nat} :
    ∀ (cs : List Call) (m m1 : DeviceAudioSdl), run F bits m cs = some m1 →
      m.m_uniqueCounter + cs.length < 2 ^ 64 →
      (sampleIds F bits m cs).length = cs.length ∧
      ∀ (j id : Nat), (sampleIds F bits m cs)[j]? = some id → id ≠ 0 →
        m.m_uniqueCounter < id ∧ id ≤ m1.m_uniqueCounter ∧
        ∀ (k id0 : Nat), k < j → (sampleIds F bits m cs)[k]? = some id0 → id0 < id
  | [], m, m1, _, _ => ⟨rfl, fun j id hj _ => by simp [sampleIds] at hj⟩
  | c :: cs, m, m1, hrun, hnw => by
    simp only [List.length_cons] at hnw
    simp only [run] at hrun
    cases hs : step F bits m c with
    | none => simp [hs] at hrun
    | some m2 =>
      simp only [hs] at hrun
      simp only [sampleIds, hs]
      have hc := step_counter hs (by omega)
      have hc1 := run_counter hrun (by omega)
      obtain ⟨ihl, ih⟩ := sampleIds_increase cs m2 m1 hrun (by omega)
      refine ⟨by simp only [List.length_cons, ihl], ?_⟩
      intro j id hj hid
      have h0 : c.sampleId F m ≤ m2.m_uniqueCounter ∧
          (c.sampleId F m ≠ 0 → c.sampleId F m = m.m_uniqueCounter + 1) := by
        rcases (step_store hs).2 with ⟨-, h0⟩ | ⟨k, -, -, h0⟩ | ⟨tr, -, -, hcnt, h0⟩
        · rw [h0]; exact ⟨Nat.zero_le _, fun h => absurd rfl h⟩
        · rw [h0]; exact ⟨Nat.zero_le _, fun h => absurd rfl h⟩
        · rw [h0, hcnt]
          exact ⟨Nat.le_refl _, fun _ => Nat.mod_eq_of_lt (by omega)⟩
      cases j with
      | zero =>
        simp only [List.getElem?_cons_zero, Option.some.injEq] at hj
        subst hj
        have := h0.2 hid
        refine ⟨by omega, by omega, ?_⟩
        intro k id0 hk
        omega
      | succ j =>
        simp only [List.getElem?_cons_succ] at hj
        obtain ⟨ih1, ih2, ih3⟩ := ih j id hj hid
        refine ⟨by omega, ih2, ?_⟩
        intro k id0 hk hk0
        cases k with
        | zero =>
          simp only [List.getElem?_cons_zero, Option.some.injEq] at hk0
          subst hk0
          omega
        | succ k =>
          simp only [List.getElem?_cons_succ] at hk0
          exact ih3 k id0 (by omega) hk0

theorem sampleIds_append (F : FloatModel) (bits : Nat) :
    ∀ (a b : List Call) (m ma : DeviceAudioSdl), run F bits m a = some ma →
      sampleIds F bits m (a ++ b) = sampleIds F bits m a ++ sampleIds F bits ma b
  | [], b, m, ma, h => by
    simp only [run, Option.some.injEq] at h
    subst h
    rfl
  | c :: a, b, m, ma, h => by
    simp only [run] at h
    cases hs : step F bits m c with
    | none => simp [hs] at h
    | some m2 =>
      simp only [hs] at h
      simp only [List.cons_append, sampleIds, hs]
      exact congrArg _ (sampleIds_append F bits a b m2 ma h)

theorem mapFind_some_mem {l : List (Nat × AudioTrack)} {k : Nat}
    (h : mapFind l k ≠ none) : ∃ e ∈ l, e.1 = k := by
  by_contra hc
  apply h
  rw [mapFind_eq_none_iff]
  intro e he hk
  exact hc ⟨e, he, hk⟩

/-- C14: sample ids are monotonically increasing and never reused.  Along any sequence of
calls that does not wrap the 64-bit counter, from a state whose stored ids are at most the
counter (as after construction), every non-zero id returned by a load is above the counter
of the start state, names no sample of the start state, and is strictly above every id
returned by an earlier load; and an id whose sample has been destroyed names no sample in
any later state and is below every id returned by a later load. -/
theorem sample_ids_never_reused (F : FloatModel) (bits : Nat) (m m1 : DeviceAudioSdl)
    (cs : List Call) (hinv : StoreBelow m) (hnw : m.m_uniqueCounter + cs.length < 2 ^ 64)
    (hrun : run F bits m cs = some m1) :
    (sampleIds F bits m cs).length = cs.length ∧
    (∀ (j id : Nat), (sampleIds F bits m cs)[j]? = some id → id ≠ 0 →
      m.m_uniqueCounter < id ∧ id ≤ m1.m_uniqueCounter ∧
      (∀ e ∈ m.mm_sample, e.1 ≠ id) ∧
      ∀ (k id0 : Nat), k < j → (sampleIds F bits m cs)[k]? = some id0 → id0 < id) ∧
    (∀ (pre post : List Call) (d : Nat) (mp : DeviceAudioSdl),
      cs = pre ++ Call.destroy d :: post → run F bits m pre = some mp →
      (sampleDestroy mp d).1 = true →
      mapFind m1.mm_sample d = none ∧
      ∀ (j id : Nat), pre.length < j → (sampleIds F bits m cs)[j]? = some id → id ≠ 0 →
        d < id) ∧
    StoreBelow m1 := by
  obtain ⟨hlen, hinc⟩ := sampleIds_increase cs m m1 hrun hnw
  refine ⟨hlen, ?_, ?_, storeBelow_run hrun hnw hinv⟩
  · intro j id hj hid
    obtain ⟨h1, h2, h3⟩ := hinc j id hj hid
    refine ⟨h1, h2, ?_, h3⟩
    intro e he hE
    have := hinv e he
    omega
  · intro pre post d mp hcs hpre hd
    subst hcs
    simp only [List.length_append, List.length_cons] at hnw
    rw [run_append, hpre, Option.some_bind] at hrun
    simp only [run, step] at hrun
    have hcp := run_counter hpre (by omega)
    have hbp : StoreBelow mp := storeBelow_run hpre (by omega) hinv
    have hfound : mapFind mp.mm_sample d ≠ none := by
      intro hn
      unfold sampleDestroy at hd
      rw [hn] at hd
      cases hd
    obtain ⟨e, he, hed⟩ := mapFind_some_mem hfound
    have hdle : d ≤ mp.m_uniqueCounter := hed ▸ hbp e he
    have hcd := (sampleDestroy_state mp d).1
    have habs : mapFind (sampleDestroy mp d).2.mm_sample d = none := by
      unfold sampleDestroy
      cases hf : mapFind mp.mm_sample d with
      | none => exact absurd hf hfound
      | some s => exact mapFind_mapErase _ _
    refine ⟨absent_run hrun (by omega) (by omega) habs, ?_⟩
    intro j id hj hjid hid
    rw [sampleIds_append F bits pre _ m mp hpre] at hjid
    have hlp : (sampleIds F bits m pre).length = pre.length :=
      (sampleIds_increase pre m mp hpre (by omega)).1
    rw [List.getElem?_append_right (by omega), hlp] at hjid
    simp only [sampleIds, step] at hjid
    obtain ⟨j1, hj1⟩ : ∃ j1, j - pre.length = j1 + 1 := ⟨j - pre.length - 1, by omega⟩
    rw [hj1, List.getElem?_cons_succ] at hjid
    have := (sampleIds_increase post _ m1 hrun (by omega)).2 j1 id hjid hid
    omega

theorem sample_ids_never_reused_witness :
    StoreBelow freshMixer ∧
    sampleIds FloatModel.exact 12 freshMixer
      [tightLoad, Call.destroy 1, tightLoad, Call.play 2 exampleArgs, tightLoad] = [1, 0, 2, 0, 4] ∧
    ∀ (j id : Nat), 1 < j →
      (sampleIds FloatModel.exact 12 freshMixer
        [tightLoad, Call.destroy 1, tightLoad, Call.play 2 exampleArgs, tightLoad])[j]? = some id →
      id ≠ 0 → 1 < id :=
  ⟨by decide, by decide!, fun j id hj =>
    ((sample_ids_never_reused FloatModel.exact 12 freshMixer
      ((run FloatModel.exact 12 freshMixer
        [tightLoad, Call.destroy 1, tightLoad, Call.play 2 exampleArgs, tightLoad]).get (by decide!))
      [tightLoad, Call.destroy 1, tightLoad, Call.play 2 exampleArgs, tightLoad]
      (by decide) (by decide) (Option.some_get _).symm).2.2.1
        [tightLoad] [tightLoad, Call.play 2 exampleArgs, tightLoad] 1
        ((run FloatModel.exact 12 freshMixer [tightLoad]).get (by decide!)) rfl
        (Option.some_get _).symm (by decide!)).2 j id hj⟩

/-! ### Reads of the render callback at the end of the buffer -/

/-- C17, evaluated at the failing input: after loading a mono sample of 4 bytes, which the
converter leaves in a buffer of 4 bytes, and playing it at native speed, a render block of
4 output values reads the right channel of the direct branch at byte offset 2 + 2 = 4, past
the end of the buffer: the read is outside the allocation and the block has no defined
result, while the left read at offset 2 and both reads of the first frame are inside. -/
theorem direct_right_read_out_of_bounds :
    run FloatModel.exact 12 freshMixer [tightLoad, Call.play 1 exampleArgs] = some tightMixer ∧
    tightMixer.ma_sound[0]? = some tightTrack ∧
    tightTrack.dlen = 4 ∧ tightTrack.data.bytes.length = 4 ∧
    readS16 tightTrack.data 2 = some (-1000) ∧
    readS16 tightTrack.data (2 + 2) = none ∧
    mixDirect FloatModel.exact tightMixer tightTrack 0 = some (some 1000, some (-1000)) ∧
    mixDirect FloatModel.exact tightMixer tightTrack 2 = none ∧
    mixOutputFloat FloatModel.exact tightMixer 4 = none ∧
    run FloatModel.exact 12 freshMixer [tightLoad, Call.play 1 exampleArgs, Call.render 4] = none := by
  refine ⟨?_, ?_, ?_, ?_, ?_, ?_, ?_, ?_, ?_, ?_⟩ <;> decide!

/-! ### The interpolation of the left channel -/

/-- C18, evaluated at the failing input: on the buffer holding `1, 2, 3, 4, 5, 6`, at half
speed and output index 2 the interpolated branch has weight 1/2 at offset 0.  The right
channel (offset 2) is the two-point interpolation 5/2 of the samples 2 and 3, but the left
channel is 1, the sample at offset 0, where the two-point interpolation of the samples 1
and 2 is 3/2: in exact arithmetic the left value never depends on the next sample. -/
theorem interp_left_ignores_next_sample :
    mixInterp FloatModel.exact loudMixer halfTrack 2 = some (some 1, some (5 / 2)) ∧
    readS16 halfTrack.data 0 = some 1 ∧ readS16 halfTrack.data 2 = some 2 ∧
    readS16 halfTrack.data 4 = some 3 ∧
    interpLeft FloatModel.exact loudMixer halfTrack (1 / 2) 0 10 = some (some 1) ∧
    specInterpolate (1 / 2) 1 2 = 3 / 2 ∧
    interpRight FloatModel.exact loudMixer halfTrack (1 / 2) 2 10 = some (some (5 / 2)) ∧
    specInterpolate (1 / 2) 2 3 = 5 / 2 ∧
    (∀ (m : DeviceAudioSdl) (t : AudioTrack) (fract : ℚ) (p lim s0 : Int),
      p < lim → 0 ≤ p → readS16 t.data p = some s0 →
      interpLeft FloatModel.exact m t fract p lim = some (some ((s0 : ℚ) * m.m_volL * t.volL))) := by
  refine ⟨by decide!, by decide!, by decide!, by decide!, by decide!, by decide!, by decide!,
    by decide!, ?_⟩
  intro m t fract p lim s0 h1 h2 hr
  unfold interpLeft
  rw [if_pos ⟨h1, h2⟩, hr]
  simp only [FloatModel.exact]
  congr 2
  ring

/-! ### The divisor of the loop wrap -/

/-- C20, evaluated at the failing input: a stored sample whose converted length is 2 bytes,
looped at double speed, takes the interpolated branch, whose loop wrap divides by
`dlen - 2 = 0`: the remainder by zero leaves the render block without a defined result. -/
theorem loop_wrap_divides_by_zero :
    run FloatModel.exact 12 freshMixer [shortLoad, Call.loop 1 ⟨1, 1, 0, 2⟩] = some shortMixer ∧
    shortMixer.ma_sound[0]? = some shortTrack ∧
    shortTrack.dlen = 2 ∧ shortTrack.isLoop = true ∧ shortTrack.isPlaying = true ∧
    wrapU32 ((shortTrack.dlen : Int) - 2) = 0 ∧
    loopWrap shortTrack 0 = none ∧
    mixInterp FloatModel.exact shortMixer shortTrack 0 = none ∧
    mixOutputFloat FloatModel.exact shortMixer 2 = none ∧
    run FloatModel.exact 12 freshMixer
      [shortLoad, Call.loop 1 ⟨1, 1, 0, 2⟩, Call.render 2] = none := by
  refine ⟨?_, ?_, ?_, ?_, ?_, ?_, ?_, ?_, ?_, ?_⟩ <;> decide!

/-! ### Paused slots -/

theorem trackContribution_idle (F : FloatModel) (m : DeviceAudioSdl) (j : Nat) (t : AudioTrack)
    (h : t.isPlaying = false ∨ t.isPaused = true) :
    trackContribution F m j t = some (none, none) := by
  unfold trackContribution
  rw [if_neg]
  rintro ⟨h1, h2⟩
  rcases h with h | h
  · rw [h1] at h; cases h
  · rw [h2] at h; cases h

theorem trackContribution_stopPaused (F : FloatModel) (m : DeviceAudioSdl) (j : Nat)
    (t : AudioTrack) :
    trackContribution F (stopPaused m) j (if t.isPaused then { t with isPlaying := false } else t) =
      trackContribution F m j t := by
  by_cases hp : t.isPaused = true
  · rw [if_pos hp, trackContribution_idle F m j t (Or.inr hp),
      trackContribution_idle F _ j _ (Or.inl rfl)]
  · rw [if_neg hp]
    rfl

theorem mixTracks_stopPaused (F : FloatModel) (m : DeviceAudioSdl) (j : Nat) :
    ∀ (l : List AudioTrack) (acc : ℚ × ℚ),
      mixTracks F (stopPaused m) j
        (l.map (fun t => if t.isPaused then { t with isPlaying := false } else t)) acc =
      mixTracks F m j l acc
  | [], _ => rfl
  | t :: ts, acc => by
    simp only [List.map_cons, mixTracks, trackContribution_stopPaused]
    cases trackContribution F m j t with
    | none => rfl
    | some c => exact mixTracks_stopPaused F m j ts _

theorem mixFrames_stopPaused (F : FloatModel) (m : DeviceAudioSdl) :
    ∀ (js : List Nat), mixFrames F (stopPaused m) js = mixFrames F m js
  | [] => rfl
  | j :: js => by
    have h : mixFrame F (stopPaused m) j = mixFrame F m j := by
      have e := mixTracks_stopPaused F m j m.ma_sound (0, 0)
      unfold mixFrame
      have e1 : (stopPaused m).ma_sound =
          m.ma_sound.map (fun t => if t.isPaused then { t with isPlaying := false } else t) := rfl
      rw [e1, e]
    simp only [mixFrames, h, mixFrames_stopPaused F m js]

theorem advanceTracks_stopPaused (F : FloatModel) (m : DeviceAudioSdl) (n : Nat) :
    ∀ (l l1 : List AudioTrack), advanceTracks F m n l = some l1 →
      advanceTracks F (stopPaused m) n
        (l.map (fun t => if t.isPaused then { t with isPlaying := false } else t)) =
      some (l1.map (fun t => if t.isPaused then { t with isPlaying := false } else t))
  | [], l1, h => by
    simp only [advanceTracks, Option.some.injEq] at h
    subst h
    rfl
  | t :: ts, l1, h => by
    simp only [advanceTracks] at h
    cases ht : advanceTrack F m n t with
    | none => simp [ht] at h
    | some t1 =>
      cases hts : advanceTracks F m n ts with
      | none => simp [ht, hts] at h
      | some ts1 =>
        simp only [ht, hts, Option.some.injEq] at h
        subst h
        have ih := advanceTracks_stopPaused F m n ts ts1 hts
        have h1 : advanceTrack F (stopPaused m) n
            (if t.isPaused then { t with isPlaying := false } else t) =
            some (if t1.isPaused then { t1 with isPlaying := false } else t1) := by
          by_cases hp : t.isPaused = true
          · have e := (advanceTrack_frame ht).2.2.2 hp
            subst e
            rw [if_pos hp]
            unfold advanceTrack
            rw [if_pos hp]
          · have e := (advanceTrack_frame ht).1
            have hp1 : t1.isPaused = t.isPaused := by rw [e]
            rw [if_neg hp, if_neg (by rw [hp1]; exact hp)]
            exact ht
        simp only [List.map_cons, advanceTracks, ih, h1]

/-- C19 (counterexample): a render block advances the position of a slot that is not
playing.  After a load and a play on a fresh mixer, a block of 2 output values moves the
idle second slot from position 0 to position 2. -/
theorem idle_slot_advances :
    tightMixer.ma_sound[1]? = some (AudioTrack.mk0 Buffer.null 0 0) ∧
    (AudioTrack.mk0 Buffer.null 0 0).isPlaying = false ∧
    (AudioTrack.mk0 Buffer.null 0 0).isPaused = false ∧
    (AudioTrack.mk0 Buffer.null 0 0).dpos = 0 ∧
    (mixOutputFloat FloatModel.exact tightMixer 2).map (fun r => r.2.ma_sound[1]?) =
      some (some { AudioTrack.mk0 Buffer.null 0 0 with dpos := 2 }) ∧
    (run FloatModel.exact 12 freshMixer
      [tightLoad, Call.play 1 exampleArgs, Call.render 2]).map (fun m => m.ma_sound[1]?) =
      some (some { AudioTrack.mk0 Buffer.null 0 0 with dpos := 2 }) := by
  refine ⟨?_, ?_, ?_, ?_, ?_, ?_⟩ <;> decide!

/-- C19 (amended): a render block leaves every paused slot unchanged, its output is the
output of the state in which the paused slots are not playing, and a slot that is paused or
not playing contributes nothing; but the block advances the position of every unpaused
slot, playing or not, changing no other field of a slot than the position and the playing
flag, which it never sets. -/
theorem paused_slots_frozen (F : FloatModel) (m : DeviceAudioSdl) (nFrames : Nat)
    (r : List Int × DeviceAudioSdl) (h : mixOutputFloat F m nFrames = some r) :
    (∀ (i : Nat) (t : AudioTrack), m.ma_sound[i]? = some t → t.isPaused = true →
      r.2.ma_sound[i]? = some t) ∧
    mixOutputFloat F (stopPaused m) nFrames = some (r.1, stopPaused r.2) ∧
    (∀ (j : Nat) (t : AudioTrack), t.isPlaying = false ∨ t.isPaused = true →
      trackContribution F m j t = some (none, none)) ∧
    (∀ (i : Nat) (t : AudioTrack), m.ma_sound[i]? = some t → t.isPaused = false →
      ∃ t1 p, r.2.ma_sound[i]? = some t1 ∧ advancePos F nFrames t = some p ∧
        t1.dpos = (if t.isLoop then p % t.dlen else p) ∧
        t1 = { t with dpos := t1.dpos, isPlaying := t1.isPlaying } ∧
        (t1.isPlaying = true → t.isPlaying = true)) ∧
    r.2 = { m with ma_sound := r.2.ma_sound } ∧ r.2.m_nSound = m.m_nSound := by
  obtain ⟨tracks, htr, hr2, hfr⟩ := mixOutputFloat_state h
  refine ⟨?_, ?_, trackContribution_idle F m, ?_, ?_, ?_⟩
  · intro i t hi hp
    obtain ⟨t1, h1, h2⟩ := mixOutputFloat_slot h hi
    rw [h1, (advanceTrack_frame h2).2.2.2 hp]
  · unfold mixOutputFloat
    rw [mixFrames_stopPaused, hfr]
    simp only
    have := advanceTracks_stopPaused F m nFrames m.ma_sound tracks htr
    unfold stopPaused at this ⊢
    simp only at this ⊢
    rw [this, hr2]
  · intro i t hi hp
    obtain ⟨t1, h1, h2⟩ := mixOutputFloat_slot h hi
    have hf := advanceTrack_frame h2
    unfold advanceTrack at h2
    rw [hp] at h2
    simp only [Bool.false_eq_true, if_false] at h2
    cases hpos : advancePos F nFrames t with
    | none => simp [hpos] at h2
    | some p =>
      simp only [hpos] at h2
      refine ⟨t1, p, h1, rfl, ?_, hf.1, hf.2.1⟩
      by_cases hl : t.isLoop = true
      · rw [if_pos hl] at h2 ⊢
        split at h2
        · cases h2
        · cases h2; rfl
      · rw [if_neg hl] at h2 ⊢
        cases hmg : endMargin F m t with
        | none => simp [hmg] at h2
        | some mg =>
          simp only [hmg] at h2
          split at h2 <;> (cases h2; rfl)
  · rw [hr2]
  · rw [hr2]
    exact (advanceTracks_getElem? htr).1

theorem paused_slots_frozen_witness :
    pausedMixer.ma_sound[0]? = some { paddedTrack false with isPaused := true, dpos := 2 } ∧
    (mixOutputFloat FloatModel.exact pausedMixer 2).map (fun r => r.1) = some [1000, -1000] ∧
    ((mixOutputFloat FloatModel.exact pausedMixer 2).get (by decide!)).2.ma_sound[0]? =
      some { paddedTrack false with isPaused := true, dpos := 2 } :=
  ⟨by decide, by decide!,
   (paused_slots_frozen FloatModel.exact pausedMixer 2
      ((mixOutputFloat FloatModel.exact pausedMixer 2).get (by decide!))
      (Option.some_get _).symm).1 0 _ (by decide) rfl⟩

/-! ### The position of a playing slot -/

theorem updTrack_slot {l : List AudioTrack} {i j : Nat} {f : AudioTrack → AudioTrack}
    {t1 : AudioTrack} (h : (updTrack l i f)[j]? = some t1) :
    ∃ t, l[j]? = some t ∧ (t1 = t ∨ (i = j ∧ t1 = f t)) := by
  rw [updTrack_getElem?] at h
  split at h
  · rename_i hij
    cases ht : l[j]? with
    | none => simp [ht] at h
    | some t =>
      rw [ht] at h
      simp only [Option.map_some', Option.some.injEq] at h
      exact ⟨t, rfl, Or.inr ⟨hij, h.symm⟩⟩
  · exact ⟨t1, h, Or.inl rfl⟩

theorem soundPlayOn_slots (bits : Nat) (m : DeviceAudioSdl) (i sample : Nat) (vL vR d p : ℚ)
    {j : Nat} {t1 : AudioTrack}
    (h : (soundPlayOn bits m i sample vL vR d p).2.ma_sound[j]? = some t1) :
    ∃ t, m.ma_sound[j]? = some t ∧ (t1 = t ∨ (t1.dpos = 0 ∧ t1.disparity = d)) := by
  unfold soundPlayOn at h
  split at h
  · exact ⟨t1, h, Or.inl rfl⟩
  · cases hs : mapFind m.mm_sample sample with
    | none =>
      rw [hs] at h
      exact ⟨t1, h, Or.inl rfl⟩
    | some s =>
      rw [hs] at h
      obtain ⟨t, ht, h1 | ⟨-, h1⟩⟩ := updTrack_slot h
      · exact ⟨t, ht, Or.inl h1⟩
      · exact ⟨t, ht, Or.inr (by rw [h1]; exact ⟨rfl, rfl⟩)⟩

theorem markLoop_slots (bits : Nat) (r : Nat × DeviceAudioSdl) {j : Nat} {t1 : AudioTrack}
    (h : (markLoop bits r).2.ma_sound[j]? = some t1) :
    ∃ t, r.2.ma_sound[j]? = some t ∧ (t1 = t ∨ t1 = { t with isLoop := true }) := by
  unfold markLoop at h
  split at h
  · obtain ⟨t, ht, h1 | ⟨-, h1⟩⟩ := updTrack_slot h
    · exact ⟨t, ht, Or.inl h1⟩
    · exact ⟨t, ht, Or.inr h1⟩
  · exact ⟨t1, h, Or.inl rfl⟩

/-- What a call does to a slot: nothing, clear the playing flag, occupy it at position 0,
set the loop flag, update the parameters of the slot of an accepted handle, or advance it. -/
theorem step_slot {F : FloatModel} {bits : Nat} {m m1 : DeviceAudioSdl} {c : Call}
    (h : step F bits m c = some m1) {j : Nat} {t1 : AudioTrack} (h1 : m1.ma_sound[j]? = some t1) :
    ∃ t, m.ma_sound[j]? = some t ∧
      (t1 = t ∨ t1.isPlaying = false ∨ t1.dpos = 0 ∨
       t1 = { t with isLoop := true } ∨
       (∃ uniqueHandle pause a, c = Call.update uniqueHandle pause a ∧
          validSlot bits m uniqueHandle = some j ∧
          t1 = { t with
            isPaused := pause, volL := a.volumeL, volR := a.volumeR,
            disparity := a.disparity, pitch := abs a.pitch }) ∨
       ∃ n, advanceTrack F m n t = some t1) := by
  cases c with
  | load sample volume cvt =>
    simp only [step, Option.map_eq_some'] at h
    obtain ⟨r, hr, rfl⟩ := h
    rw [(sampleFromMemory_state hr).1] at h1
    exact ⟨t1, h1, Or.inl rfl⟩
  | destroy sample =>
    simp only [step, Option.some.injEq] at h
    subst h
    unfold sampleDestroy at h1
    cases hs : mapFind m.mm_sample sample with
    | none =>
      rw [hs] at h1
      exact ⟨t1, h1, Or.inl rfl⟩
    | some s =>
      rw [hs] at h1
      simp only [List.getElem?_map, Option.map_eq_some'] at h1
      obtain ⟨t, ht, h2⟩ := h1
      refine ⟨t, ht, ?_⟩
      split at h2
      · exact Or.inr (Or.inl (by rw [← h2]))
      · exact Or.inl h2.symm
  | play sample a =>
    simp only [step, Option.some.injEq] at h
    subst h
    unfold soundPlay at h1
    obtain ⟨t, ht, h2 | h2⟩ := soundPlayOn_slots _ _ _ _ _ _ _ _ h1
    · exact ⟨t, ht, Or.inl h2⟩
    · exact ⟨t, ht, Or.inr (Or.inr (Or.inl h2.1))⟩
  | playOn i sample a =>
    simp only [step, Option.some.injEq] at h
    subst h
    obtain ⟨t, ht, h2 | h2⟩ := soundPlayOn_slots _ _ _ _ _ _ _ _ h1
    · exact ⟨t, ht, Or.inl h2⟩
    · exact ⟨t, ht, Or.inr (Or.inr (Or.inl h2.1))⟩
  | loop sample a =>
    simp only [step, Option.some.injEq] at h
    subst h
    unfold soundLoop soundPlay at h1
    obtain ⟨t2, ht2, h3⟩ := markLoop_slots _ _ h1
    obtain ⟨t, ht, h2⟩ := soundPlayOn_slots _ _ _ _ _ _ _ _ ht2
    refine ⟨t, ht, ?_⟩
    rcases h3 with h3 | h3 <;> rcases h2 with h2 | h2
    · exact Or.inl (by rw [h3, h2])
    · exact Or.inr (Or.inr (Or.inl (by rw [h3]; exact h2.1)))
    · exact Or.inr (Or.inr (Or.inr (Or.inl (by rw [h3, h2]))))
    · exact Or.inr (Or.inr (Or.inl (by rw [h3]; exact h2.1)))
  | loopOn i sample a =>
    simp only [step, Option.some.injEq] at h
    subst h
    unfold soundLoopOn at h1
    obtain ⟨t2, ht2, h3⟩ := markLoop_slots _ _ h1
    obtain ⟨t, ht, h2⟩ := soundPlayOn_slots _ _ _ _ _ _ _ _ ht2
    refine ⟨t, ht, ?_⟩
    rcases h3 with h3 | h3 <;> rcases h2 with h2 | h2
    · exact Or.inl (by rw [h3, h2])
    · exact Or.inr (Or.inr (Or.inl (by rw [h3]; exact h2.1)))
    · exact Or.inr (Or.inr (Or.inr (Or.inl (by rw [h3, h2]))))
    · exact Or.inr (Or.inr (Or.inl (by rw [h3]; exact h2.1)))
  | update uniqueHandle pause a =>
    simp only [step, Option.some.injEq] at h
    subst h
    unfold soundUpdate at h1
    cases hv : validSlot bits m uniqueHandle with
    | none =>
      rw [hv] at h1
      exact ⟨t1, h1, Or.inl rfl⟩
    | some sound =>
      rw [hv] at h1
      obtain ⟨t, ht, h2 | ⟨hj, h2⟩⟩ := updTrack_slot h1
      · exact ⟨t, ht, Or.inl h2⟩
      · subst hj
        exact ⟨t, ht, Or.inr (Or.inr (Or.inr (Or.inr (Or.inl
          ⟨uniqueHandle, pause, a, rfl, hv, h2⟩))))⟩
  | stop uniqueHandle =>
    simp only [step, Option.some.injEq] at h
    subst h
    unfold soundStop at h1
    cases hv : validSlot bits m uniqueHandle with
    | none =>
      rw [hv] at h1
      exact ⟨t1, h1, Or.inl rfl⟩
    | some sound =>
      rw [hv] at h1
      obtain ⟨t, ht, h2 | ⟨-, h2⟩⟩ := updTrack_slot h1
      · exact ⟨t, ht, Or.inl h2⟩
      · exact ⟨t, ht, Or.inr (Or.inl (by rw [h2]))⟩
  | stopAll =>
    simp only [step, Option.some.injEq] at h
    subst h
    unfold soundStopAll at h1
    simp only [List.getElem?_map, Option.map_eq_some'] at h1
    obtain ⟨t, ht, h2⟩ := h1
    exact ⟨t, ht, Or.inr (Or.inl (by rw [← h2]))⟩
  | render nFrames =>
    simp only [step, Option.map_eq_some'] at h
    obtain ⟨r, hr, rfl⟩ := h
    obtain ⟨tracks, htr, hr2, -⟩ := mixOutputFloat_state hr
    have hlen := (advanceTracks_getElem? htr).1
    have hj : j < m.ma_sound.length := by
      rw [hr2] at h1
      simp only at h1
      rw [← hlen]
      by_contra hc
      rw [List.getElem?_eq_none (by omega)] at h1
      cases h1
    obtain ⟨t2, h2, h3⟩ := mixOutputFloat_slot hr (List.getElem?_eq_getElem hj)
    rw [h1] at h2
    cases h2
    exact ⟨_, List.getElem?_eq_getElem hj, Or.inr (Or.inr (Or.inr (Or.inr (Or.inr ⟨nFrames, h3⟩))))⟩

theorem advanceTrack_bound {F : FloatModel} {m : DeviceAudioSdl} {n : Nat} {t t1 : AudioTrack}
    (h : advanceTrack F m n t = some t1) (hpa : t.isPaused = false) (hl : t.isLoop = false)
    (hp : t1.isPlaying = true) :
    ∃ mg, endMargin F m t = some mg ∧ t1.dpos ≤ (t.dlen + wrapU32 mg) % 2 ^ 32 := by
  unfold advanceTrack at h
  rw [hpa, hl] at h
  simp only [Bool.false_eq_true, if_false] at h
  cases hpos : advancePos F n t with
  | none => simp [hpos] at h
  | some p =>
    simp only [hpos] at h
    cases hmg : endMargin F m t with
    | none => simp [hmg] at h
    | some mg =>
      simp only [hmg] at h
      split at h
      · cases h
        cases hp
      · rename_i hle
        cases h
        exact ⟨mg, rfl, Nat.le_of_not_lt hle⟩

theorem positionBound_step {F : FloatModel} {bits : Nat} {m m1 : DeviceAudioSdl}
    {c : Call} (h : step F bits m c = some m1) (hc : updateKeepsBound F bits m c = true)
    (hinv : PositionBound F m) : PositionBound F m1 := by
  intro i t1 h1 hp1 hl1 mg hmg
  have hfreq := (step_store h).1
  obtain ⟨t, ht, hcase⟩ := step_slot h h1
  rcases hcase with e | e | e | e | ⟨uh, pause, a, ec, hv, e⟩ | ⟨n, e⟩
  · subst e
    refine hinv i t1 ht hp1 hl1 mg ?_
    rw [← endMargin_congr F hfreq rfl]
    exact hmg
  · rw [e] at hp1
    cases hp1
  · rw [e]
    exact Nat.zero_le _
  · rw [e] at hl1
    cases hl1
  · subst ec
    have hp : t.isPlaying = true := by rw [e] at hp1; exact hp1
    have hl : t.isLoop = false := by rw [e] at hl1; exact hl1
    have hpos : t1.dpos = t.dpos := by rw [e]
    have hlen : t1.dlen = t.dlen := by rw [e]
    have hdis : t1.disparity = a.disparity := by rw [e]
    rw [hpos, hlen]
    simp only [updateKeepsBound, hv, ht, Bool.or_eq_true, decide_eq_true_eq] at hc
    rcases hc with (hc | hc) | hc
    · refine hinv i t ht hp hl mg ?_
      rw [← endMargin_congr F hfreq (show t1.disparity = t.disparity by rw [hdis, hc])]
      exact hmg
    · rw [hl] at hc
      cases hc
    · have hmg2 : endMargin F m { t with disparity := a.disparity } = some mg := by
        rw [← endMargin_congr F hfreq (show t1.disparity =
          ({ t with disparity := a.disparity } : AudioTrack).disparity from hdis)]
        exact hmg
      rw [hmg2] at hc
      simpa using hc
  · have hf := advanceTrack_frame e
    have hp : t.isPlaying = true := hf.2.1 hp1
    have hd1 : t1.disparity = t.disparity := by rw [hf.1]
    have hl : t.isLoop = false := by rw [hf.1] at hl1; exact hl1
    have hn1 : t1.dlen = t.dlen := by rw [hf.1]
    rw [endMargin_congr F hfreq hd1] at hmg
    by_cases hpa : t.isPaused = true
    · rw [hf.2.2.2 hpa]
      exact hinv i t ht hp hl mg hmg
    · obtain ⟨mg1, hmg1, hle⟩ := advanceTrack_bound e (by simpa using hpa) hl hp1
      rw [hmg] at hmg1
      cases hmg1
      rw [hn1]
      exact hle

theorem positionBound_run {F : FloatModel} {bits : Nat} :
    ∀ {cs : List Call} {m m1 : DeviceAudioSdl}, run F bits m cs = some m1 →
      updatesKeepBound F bits m cs = true →
      PositionBound F m → PositionBound F m1
  | [], m, m1, h, _, hinv => by
    simp only [run, Option.some.injEq] at h
    subst h
    exact hinv
  | c :: cs, m, m1, h, hcs, hinv => by
    simp only [run] at h
    cases hs : step F bits m c with
    | none => simp [hs] at h
    | some m2 =>
      simp only [hs] at h
      simp only [updatesKeepBound, hs, Bool.and_eq_true] at hcs
      exact positionBound_run h hcs.2 (positionBound_step hs hcs.1 hinv)

theorem run_freq {F : FloatModel} {bits : Nat} :
    ∀ {cs : List Call} {m m1 : DeviceAudioSdl}, run F bits m cs = some m1 →
      m1.m_freq = m.m_freq
  | [], m, m1, h => by
    simp only [run, Option.some.injEq] at h
    subst h
    rfl
  | c :: cs, m, m1, h => by
    simp only [run] at h
    cases hs : step F bits m c with
    | none => simp [hs] at h
    | some m2 =>
      simp only [hs] at h
      rw [run_freq h, (step_store hs).1]

theorem positionBound_construct (F : FloatModel) (uids : List Nat) (freq : Int)
    (isDesiredFormat : Bool) (volL volR : ℚ) :
    PositionBound F (DeviceAudioSdl.construct uids freq isDesiredFormat volL volR) := by
  intro i t ht hp
  unfold DeviceAudioSdl.construct at ht
  simp only [List.getElem?_map, Option.map_eq_some'] at ht
  obtain ⟨u, -, hu⟩ := ht
  rw [← hu] at hp
  cases hp

theorem endMargin_zero {F : FloatModel} (m : DeviceAudioSdl) {t : AudioTrack}
    (hF : F.r32 0 = 0) (hd : t.disparity = 0) : endMargin F m t = some 0 := by
  unfold endMargin
  rw [hd, neg_zero, mul_zero, hF]
  rfl

/-- Calls without `soundUpdate` satisfy the proviso `updatesKeepBound`, whatever their
disparities are. -/
theorem updatesKeepBound_of_no_update (F : FloatModel) (bits : Nat) :
    ∀ (cs : List Call) (m : DeviceAudioSdl),
      (∀ c ∈ cs, ∀ uniqueHandle pause a, c ≠ Call.update uniqueHandle pause a) →
      updatesKeepBound F bits m cs = true
  | [], _, _ => rfl
  | c :: cs, m, h => by
    have hc : updateKeepsBound F bits m c = true := by
      cases c with
      | update uniqueHandle pause a =>
        exact absurd rfl (h _ (List.mem_cons_self _ _) uniqueHandle pause a)
      | _ => rfl
    simp only [updatesKeepBound, hc, Bool.true_and]
    cases step F bits m c with
    | none => rfl
    | some m1 =>
      exact updatesKeepBound_of_no_update F bits cs m1
        (fun c1 hc1 => h c1 (List.mem_cons_of_mem _ hc1))

/-- C11 (counterexample): a playing slot that is not looping reaches position = length.
After loading a sample of 4 bytes and playing it at native speed, a render block of 4
output values leaves the slot playing, not looping, at position 4. -/
theorem position_reaches_length :
    (run FloatModel.exact 12 freshMixer
      [paddedLoad, Call.play 1 exampleArgs, Call.render 4]).map (fun m => m.ma_sound[0]?) =
      some (some { paddedTrack false with dpos := 4 }) ∧
    ({ paddedTrack false with dpos := 4 } : AudioTrack).isPlaying = true ∧
    ({ paddedTrack false with dpos := 4 } : AudioTrack).isLoop = false ∧
    ({ paddedTrack false with dpos := 4 } : AudioTrack).dlen = 4 ∧
    ¬ (({ paddedTrack false with dpos := 4 } : AudioTrack).dpos <
      ({ paddedTrack false with dpos := 4 } : AudioTrack).dlen) := by
  refine ⟨?_, ?_, ?_, ?_, ?_⟩ <;> decide!

/-- The proviso on `soundUpdate` is needed: after a play at disparity 1/1024 and a block of
88 output values the slot is playing at position 88, within its margin of 86 past the
length 4; an update to disparity 0 leaves it playing at position 88 with the margin 0. -/
theorem update_can_lower_margin :
    (run FloatModel.exact 12 freshMixer
      [paddedLoad, Call.play 1 ⟨1, 1, 1 / 1024, 1⟩, Call.render 88]).map
        (fun m => m.ma_sound[0]?) =
      some (some { paddedTrack false with dpos := 88, disparity := 1 / 1024 }) ∧
    endMargin FloatModel.exact freshMixer
      { paddedTrack false with dpos := 88, disparity := 1 / 1024 } = some 86 ∧
    (run FloatModel.exact 12 freshMixer
      [paddedLoad, Call.play 1 ⟨1, 1, 1 / 1024, 1⟩, Call.render 88,
       Call.update 8192 false ⟨1, 1, 0, 1⟩]).map (fun m => m.ma_sound[0]?) =
      some (some { paddedTrack false with dpos := 88 }) ∧
    endMargin FloatModel.exact freshMixer { paddedTrack false with dpos := 88 } = some 0 ∧
    ¬ (({ paddedTrack false with dpos := 88 } : AudioTrack).dpos ≤
      (({ paddedTrack false with dpos := 88 } : AudioTrack).dlen + wrapU32 0) % 2 ^ 32) ∧
    updatesKeepBound FloatModel.exact 12 freshMixer
      [paddedLoad, Call.play 1 ⟨1, 1, 1 / 1024, 1⟩, Call.render 88,
       Call.update 8192 false ⟨1, 1, 0, 1⟩] = false := by
  refine ⟨?_, ?_, ?_, ?_, ?_, ?_⟩ <;> decide!

/-- C11 (amended): along any sequence of control calls and render blocks, from a state
satisfying the bound (as after construction), every playing slot that is not looping has
position at most length plus the margin `2*|int(freq * -disparity)|` of its own disparity
(in 32-bit unsigned arithmetic), hence position ≤ length for a slot of disparity 0, provided
every accepted `soundUpdate` leaves the disparity of its slot as it is or leaves the
position of the slot within the margin of the new disparity.  The plays and loops may use
any disparities. -/
theorem position_within_margin (F : FloatModel) (bits : Nat) (m m1 : DeviceAudioSdl)
    (cs : List Call) (hrun : run F bits m cs = some m1)
    (hup : updatesKeepBound F bits m cs = true) (hinv : PositionBound F m) :
    PositionBound F m1 ∧
    (∀ (i : Nat) (t : AudioTrack), m1.ma_sound[i]? = some t → t.isPlaying = true →
      t.isLoop = false → ∀ mg, endMargin F m1 t = some mg →
      mg = 2 * |truncQ (F.r32 (F.r32 (m.m_freq : ℚ) * (-t.disparity)))| ∧
      t.dpos ≤ (t.dlen + wrapU32 mg) % 2 ^ 32) ∧
    (F.r32 0 = 0 → ∀ (i : Nat) (t : AudioTrack), m1.ma_sound[i]? = some t →
      t.isPlaying = true → t.isLoop = false → t.disparity = 0 → t.dpos ≤ t.dlen) := by
  have h1 := positionBound_run hrun hup hinv
  refine ⟨h1, ?_, ?_⟩
  · intro i t ht hp hl mg hmg
    refine ⟨?_, h1 i t ht hp hl mg hmg⟩
    rw [(endMargin_eq_some hmg).1, run_freq hrun]
  · intro hF i t ht hp hl hd
    have := h1 i t ht hp hl 0 (endMargin_zero m1 hF hd)
    have h0 : wrapU32 0 = 0 := by decide
    rw [h0, Nat.add_zero] at this
    exact Nat.le_trans this (Nat.mod_le _ _)

theorem position_within_margin_witness :
    PositionBound FloatModel.exact freshMixer ∧
    updatesKeepBound FloatModel.exact 12 freshMixer
      [paddedLoad, Call.play 1 ⟨1, 1, 0, 1⟩, Call.play 1 ⟨1, 1, 1 / 1024, 1⟩, Call.render 2,
       Call.update 12289 false ⟨1 / 2, 1 / 2, 1 / 1024, 1⟩, Call.render 2] = true ∧
    (run FloatModel.exact 12 freshMixer
      [paddedLoad, Call.play 1 ⟨1, 1, 0, 1⟩, Call.play 1 ⟨1, 1, 1 / 1024, 1⟩, Call.render 2,
       Call.update 12289 false ⟨1 / 2, 1 / 2, 1 / 1024, 1⟩, Call.render 2]).map
        (fun m => m.ma_sound) = some [{ paddedTrack false with dpos := 4 }, delayedTrack] ∧
    ({ paddedTrack false with dpos := 4 } : AudioTrack).dpos ≤
      ({ paddedTrack false with dpos := 4 } : AudioTrack).dlen ∧
    delayedTrack.dpos ≤ (delayedTrack.dlen + wrapU32 86) % 2 ^ 32 :=
  ⟨positionBound_construct FloatModel.exact [0, 0] 44100 true 1 1, by decide!, by decide!,
   (position_within_margin FloatModel.exact 12 freshMixer
      ((run FloatModel.exact 12 freshMixer
        [paddedLoad, Call.play 1 ⟨1, 1, 0, 1⟩, Call.play 1 ⟨1, 1, 1 / 1024, 1⟩, Call.render 2,
         Call.update 12289 false ⟨1 / 2, 1 / 2, 1 / 1024, 1⟩, Call.render 2]).get (by decide!))
      [paddedLoad, Call.play 1 ⟨1, 1, 0, 1⟩, Call.play 1 ⟨1, 1, 1 / 1024, 1⟩, Call.render 2,
       Call.update 12289 false ⟨1 / 2, 1 / 2, 1 / 1024, 1⟩, Call.render 2]
      (Option.some_get _).symm (by decide!)
      (positionBound_construct FloatModel.exact [0, 0] 44100 true 1 1)).2.2 rfl 0
        { paddedTrack false with dpos := 4 } (by decide!) (by decide!) (by decide!) (by decide!),
   ((position_within_margin FloatModel.exact 12 freshMixer
      ((run FloatModel.exact 12 freshMixer
        [paddedLoad, Call.play 1 ⟨1, 1, 0, 1⟩, Call.play 1 ⟨1, 1, 1 / 1024, 1⟩, Call.render 2,
         Call.update 12289 false ⟨1 / 2, 1 / 2, 1 / 1024, 1⟩, Call.render 2]).get (by decide!))
      [paddedLoad, Call.play 1 ⟨1, 1, 0, 1⟩, Call.play 1 ⟨1, 1, 1 / 1024, 1⟩, Call.render 2,
       Call.update 12289 false ⟨1 / 2, 1 / 2, 1 / 1024, 1⟩, Call.render 2]
      (Option.some_get _).symm (by decide!)
      (positionBound_construct FloatModel.exact [0, 0] 44100 true 1 1)).2.1 1
        delayedTrack (by decide!) (by decide!) (by decide!) 86 (by decide!)).2⟩

end ProAudio
